import Mathlib

/-!
Verification development for the Astro codegen module
(`packages/astro/src/compiler/codegen/index.ts`).

The TypeScript source is shallowly embedded: pure helpers become Lean
functions, the stateful template walk becomes explicit state passing with
an `Except` monad for thrown errors, and external collaborators (the
esbuild expression transpiler, the Markdown renderer, the template
parser, URL resolution) are oracle parameters.  JavaScript strings are
Lean `String`s; JavaScript objects used as ordered string maps are
association lists; JavaScript `Set`s are duplicate-free lists in
insertion order.  All string literals use double quotes throughout.
-/

/-! ### Generic string and character helpers (JS semantics) -/

/-- Number of occurrences of a character in a string. -/
def countChar (c : Char) (s : String) : Nat := s.data.count c

/-- Open-parenthesis count minus close-parenthesis count, as an integer. -/
def parenBal (s : String) : Int := (countChar '(' s : Int) - (countChar ')' s : Int)

/-- Equality of the counts of open and close parentheses. -/
def parenBalanced (s : String) : Bool := countChar '(' s == countChar ')' s

/-- Whitespace as recognized by JavaScript `String.prototype.trim`
(restricted to the ASCII whitespace characters that occur in templates). -/
def isJsWs (c : Char) : Bool :=
  c == ' ' || c == '\t' || c == '\n' || c == '\r' || c == '\x0b' || c == '\x0c'

/-- Model of JavaScript `String.prototype.trim`. -/
def jsTrim (s : String) : String :=
  ⟨((s.data.dropWhile isJsWs).reverse.dropWhile isJsWs).reverse⟩

/-- Hexadecimal digit character for a nibble. -/
def hexDigit (n : Nat) : Char :=
  (List.getD ("0123456789abcdef").data n '0')

/-- JSON escape of a single character, as produced by `JSON.stringify`. -/
def jsonEscapeChar (c : Char) : List Char :=
  if c = '"' then ['\\', '"']
  else if c = '\\' then ['\\', '\\']
  else if c = '\n' then ['\\', 'n']
  else if c = '\r' then ['\\', 'r']
  else if c = '\t' then ['\\', 't']
  else if c = '\x08' then ['\\', 'b']
  else if c = '\x0c' then ['\\', 'f']
  else if c.toNat < 32 then
    ['\\', 'u', '0', '0', hexDigit (c.toNat / 16), hexDigit (c.toNat % 16)]
  else [c]

/-- Model of `JSON.stringify` applied to a string. -/
def jsonString (s : String) : String :=
  ⟨'"' :: (s.data.map jsonEscapeChar).flatten ++ ['"']⟩

/-- Split a string at every occurrence of the given character, JS
`String.prototype.split` with a one-character separator. -/
def jsSplitCharAux (sep : Char) : List Char → List Char → List String
  | [], acc => [⟨acc.reverse⟩]
  | c :: rest, acc =>
    if c = sep then ⟨acc.reverse⟩ :: jsSplitCharAux sep rest []
    else jsSplitCharAux sep rest (c :: acc)

/-- JS `s.split(sep)` for a single-character separator. -/
def jsSplitChar (sep : Char) (s : String) : List String :=
  jsSplitCharAux sep s.data []

/-- JS `s.indexOf(c) > 0`: the character occurs at a positive index. -/
def jsIndexOfPos (c : Char) (s : String) : Bool :=
  match s.data with
  | [] => false
  | first :: rest => first != c && rest.contains c

/-- JS `s.slice(1, -1)`: drop the first and the last character. -/
def jsSliceOneNegOne (s : String) : String :=
  ⟨(s.data.drop 1).dropLast⟩

/-- True when the string has a character that is not JS whitespace. -/
def hasSolidChar (s : String) : Bool := s.data.any (fun c => !(isJsWs c))

/-! ### The output cleanup chain (`compileHtml` final regex rewrites) -/

/-- Rewrite for `.replace(/^\,/, "")`: strip one leading comma. -/
def stripLeadingComma (s : String) : String :=
  match s.data with
  | ',' :: rest => ⟨rest⟩
  | _ => s

/-- Rewrite for `.replace(/\,\)/g, ")")`: left-to-right, non-overlapping. -/
def collapseCommaParen : List Char → List Char
  | ',' :: ')' :: rest => ')' :: collapseCommaParen rest
  | c :: rest => c :: collapseCommaParen rest
  | [] => []

/-- Rewrite for `.replace(/\,+/g, ",")`: collapse every comma run to one
comma (implemented as a right fold keeping a comma only when the
following character is not a comma, which collapses runs identically). -/
def dropDupCommas (l : List Char) : List Char :=
  l.foldr (fun c acc => if c = ',' ∧ acc.head? = some ',' then acc else c :: acc) []

/-- Rewrite for `.replace(/\)h/g, "),h")`: left-to-right, non-overlapping. -/
def insertCommaParenH : List Char → List Char
  | ')' :: 'h' :: rest => ')' :: ',' :: 'h' :: insertCommaParenH rest
  | c :: rest => c :: insertCommaParenH rest
  | [] => []

/-- The four text rewrites applied to `buffers.out` after the walk, in
source order. -/
def cleanupHtml (s : String) : String :=
  ⟨insertCommaParenH (dropDupCommas (collapseCommaParen (stripLeadingComma s).data))⟩

/-! ### Logging sink -/

/-- Events sent to the logging sink (`warn`, `error`, `parseError`). -/
inductive LogEvent where
  | warnEv (msg : String)
  | errEv (msg : String)
  | parseErrEv (msg : String)
deriving Repr, DecidableEq

/-- Number of `error`-level events in a log (most recent first). -/
def errCount (log : List LogEvent) : Nat :=
  log.countP (fun e => match e with | .errEv _ => true | _ => false)

/-! ### Hydration directives -/

/-- The set `hydrationDirectives` from the source. -/
def hydrationDirectives : List String :=
  ["client:load", "client:idle", "client:visible", "client:media", "client:only"]

/-- Result record of `findHydrationAttributes`. -/
structure HydrationAttributes where
  method : Option String
  value : Option String
deriving Repr, DecidableEq

/-- JS `key.slice(7)`: the suffix after `"client:"`. -/
def sliceAfterClient (s : String) : String := ⟨s.data.drop 7⟩

/-- `findHydrationAttributes`: iterates over all entries of the resolved
attribute map; every matching key overwrites `method` and `value`
(the source loop has no break). -/
def findHydrationAttributes (attrs : List (String × String)) : HydrationAttributes :=
  attrs.foldl
    (fun acc kv =>
      if hydrationDirectives.contains kv.1 then
        { method := some (sliceAfterClient kv.1)
          value := if kv.2 = "true" then none else some kv.2 }
      else acc)
    { method := none, value := none }

/-- Modelled from the spec: the claimed classifier that selects the
FIRST key of the map matching a hydration directive (for comparison
with the implementation). -/
def findHydrationAttributesSpecFirst (attrs : List (String × String)) : HydrationAttributes :=
  match attrs.find? (fun kv => hydrationDirectives.contains kv.1) with
  | some kv =>
    { method := some (sliceAfterClient kv.1)
      value := if kv.2 = "true" then none else some kv.2 }
  | none => { method := none, value := none }

/-- The classifier that selects the LAST matching key of the map, with
the suffix and value rules of the spec kept unchanged. -/
def findHydrationAttributesSpecLast (attrs : List (String × String)) : HydrationAttributes :=
  match attrs.reverse.find? (fun kv => hydrationDirectives.contains kv.1) with
  | some kv =>
    { method := some (sliceAfterClient kv.1)
      value := if kv.2 = "true" then none else some kv.2 }
  | none => { method := none, value := none }

/-! ### `generateAttributes` -/

/-- The string contributed to the props object by one resolved attribute:
hydration directives are skipped, spread keys are emitted bare, other
entries are emitted as `JSON.stringify(key) : value ,`. -/
def attrEntry (kv : String × String) : Option String :=
  if hydrationDirectives.contains kv.1 then none
  else if kv.1.startsWith "..." then some (kv.1 ++ ",")
  else some (jsonString kv.1 ++ ":" ++ kv.2 ++ ",")

/-- `generateAttributes`: convert the resolved attribute map to a props
object literal; always ends with the `__astroContext` passthrough entry. -/
def generateAttributes (attrs : List (String × String)) : String :=
  "\x7b" ++ String.join (attrs.filterMap attrEntry)
    ++ "[__astroContext]:props[__astroContext]" ++ "\x7d"

/-! ### Ordered maps and sets (JS `Map`, `Set`, plain objects) -/

/-- JS `Map.prototype.set` / object key assignment: replace in place when
the key exists, otherwise append. -/
def mapSet {α : Type} (m : List (String × α)) (k : String) (v : α) : List (String × α) :=
  if m.any (fun kv => kv.1 = k) then m.map (fun kv => if kv.1 = k then (k, v) else kv)
  else m ++ [(k, v)]

/-- JS `Map.prototype.get` / object key lookup. -/
def mapGet {α : Type} (m : List (String × α)) (k : String) : Option α :=
  (m.find? (fun kv => kv.1 = k)).map (·.2)

/-- JS `Set.prototype.add`: append when absent. -/
def setAdd (s : List String) (x : String) : List String :=
  if s.contains x then s else s ++ [x]

/-- JS `Set.prototype.delete`: remove the element (a `Set` holds at most
one occurrence). -/
def setDelete (s : List String) (x : String) : List String :=
  s.filter (fun y => y ≠ x)

/-! ### Component descriptors and the component wrapper -/

/-- Import specifier shapes recorded for a component
(`@babel/types` specifier nodes restricted to the fields the codegen reads). -/
inductive ImportSpecifierAst where
  | importDefaultSpecifier (localName : String)
  | importSpecifier (localName : String) (importedName : String)
  | importNamespaceSpecifier (localName : String)
deriving Repr, DecidableEq

/-- Local name of a specifier (`specifier.local.name`). -/
def specifierLocalName : ImportSpecifierAst → String
  | .importDefaultSpecifier n => n
  | .importSpecifier n _ => n
  | .importNamespaceSpecifier n => n

/-- `ComponentInfo`: import specifier plus raw import source URL. -/
structure ComponentInfo where
  importSpecifier : ImportSpecifierAst
  url : String
deriving Repr, DecidableEq

/-- Modelled from the spec: `isCustomElementTag` lives in
`compiler/utils.ts`, which is not among the sources; per the glossary a
custom element is a lowercase tag name containing a hyphen. -/
def isCustomElementTag (name : String) : Bool :=
  name.data.contains '-' &&
    (match name.data.head? with
     | some c => c.isLower
     | none => false)

/-- Modelled from the spec: `isComponentTag` lives in `compiler/utils.ts`,
which is not among the sources; component tags are the ones not treated
as plain HTML elements, i.e. capitalized names, namespaced (dotted)
names and custom-element (hyphenated) names. -/
def isComponentTag (name : String) : Bool :=
  (match name.data.head? with
   | some c => c.isUpper
   | none => false)
    || name.data.contains '.' || name.data.contains '-'

/-- Model of node `path.extname`: the final extension of the last path
segment, empty for dotfiles and extension-less names. -/
def extname (p : String) : String :=
  let base := ((jsSplitChar '/' p).getLastD "").data
  let afterDot := base.reverse.takeWhile (fun c => c ≠ '.')
  if afterDot.length = base.length then ""
  else if afterDot.length + 1 = base.length then ""
  else ⟨'.' :: afterDot.reverse⟩

/-- Index of the first occurrence of a character-list pattern. -/
def findSubIdx (pat : List Char) : List Char → Option Nat
  | [] => if pat = [] then some 0 else none
  | c :: rest =>
    if pat.isPrefixOf (c :: rest) then some 0
    else (findSubIdx pat rest).map (· + 1)

/-- JS `s.replace(pat, repl)` with a plain-string pattern: first
occurrence only. -/
def replaceFirstStr (s pat repl : String) : String :=
  match findSubIdx pat.data s.data with
  | some i => ⟨s.data.take i ++ repl.data ++ s.data.drop (i + pat.data.length)⟩
  | none => s

/-- JS `s.replace(/\.[^.]+$/, ext)`: replace a trailing dot-extension
with `ext` when one exists. -/
def replaceFinalExt (s ext : String) : String :=
  let cs := s.data
  let tail := cs.reverse.takeWhile (fun c => c ≠ '.')
  if tail.length = 0 ∨ tail.length = cs.length then s
  else ⟨cs.take (cs.length - tail.length - 1) ++ ext.data⟩

/-- Astro configuration fields the codegen reads (URLs pre-flattened to
strings: `projectRoot.href`, `projectRoot.pathname`,
`fileURLToPath(pages)`). -/
structure AstroConfig where
  projectRootHref : String
  projectRootPathname : String
  pagesPath : String
deriving Repr, DecidableEq

/-- The `PlainExtensions` set from the source. -/
def PlainExtensions : List String := [".js", ".jsx", ".ts", ".tsx"]

/-- `getComponentUrl`: synthesize the runtime URL of a component.
WHATWG URL resolution (`new URL(url, parentUrl).href`) is external and
passed as the oracle `resolveUrl`. -/
def getComponentUrl (resolveUrl : String → String → String) (astroConfig : AstroConfig)
    (url : String) (parentUrl : String) : String :=
  let componentExt := extname url
  let ext := if PlainExtensions.contains componentExt then ".js" else componentExt ++ ".js"
  let outHref := resolveUrl url parentUrl
  "/_astro/" ++ replaceFinalExt (replaceFirstStr outHref astroConfig.projectRootHref "") ext

/-- Simplified model of the external `path.posix.relative`, used only to
build warning text. -/
def posixRelative (base p : String) : String :=
  if p.startsWith base then ⟨p.data.drop base.data.length⟩ else p

/-- Result of `getComponentWrapper`. -/
structure ComponentWrapper where
  wrapper : String
  wrapperImports : List String
deriving Repr, DecidableEq

/-- `getComponentExport` composed with the `JSON.stringify` applied to
its result at the call site. -/
def getComponentExport (importSpecifier : ImportSpecifierAst) (nameFull : String) : String :=
  match importSpecifier with
  | .importDefaultSpecifier _ => "\x7b\"value\":\"default\"\x7d"
  | .importSpecifier _ imported => "\x7b\"value\":" ++ jsonString imported ++ "\x7d"
  | .importNamespaceSpecifier _ =>
    match (jsSplitChar '.' nameFull).get? 1 with
    | some v => "\x7b\"value\":" ++ jsonString v ++ "\x7d"
    | none => "\x7b\x7d"

/-- `JSON.stringify(\x7b hydrate: method, displayName: name \x7d)`: an
undefined `hydrate` key is omitted by `JSON.stringify`. -/
def hydrateDisplayJson (method : Option String) (displayName : String) : String :=
  match method with
  | some m =>
    "\x7b\"hydrate\":" ++ jsonString m ++ ",\"displayName\":" ++ jsonString displayName ++ "\x7d"
  | none => "\x7b\"displayName\":" ++ jsonString displayName ++ "\x7d"

/-- JS `hydration.value || "null"` interpolated into the metadata. -/
def hydrationValueOrNull (v : Option String) : String :=
  match v with
  | some s => if s = "" then "null" else s
  | none => "null"

/-- The hydrated-component metadata object literal
`\x7b hydrate: "m", displayName: "n", componentUrl: "u", componentExport: e, value: v \x7d`. -/
def hydratedMetadata (m name componentUrl componentExport valuePart : String) : String :=
  "\x7b hydrate: \"" ++ m ++ "\", displayName: \"" ++ name ++ "\", componentUrl: \""
    ++ componentUrl ++ "\", componentExport: " ++ componentExport
    ++ ", value: " ++ valuePart ++ " \x7d"

/-- The non-hydrated metadata object literal. -/
def plainMetadata (name valuePart : String) : String :=
  "\x7b hydrate: undefined, displayName: \"" ++ name ++ "\", value: " ++ valuePart ++ " \x7d"

/-- `getComponentWrapper`: legacy `Name:method` normalization (with a
deprecation warning), the custom-element branch, and wrapper synthesis
for imported components.  For `client:only` the emitted identifier is
replaced by `Fragment` after the metadata (which keeps the original
display name) has been computed. -/
def getComponentWrapper (resolveUrl : String → String → String)
    (pathToFileUrl : String → String) (nameFull : String)
    (hydration : HydrationAttributes) (info : ComponentInfo)
    (filename : String) (astroConfig : AstroConfig) (log : List LogEvent) :
    ComponentWrapper × List LogEvent :=
  let legacy := jsIndexOfPos ':' nameFull
  let name :=
    if legacy then (jsSplitChar ':' nameFull).getD 0 "" else nameFull
  let method :=
    if legacy then some ((jsSplitChar ':' nameFull).getD 1 "") else hydration.method
  let log1 :=
    if legacy then
      let shortname := posixRelative astroConfig.projectRootPathname filename
      .warnEv (shortname ++ ": Deprecation warning: Partial hydration now uses a directive syntax. Please update to \"<"
          ++ name ++ " client:" ++ (match method with | some m => m | none => "") ++ " />\"") :: log
    else log
  if isCustomElementTag nameFull then
    (⟨"__astro_component(...__astro_element_registry.astroComponentArgs(\"" ++ name ++ "\", "
        ++ hydrateDisplayJson method nameFull ++ "))",
      ["import \x7bAstroElementRegistry\x7d from \"astro/dist/internal/element-registry.js\";",
       "import \x7b__astro_component\x7d from \"astro/dist/internal/__astro_component.js\";"]⟩,
     log1)
  else
    match method with
    | some m =>
      let componentUrl := getComponentUrl resolveUrl astroConfig info.url (pathToFileUrl filename)
      let componentExport := getComponentExport info.importSpecifier nameFull
      let metadata :=
        hydratedMetadata m name componentUrl componentExport (hydrationValueOrNull hydration.value)
      let finalName := if m = "only" then "Fragment" else name
      (⟨"__astro_component(" ++ finalName ++ ", " ++ metadata ++ ")",
        ["import \x7b__astro_component\x7d from \"astro/dist/internal/__astro_component.js\";"]⟩,
       log1)
    | none =>
      (⟨"__astro_component(" ++ name ++ ", "
          ++ plainMetadata name (hydrationValueOrNull hydration.value) ++ ")",
        ["import \x7b__astro_component\x7d from \"astro/dist/internal/__astro_component.js\";"]⟩,
       log1)

/-! ### Frontmatter statements and `compileModule` -/

/-- JavaScript expressions, restricted to the shapes the
`Astro.fetchContent` rewrite inspects: a call of a member expression is
kept with the identifier names of its object and property; the
synthesized `import.meta.globEager` callee is a distinguished shape. -/
inductive JsExpr where
  | stringLit (s : String)
  | identExpr (name : String)
  | callMember (objName : String) (propName : String) (args : List JsExpr)
  | callImportMetaGlobEager (args : List JsExpr)
  | otherExpr

/-- The `Astro.fetchContent` rewrite on one expression tree (the babel
`traverse` enter hook: matching calls have their argument checked to be
a string literal, then wrapped in `import.meta.globEager(...)`; the
walk then continues through the resulting children). -/
def rewriteFetchContentExpr (fuel : Nat) : JsExpr → Except String JsExpr
  | e =>
    match fuel with
    | 0 => .error "FUEL"
    | fuel + 1 =>
      match e with
      | .stringLit s => .ok (.stringLit s)
      | .identExpr n => .ok (.identExpr n)
      | .otherExpr => .ok .otherExpr
      | .callImportMetaGlobEager args =>
        (args.mapM (rewriteFetchContentExpr fuel)).map .callImportMetaGlobEager
      | .callMember obj prop args =>
        if obj = "Astro" ∧ prop = "fetchContent" then
          match args.head? with
          | none => .error "TypeError: cannot read type of undefined"
          | some (.stringLit _) =>
            (args.mapM (rewriteFetchContentExpr fuel)).map
              (fun args2 => .callMember obj prop [.callImportMetaGlobEager args2])
          | some _ => .error "[Astro.fetchContent] Only string literals allowed"
        else
          (args.mapM (rewriteFetchContentExpr fuel)).map (.callMember obj prop)

/-- Top-level frontmatter statements, restricted to the fields the
classification loop reads; `text` is the raw source slice
`module.content.slice(start, end)`.  Declarator identifiers are
`Option String` (`none` for binding patterns, whose `.name` is
undefined). -/
inductive ModuleStmt where
  | importDecl (specifiers : List ImportSpecifierAst) (source : String) (text : String)
  | exportVarDecl (declIds : List (Option String)) (inits : List JsExpr) (text : String)
  | exportFuncDecl (fname : Option String) (text : String)
  | exportNoDecl (text : String)
  | funcDecl (fname : Option String)
  | varDecl (declIds : List (Option String)) (inits : List JsExpr)
  | exprStmt (e : JsExpr)
  | otherStmt (text : String)

/-- The fetchContent rewrite applied to the expressions embedded in one
statement. -/
def rewriteFetchContentStmt (fuel : Nat) : ModuleStmt → Except String ModuleStmt
  | .exportVarDecl ids inits text =>
    (inits.mapM (rewriteFetchContentExpr fuel)).map (fun is2 => .exportVarDecl ids is2 text)
  | .varDecl ids inits =>
    (inits.mapM (rewriteFetchContentExpr fuel)).map (fun is2 => .varDecl ids is2)
  | .exprStmt e => (rewriteFetchContentExpr fuel e).map .exprStmt
  | s => .ok s

/-- Match of `/Astro\s*\.\s*fetchContent/` at the head of the character
list. -/
def matchAstroFetchAt (l : List Char) : Bool :=
  if ("Astro".data).isPrefixOf l then
    match (l.drop 5).dropWhile isJsWs with
    | '.' :: l2 => ("fetchContent".data).isPrefixOf (l2.dropWhile isJsWs)
    | _ => false
  else false

/-- Model of the regex test `/Astro\s*\.\s*fetchContent/.test(content)`. -/
def regexTestAstroFetchContent : List Char → Bool
  | [] => false
  | c :: rest => matchAstroFetchAt (c :: rest) || regexTestAstroFetchContent rest

/-- Collections produced by the reverse statement-classification loop of
`compileModule`; pushed lists are in the loop's processing order
(last statement first), matching the JS arrays. -/
structure ModuleScanResult where
  body : List ModuleStmt
  componentImports : List ModuleStmt
  componentProps : List (Option String)
  componentExports : List ModuleStmt
  getStaticPaths : String
  declarationAdds : List String

/-- The statement-classification loop (`while (--i >= 0)` over the
program body with `splice` removals): later statements are processed
first; imports, prop-style exports, the two special exports and the
`getStaticPaths` export are removed from the body. -/
def scanModuleBody : List ModuleStmt → Except String ModuleScanResult
  | [] => .ok ⟨[], [], [], [], "", []⟩
  | stmt :: rest => do
    let acc ← scanModuleBody rest
    match stmt with
    | .exportVarDecl ids _ _ =>
      match ids.head? with
      | none => .error "TypeError: cannot read id of undefined"
      | some id0 =>
        if id0 = some "__layout" ∨ id0 = some "__content" then
          .ok { acc with componentExports := acc.componentExports ++ [stmt] }
        else
          .ok { acc with componentProps := acc.componentProps ++ [id0] }
    | .exportFuncDecl fname text =>
      if fname = some "getStaticPaths" then
        .ok { acc with getStaticPaths := text }
      else
        .ok { acc with body := stmt :: acc.body }
    | .funcDecl fname =>
      match fname with
      | some n => .ok { acc with body := stmt :: acc.body, declarationAdds := n :: acc.declarationAdds }
      | none => .ok { acc with body := stmt :: acc.body }
    | .importDecl _ _ _ =>
      .ok { acc with componentImports := acc.componentImports ++ [stmt] }
    | .varDecl ids _ =>
      .ok { acc with body := stmt :: acc.body,
                     declarationAdds := ids.filterMap id ++ acc.declarationAdds }
    | s => .ok { acc with body := s :: acc.body }

/-- Modelled from the spec: the fixed set of Node builtin module names
(`node_builtins.js` is not among the sources). -/
def nodeBuiltinsSet : List String :=
  ["assert", "buffer", "child_process", "crypto", "events", "fs", "http", "https",
   "net", "os", "path", "querystring", "stream", "tls", "url", "util", "zlib"]

/-- Naive model of the external `camel-case` package: drop separator
characters and capitalize the following letter, lowercasing the first. -/
def camelCase (s : String) : String :=
  let pieces := (s.data.splitOnP (fun c => !c.isAlphanum)).filter (· ≠ [])
  match pieces with
  | [] => ""
  | p :: ps =>
    ⟨(p.map Char.toLower) ++
      (ps.map (fun q => match q with
        | [] => []
        | c :: cs => c.toUpper :: cs.map Char.toLower)).flatten⟩

/-- The injected fetch-content import line. -/
def fetchContentImport : String :=
  "import \x7bfetchContent\x7d from \"astro/dist/internal/fetch-content.js\";\n"

/-- The frontmatter script: raw text plus the result of the external
babel parse of that text. -/
structure Script where
  content : String
  body : List ModuleStmt

/-- Marker state for `markers.insideMarkdown`: `none` models the JS
literal `false`, `some` the `\x7b $scope, count \x7d` record. -/
structure MdMarker where
  scope : Option String
  count : Int
deriving Repr, DecidableEq

/-- `CodegenState` (ordered maps and sets as association lists). -/
structure CodegenState where
  components : List (String × ComponentInfo)
  css : List String
  filename : String
  fileID : String
  insideMarkdown : Option MdMarker
  declarations : List String
  exportStatements : List String
  importStatements : List String
  componentImports : List (String × List String)
  customElementCandidates : List (String × String)
deriving Repr, DecidableEq

/-- Result record of `compileModule`. -/
structure CompileResult where
  script : String
  getStaticPaths : Option String
deriving Repr, DecidableEq

/-- Register one import specifier in the codegen state
(the body of the specifier loop in `compileModule`). -/
def registerSpecifier (st : CodegenState) (spec : ImportSpecifierAst)
    (importUrl text : String) : CodegenState :=
  let componentName := specifierLocalName spec
  let st1 := { st with components := mapSet st.components componentName ⟨spec, importUrl⟩ }
  let st2 :=
    if (mapGet st1.componentImports componentName).isNone then
      { st1 with componentImports := mapSet st1.componentImports componentName [] }
    else st1
  let updated := mapSet st2.componentImports componentName
    ((mapGet st2.componentImports componentName).getD [] ++ [text])
  { st2 with componentImports := updated }

/-- Process one collected import declaration: builtin check, specifier
registration, and either the custom-element candidate synthesis or the
verbatim import line. -/
def processComponentImport (resolveUrl : String → String → String)
    (pathToFileUrl : String → String) (astroConfig : AstroConfig)
    (metaCustomElement : Bool) (st : CodegenState) (stmt : ModuleStmt) :
    Except String CodegenState :=
  match stmt with
  | .importDecl specifiers importUrl text =>
    if nodeBuiltinsSet.contains importUrl then
      .error ("Node builtins must be prefixed with \"node:\". Use node:" ++ importUrl ++ " instead.")
    else
      let st1 := specifiers.foldl (fun s spec => registerSpecifier s spec importUrl text) st
      if metaCustomElement ∧ specifiers = [] then
        let moduleImportName := camelCase (importUrl ++ "Module")
        .ok { st1 with
          importStatements := setAdd st1.importStatements
            ("import * as " ++ moduleImportName ++ " from \"" ++ importUrl ++ "\";\n"),
          customElementCandidates := mapSet st1.customElementCandidates moduleImportName
            (getComponentUrl resolveUrl astroConfig importUrl (pathToFileUrl st1.filename)) }
      else
        .ok { st1 with importStatements := setAdd st1.importStatements text }
  | _ => .ok st

/-- The classification-and-emission half of `compileModule`, run on the
body after the fetchContent rewrite: statement classification,
import/export/prop handling, and the final print-and-transpile of the
remaining program (the babel generator is the oracle `printModule`; the
esbuild transform is the oracle `transpile`; a transpile failure is a
fatal `Unable to compile script` error). -/
def compileModuleRest (printModule : List ModuleStmt → String)
    (transpile : String → Option String)
    (resolveUrl : String → String → String) (pathToFileUrl : String → String)
    (metaCustomElement : Bool) (state1 : CodegenState) (astroConfig : AstroConfig)
    (log : List LogEvent) (body1 : List ModuleStmt) :
    Except String (CompileResult × CodegenState × List LogEvent) := do
  let scan ← scanModuleBody body1
  let state2 := { state1 with declarations := scan.declarationAdds.foldl setAdd state1.declarations }
  let state3 ← scan.componentImports.foldlM
    (processComponentImport resolveUrl pathToFileUrl astroConfig metaCustomElement) state2
  let state4 := { state3 with
    exportStatements := scan.componentExports.foldl
      (fun es s => match s with
        | .exportVarDecl _ _ text => setAdd es text
        | _ => es) state3.exportStatements }
  let log1 :=
    if scan.componentProps ≠ [] then
      let props := scan.componentProps.filterMap id
      .warnEv ("Defining props with \"export\" has been removed! Please update your code to use: const \x7b "
          ++ String.intercalate ", " props ++ " \x7d = Astro.props;") :: log
    else log
  let script := "" ++ printModule scan.body
  match transpile script with
  | some transpiled =>
    .ok (⟨transpiled, if scan.getStaticPaths = "" then none else some scan.getStaticPaths⟩, state4, log1)
  | none => .error "Unable to compile script"

/-- `compileModule`: an absent module yields an empty script; otherwise
the fetchContent rewrite (with the injected import) runs first and the
classification half follows. -/
def compileModule (fuel : Nat) (printModule : List ModuleStmt → String)
    (transpile : String → Option String)
    (resolveUrl : String → String → String) (pathToFileUrl : String → String)
    (metaCustomElement : Bool) (moduleScript : Option Script)
    (state : CodegenState) (astroConfig : AstroConfig) (log : List LogEvent) :
    Except String (CompileResult × CodegenState × List LogEvent) :=
  match moduleScript with
  | none => .ok (⟨"", none⟩, state, log)
  | some m =>
    if regexTestAstroFetchContent m.content.data then
      match m.body.mapM (rewriteFetchContentStmt fuel) with
      | .error e => .error e
      | .ok body1 =>
        compileModuleRest printModule transpile resolveUrl pathToFileUrl metaCustomElement
          { state with importStatements := setAdd state.importStatements fetchContentImport }
          astroConfig log body1
    else
      compileModuleRest printModule transpile resolveUrl pathToFileUrl metaCustomElement
        state astroConfig log m.body

/-! ### Template AST -/

/-!
Template nodes, restricted to the kinds exercised by the walk cases
the sources define (the `Slot`, `Head`, `Title` and `Body` kinds are not
modelled).  `Expression` nodes carry alternating code chunks and child
nodes; attribute values mirror the parser shapes read by
`getAttributes`.
-/
mutual
inductive TemplateNode where
  | fragment (children : List TemplateNode)
  | element (name : String) (attributes : List AttrNode) (children : List TemplateNode)
  | inlineComponent (name : String) (attributes : List AttrNode) (children : List TemplateNode)
  | slotTemplate (attributes : List AttrNode) (children : List TemplateNode)
  | textNode (raw : String)
  | expressionNode (codeChunks : List String) (children : List TemplateNode)
  | mustacheTag (children : List TemplateNode)
  | commentNode
  | codeSpan (raw : String) (dataStr : String)
  | codeFence (raw : String) (dataStr : String)
  | styleNode (styles : String)

inductive AttrNode where
  | spread (codeChunks : List String) (children : List TemplateNode)
  | attr (name : String) (value : AttrValue)

inductive AttrValue where
  | vTrue
  | vFalse
  | parts (ps : List AttrPart)

inductive AttrPart where
  | textPart (raw : String)
  | mustachePart (codeChunks : List String) (children : List TemplateNode)
  | shorthandPart
  | unknownPart (kind : String)
end

/-- `node.name` (undefined for unnamed node kinds). -/
def nodeNameOpt : TemplateNode → Option String
  | .element n _ _ => some n
  | .inlineComponent n _ _ => some n
  | _ => none

/-- `attr.name` (undefined for spread attributes). -/
def attrNameOpt : AttrNode → Option String
  | .attr n _ => some n
  | .spread _ _ => none

/-- `node.attributes.find((attr) => attr.name === "slot")` as a Bool. -/
def hasSlotAttrNode (attrs : List AttrNode) : Bool :=
  attrs.any (fun a => attrNameOpt a = some "slot")

/-- The `FALSY_EXPRESSIONS` set from the source. -/
def FALSY_EXPRESSIONS : List String := ["false", "null", "undefined", "void 0"]

/-- The `PRISM_IMPORT` line.  Modelled from the spec: the constant lives
in `transform/prism.js`, which is not among the sources; the spec only
requires a fixed import line for the Prism component. -/
def PRISM_IMPORT : String :=
  "import Prism from \"astro/components/Prism.astro\";\n"

/-- The two slot runtime import lines. -/
def slotImport : String :=
  "import \x7b __astro_slot \x7d from \"astro/dist/internal/__astro_slot.js\";"

/-- The slot content wrapper import line. -/
def slotContentImport : String :=
  "import \x7b __astro_slot_content \x7d from \"astro/dist/internal/__astro_slot.js\";"

/-- Modelled from the spec: `warnIfRelativeStringLiteral` lives in
`codegen/utils.ts`, which is not among the sources; per the spec a
warning is emitted when a text attribute value outside a page file
begins with `./` or `../`. -/
def warnIfRelativeStringLiteral (nodeName attrName text : String) : Option LogEvent :=
  if text.startsWith "./" ∨ text.startsWith "../" then
    some (.warnEv ("Relative string literal " ++ text ++ " in attribute " ++ attrName
      ++ " of " ++ nodeName))
  else none

/-- `str.replace(pat, repl)` for a global plain pattern: every
non-overlapping occurrence, left to right. -/
def replaceAllSub (pat repl : List Char) : List Char → List Char
  | [] => []
  | c :: rest =>
    if h : pat ≠ [] ∧ pat.isPrefixOf (c :: rest) then
      repl ++ replaceAllSub pat repl ((c :: rest).drop pat.length)
    else c :: replaceAllSub pat repl rest
termination_by l => l.length
decreasing_by
  · simp only [List.length_drop, List.length_cons]
    have : 1 ≤ pat.length := by
      rcases pat with _ | ⟨p, ps⟩
      · exact absurd rfl h.1
      · simp
    omega
  · simp

/-- Global string replacement. -/
def replaceAllStr (s pat repl : String) : String :=
  ⟨replaceAllSub pat.data repl.data s.data⟩

/-- The `<code>`-parent unescape of the curly sentinel. -/
def unescapeCurly (raw : String) : String :=
  replaceAllStr raw ("ASTRO_ESCAPED_LEFT_CURLY_BRACKET" ++ "\x00") "\x7b"

/-- `code.trim().replace(/\;$/, "")`: drop one trailing semicolon after
trimming. -/
def stripTrailingSemi (s : String) : String :=
  match s.data.reverse with
  | ';' :: rest => ⟨rest.reverse⟩
  | _ => s

/-- The interleaving of `codeChunks` with compiled child strings
(children beyond the chunk count are dropped from the text, though they
were compiled). -/
def interleaveChunks : List String → List String → String
  | [], _ => ""
  | c :: cs, [] => c ++ interleaveChunks cs []
  | c :: cs, x :: xs => c ++ x ++ interleaveChunks cs xs

/-- Per-line match of `/^[ \t]*(?=\S)/`: the leading blank run when the
first non-blank character of the line is not whitespace. -/
def dedentLineMatch (l : List Char) : Option (List Char) :=
  let lead := l.takeWhile (fun c => c = ' ' ∨ c = '\t')
  match l.drop lead.length with
  | [] => none
  | c :: _ => if isJsWs c then none else some lead

/-- `dedent`: strip up to the first nonempty leading-blank run from
every line. -/
def dedent (s : String) : String :=
  let lines := jsSplitChar '\n' s
  let arr := lines.filterMap (fun l => dedentLineMatch l.data)
  match arr.find? (fun x => x.length > 0) with
  | none => s
  | some firstRun =>
    let first := firstRun.length
    String.intercalate "\n" (lines.map (fun l =>
      ⟨l.data.drop (min first (l.data.takeWhile (fun c => c = ' ' ∨ c = '\t')).length)⟩))

/-! ### The walk state and oracles -/

/-- Which buffer `curr` selects. -/
inductive BufKind where
  | out
  | markdown
deriving Repr, DecidableEq

/-- Local walk state of one `compileHtml` invocation plus the shared
`CodegenState` and logging sink. -/
structure WalkState where
  cg : CodegenState
  log : List LogEvent
  paren : Int
  bufOut : String
  bufMd : String
  curr : BufKind
deriving Repr, DecidableEq

/-- A rejected walk: fuel exhaustion of the model, or a JS exception
carrying the state (shared mutations persist) at the throw point. -/
inductive WalkErr where
  | fuelOut
  | thrown (msg : String) (ws : WalkState)

/-- A rejected `compileHtml` invocation: the walk locals die with the
promise; the shared state and log survive in the exception. -/
inductive CompileErr where
  | fuelOut
  | thrown (msg : String) (cg : CodegenState) (log : List LogEvent)

/-- The external collaborators of the walk: the esbuild expression
transpiler (`none` models a transform exception), the Markdown renderer
(scoped class argument and dedented text), the template parser plus
transform applied to rendered Markdown, WHATWG URL resolution, and
`pathToFileURL`. -/
structure Oracles where
  transpile : String → Option String
  renderMd : Option String → String → String
  parseMd : String → TemplateNode
  resolveUrl : String → String → String
  pathToFileUrl : String → String
  printModule : List ModuleStmt → String

/-- Compile options seen by the walk. -/
structure WalkOptions where
  astroConfig : AstroConfig
deriving Repr, DecidableEq

/-- Append a fragment to the buffer selected by `curr`. -/
def pushCurr (ws : WalkState) (s : String) : WalkState :=
  match ws.curr with
  | .out => { ws with bufOut := ws.bufOut ++ s }
  | .markdown => { ws with bufMd := ws.bufMd ++ s }

/-- Append a fragment to `buffers.out` regardless of `curr`. -/
def pushOut (ws : WalkState) (s : String) : WalkState :=
  { ws with bufOut := ws.bufOut ++ s }

/-- `isFrontmatterDefinedComponent`. -/
def isFrontmatterDefinedComponent (componentName : String)
    (componentInfo : Option ComponentInfo) (cg : CodegenState) : Bool :=
  cg.declarations.contains componentName && componentInfo.isNone

/-- `isFragmentComponent`. -/
def isFragmentComponent (componentName : String) : Bool :=
  componentName = "Fragment"

/-- The Prism special case of the `InlineComponent` enter. -/
def prismInject (ws : WalkState) : WalkState :=
  let cg := ws.cg
  let cg1 := { cg with importStatements := setAdd cg.importStatements PRISM_IMPORT }
  let prismInfo : ComponentInfo := ⟨.importDefaultSpecifier "Prism", "astro/components/Prism.astro"⟩
  let cg2 :=
    if (mapGet cg1.components "Prism").isNone then
      { cg1 with components := mapSet cg1.components "Prism" prismInfo }
    else cg1
  { ws with cg := cg2 }

/-- The `attributes.slot` wrapping shared by the element branches: when
the resolved map holds a truthy `slot` value, add the slot-content
import, open an `h(__astro_slot_content, ...)` call and count it. -/
def slotContentWrap (attributes : List (String × String)) (ws : WalkState) : WalkState :=
  match mapGet attributes "slot" with
  | some v =>
    if v ≠ "" then
      let cg1 := { ws.cg with importStatements := setAdd ws.cg.importStatements slotContentImport }
      let ws1 := { ws with cg := cg1 }
      let ws2 := pushCurr ws1 ("h(__astro_slot_content, \x7b name: " ++ v ++ " \x7d,")
      { ws2 with paren := ws2.paren + 1 }
    else ws
  | none => ws

/-- The two unconditional closer steps of an element-class leave: one
close for a `slot`-attributed node, one for the node's own `h(` when the
counter is not at its sentinel. -/
def closePart (attrs : List AttrNode) (ws : WalkState) : WalkState :=
  let ws2 :=
    if hasSlotAttrNode attrs then { ws with bufOut := ws.bufOut ++ ")", paren := ws.paren - 1 }
    else ws
  if ws2.paren ≠ -1 then { ws2 with bufOut := ws2.bufOut ++ ")", paren := ws2.paren - 1 }
  else ws2

/-- The text of one part of a multi-segment attribute value
(`v.content ? v.content : JSON.stringify(getTextFromAttribute(v))`;
none of the modelled parts carries a `content` field, and an absent
first code chunk stringifies to the empty string under `join`). -/
def multiPartText : AttrPart → Except String String
  | .textPart raw => .ok (jsonString raw)
  | .mustachePart chunks _ =>
    .ok (match chunks.head? with | some c => jsonString c | none => "")
  | .shorthandPart => .error "Unknown attribute type AttributeShorthand"
  | .unknownPart kind => .error ("Unknown attribute type " ++ kind)

/-- `name.split(":")[0]`: the component name before a legacy colon. -/
def legacyComponentName (name : String) : String :=
  (jsSplitChar ':' name).getD 0 ""

/-- The component lookup of the element enter: a dotted name resolves
through its namespace segment. -/
def resolveComponentInfo (cg : CodegenState) (componentName : String) : Option ComponentInfo :=
  if componentName.data.contains '.' then
    mapGet cg.components ((jsSplitChar '.' componentName).getD 0 "")
  else mapGet cg.components componentName

/-! ### The template walk (`compileHtml`) -/

mutual
/-- `compileHtml`: one full walk over a subtree with fresh buffers and a
fresh parenthesis counter, sharing the codegen state and the log; the
final text rewrites are applied to `buffers.out`.  A rejected walk
models the JS promise that never settles (the document compile does not
complete). -/
def compileHtml (fuel : Nat) (o : Oracles) (opts : WalkOptions) (node : TemplateNode)
    (cg : CodegenState) (log : List LogEvent) :
    Except CompileErr (String × CodegenState × List LogEvent) :=
  match fuel with
  | 0 => .error .fuelOut
  | fuel + 1 =>
    match walkNode fuel o opts none node ⟨cg, log, -1, "", "", .out⟩ with
    | .error .fuelOut => .error .fuelOut
    | .error (.thrown msg ws) => .error (.thrown msg ws.cg ws.log)
    | .ok ws => .ok (cleanupHtml ws.bufOut, ws.cg, ws.log)

/-- One node of the in-order walk: the enter hook, the children (unless
the enter skipped them), and the leave hook. -/
def walkNode (fuel : Nat) (o : Oracles) (opts : WalkOptions) (parent : Option TemplateNode)
    (node : TemplateNode) (ws : WalkState) : Except WalkErr WalkState :=
  match fuel with
  | 0 => .error .fuelOut
  | fuel + 1 =>
    match node with
    | .fragment children => do
      let ws1 := pushCurr ws "h(Fragment, null,"
      let ws2 ← walkNodes fuel o opts (some node) children ws1
      .ok (pushCurr ws2 ")")
    | .slotTemplate attrs children => do
      let ws1 := { pushCurr ws "h(Fragment, null, children" with paren := ws.paren + 1 }
      let ws2 ← walkNodes fuel o opts (some node) children ws1
      leaveElementClass fuel o opts attrs ws2
    | .element name attrs children => do
      let ws1 ← enterElementLike fuel o opts false name attrs ws
      let ws2 ← walkNodes fuel o opts (some node) children ws1
      leaveElementClass fuel o opts attrs ws2
    | .inlineComponent name attrs children => do
      let ws1 ← enterElementLike fuel o opts true name attrs ws
      let ws2 ← walkNodes fuel o opts (some node) children ws1
      leaveInlineComponent fuel o opts name attrs ws2
    | .expressionNode chunks children => do
      let (code, ws1) ← compileExpressionW fuel o opts chunks children ws
      if FALSY_EXPRESSIONS.contains code then .ok ws1
      else if code ≠ "" then
        if ws1.cg.insideMarkdown.isSome then
          .ok (pushCurr ws1 ("\x7b" ++ code ++ "\x7d"))
        else
          .ok (pushCurr ws1 (",(" ++ code ++ ")"))
      else .ok ws1
    | .mustacheTag children => do
      let ws1 :=
        if ws.cg.insideMarkdown.isSome ∧ ws.curr = .out then { ws with curr := .markdown }
        else ws
      walkNodes fuel o opts (some node) children ws1
    | .commentNode => .ok ws
    | .codeSpan raw dataStr =>
      if ws.cg.insideMarkdown.isSome then
        let ws1 := if ws.curr = .out then { ws with curr := .markdown } else ws
        .ok (pushCurr ws1 raw)
      else
        .ok (pushCurr ws ("," ++ jsonString dataStr))
    | .codeFence raw dataStr =>
      if ws.cg.insideMarkdown.isSome then
        let ws1 := if ws.curr = .out then { ws with curr := .markdown } else ws
        .ok (pushCurr ws1 raw)
      else
        .ok (pushCurr ws ("," ++ jsonString dataStr))
    | .textNode raw =>
      if ws.cg.insideMarkdown.isSome then
        let ws1 := if ws.curr = .out then { ws with curr := .markdown } else ws
        .ok (pushCurr ws1 raw)
      else
        match parent with
        | none => .error (.thrown "TypeError: Cannot read name of null" ws)
        | some p =>
          if nodeNameOpt p ≠ some "Markdown" ∧ jsTrim raw = "" then .ok ws
          else
            let text := if nodeNameOpt p = some "code" then unescapeCurly raw else raw
            .ok (pushCurr ws ("," ++ jsonString text))
    | .styleNode styles =>
      .ok { ws with cg := { ws.cg with css := ws.cg.css ++ [styles] } }

/-- The children of a node, in document order. -/
def walkNodes (fuel : Nat) (o : Oracles) (opts : WalkOptions) (parent : Option TemplateNode)
    (nodes : List TemplateNode) (ws : WalkState) : Except WalkErr WalkState :=
  match fuel with
  | 0 => .error .fuelOut
  | fuel + 1 =>
    match nodes with
    | [] => .ok ws
    | n :: rest => do
      let ws1 ← walkNode fuel o opts parent n ws
      walkNodes fuel o opts parent rest ws1

/-- The enter hook of `Element`/`InlineComponent` nodes: the Prism
injection and the empty-name check run outside the `try`; errors thrown
inside the `try` are recovered by the `catch`, which decrements the
parenthesis counter and reports through the logging sink. -/
def enterElementLike (fuel : Nat) (o : Oracles) (opts : WalkOptions) (isInline : Bool)
    (name : String) (attrs : List AttrNode) (ws : WalkState) : Except WalkErr WalkState :=
  match fuel with
  | 0 => .error .fuelOut
  | fuel + 1 =>
    let ws0 := if isInline ∧ name = "Prism" then prismInject ws else ws
    if name = "" then .error (.thrown "AHHHH" ws0)
    else
      match enterElementTry fuel o opts name attrs ws0 with
      | .ok ws1 => .ok ws1
      | .error .fuelOut => .error .fuelOut
      | .error (.thrown msg wsT) =>
        let rel := replaceFirstStr wsT.cg.filename opts.astroConfig.projectRootPathname ""
        .ok { wsT with paren := wsT.paren - 1, log := .errEv (rel ++ ": Error: " ++ msg) :: wsT.log }

/-- The body of the `try` in the element enter: attribute resolution,
hydration classification, component resolution, Markdown markers, and
the `h(` emission. -/
def enterElementTry (fuel : Nat) (o : Oracles) (opts : WalkOptions)
    (name : String) (attrs : List AttrNode) (ws : WalkState) : Except WalkErr WalkState :=
  match fuel with
  | 0 => .error .fuelOut
  | fuel + 1 => do
    let (attributes, ws1) ← getAttributesW fuel o opts name attrs ws
    let hydrationAttributes := findHydrationAttributes attributes
    let ws2 := { ws1 with bufOut := ws1.bufOut ++ (if ws1.bufOut = "" then "" else ",") }
    if ¬ isComponentTag name then
      let ws3 ← if ws2.curr = .markdown then pushMarkdownToBuffer fuel o opts ws2 else pure ws2
      let ws4 := slotContentWrap attributes ws3
      let ws5 := pushCurr ws4 ("h(\"" ++ name ++ "\", " ++ generateAttributes attributes ++ ",")
      .ok { ws5 with paren := ws5.paren + 1 }
    else
      let componentName := legacyComponentName name
      let componentInfo := resolveComponentInfo ws2.cg componentName
      if (isFrontmatterDefinedComponent componentName componentInfo ws2.cg
            ∧ ¬ isCustomElementTag componentName) ∨ isFragmentComponent componentName then
        if hydrationAttributes.method.isSome then
          .error (.thrown ("Unable to hydrate \"" ++ componentName
            ++ "\" because it is statically defined in the frontmatter script. Hydration directives may only be used on imported components.") ws2)
        else do
          let ws3 ← if ws2.curr = .markdown then pushMarkdownToBuffer fuel o opts ws2 else pure ws2
          let ws4 := slotContentWrap attributes ws3
          let ws5 := pushCurr ws4 ("h(" ++ componentName ++ ", " ++ generateAttributes attributes ++ ",")
          .ok { ws5 with paren := ws5.paren + 1 }
      else if componentInfo.isNone ∧ ¬ isCustomElementTag componentName then
        .error (.thrown ("Unable to render \"" ++ componentName
          ++ "\" because it is undefined\n  " ++ ws2.cg.filename) ws2)
      else if componentName = "Markdown" then
        let scope := mapGet attributes "$scope"
        let newMarker : Option MdMarker :=
          match ws2.cg.insideMarkdown with
          | some mk => some ⟨scope, mk.count + 1⟩
          | none => some ⟨scope, 1⟩
        let ws3 := { ws2 with cg := { ws2.cg with insideMarkdown := newMarker } }
        let keys := (attributes.map (fun kv => kv.1)).filter (fun k => k ≠ "$scope")
        if keys.length > 0 then do
          let ws4 ← if ws3.curr = .markdown then pushMarkdownToBuffer fuel o opts ws3 else pure ws3
          let ws5 := pushCurr ws4 ("," ++ componentName ++ ".__render("
            ++ generateAttributes attributes ++ "),")
          .ok { ws5 with curr := .markdown }
        else
          .ok { ws3 with curr := .markdown }
      else do
        let info := componentInfo.getD ⟨.importDefaultSpecifier "", ""⟩
        let (cw, log2) := getComponentWrapper o.resolveUrl o.pathToFileUrl name
          hydrationAttributes info ws2.cg.filename opts.astroConfig ws2.log
        let cgA := { ws2.cg with importStatements := cw.wrapperImports.foldl setAdd ws2.cg.importStatements }
        let ws3 := { ws2 with log := log2, cg := cgA }
        let ws4 :=
          if hydrationAttributes.method = some "only" then
            let raws := (mapGet ws3.cg.componentImports componentName).getD []
            let cgB := { ws3.cg with importStatements := raws.foldl setDelete ws3.cg.importStatements }
            { ws3 with cg := cgB }
          else ws3
        let ws5 ← if ws4.curr = .markdown then pushMarkdownToBuffer fuel o opts ws4 else pure ws4
        let ws6 := slotContentWrap attributes ws5
        let ws7 := { ws6 with paren := ws6.paren + 1 }
        .ok (pushCurr ws7 ("h(" ++ cw.wrapper ++ ", " ++ generateAttributes attributes))

/-- The leave hook of `SlotTemplate`/`Element` nodes: an unconditional
Markdown flush when in markdown mode, then the closers. -/
def leaveElementClass (fuel : Nat) (o : Oracles) (opts : WalkOptions)
    (attrs : List AttrNode) (ws : WalkState) : Except WalkErr WalkState :=
  match fuel with
  | 0 => .error .fuelOut
  | fuel + 1 => do
    let ws1 ← if ws.curr = .markdown then pushMarkdownToBuffer fuel o opts ws else pure ws
    .ok (closePart attrs ws1)

/-- The leave hook of `InlineComponent` nodes: the Markdown counter
decrement (a TypeError when the marker is the literal `false`), the
early return for attribute-bearing Markdown, the conditional flush with
its own early return, then the closers. -/
def leaveInlineComponent (fuel : Nat) (o : Oracles) (opts : WalkOptions)
    (name : String) (attrs : List AttrNode) (ws : WalkState) : Except WalkErr WalkState :=
  match fuel with
  | 0 => .error .fuelOut
  | fuel + 1 =>
    if name = "Markdown" then
      match ws.cg.insideMarkdown with
      | none => .error (.thrown "TypeError: Cannot assign count of false" ws)
      | some mk =>
        let newMarker : Option MdMarker :=
          if mk.count - 1 ≤ 0 then none else some { mk with count := mk.count - 1 }
        let ws1 := { ws with cg := { ws.cg with insideMarkdown := newMarker } }
        let hasAttrs :=
          (attrs.filter (fun a => attrNameOpt a ≠ some "$scope")).length > 0
        if hasAttrs then .ok ws1
        else leaveInlineTail fuel o opts attrs ws1
    else leaveInlineTail fuel o opts attrs ws

/-- The tail of the `InlineComponent` leave after the Markdown marker
handling. -/
def leaveInlineTail (fuel : Nat) (o : Oracles) (opts : WalkOptions)
    (attrs : List AttrNode) (ws : WalkState) : Except WalkErr WalkState :=
  match fuel with
  | 0 => .error .fuelOut
  | fuel + 1 =>
    if ws.curr = .markdown ∧ ws.bufMd ≠ "" then do
      let ws1 ← pushMarkdownToBuffer fuel o opts ws
      if ws1.cg.insideMarkdown.isNone then .ok ws1
      else .ok (closePart attrs ws1)
    else .ok (closePart attrs ws)

/-- `pushMarkdownToBuffer`: an all-blank markdown buffer is spliced
verbatim after a comma; otherwise the dedented text is rendered by the
external Markdown renderer, re-parsed and transformed by the external
parser, compiled by a recursive `compileHtml` with `insideMarkdown`
reset (the other state fields are shared), and spliced after a comma. -/
def pushMarkdownToBuffer (fuel : Nat) (o : Oracles) (opts : WalkOptions)
    (ws : WalkState) : Except WalkErr WalkState :=
  match fuel with
  | 0 => .error .fuelOut
  | fuel + 1 =>
    let md := ws.bufMd
    if jsTrim md = "" then
      .ok { ws with bufOut := ws.bufOut ++ "," ++ md, bufMd := "", curr := .out }
    else
      let scopedClassName := ws.cg.insideMarkdown.bind (fun mk => mk.scope)
      let scopeArg := scopedClassName.map jsSliceOneNegOne
      let rendered := o.renderMd scopeArg (dedent md)
      let tree := o.parseMd rendered
      match compileHtml fuel o opts tree { ws.cg with insideMarkdown := none } ws.log with
      | .error .fuelOut => .error .fuelOut
      | .error (.thrown msg cg1 log1) =>
        .error (.thrown msg
          { ws with cg := { cg1 with insideMarkdown := ws.cg.insideMarkdown }, log := log1 })
      | .ok (result, cg1, log1) =>
        let cg2 := { cg1 with insideMarkdown := ws.cg.insideMarkdown }
        .ok { ws with cg := cg2, log := log1, bufOut := ws.bufOut ++ "," ++ result, bufMd := "", curr := .out }

/-- `compileExpression` at walk level: the children are compiled by
full `compileHtml` invocations sharing the codegen state (sequenced in
document order), the chunks and child results are interleaved, and the
fragment is transpiled; a transpile failure is reported through
`parseError` and thrown. -/
def compileExpressionW (fuel : Nat) (o : Oracles) (opts : WalkOptions)
    (chunks : List String) (children : List TemplateNode) (ws : WalkState) :
    Except WalkErr (String × WalkState) :=
  match fuel with
  | 0 => .error .fuelOut
  | fuel + 1 =>
    match compileChildrenExprs fuel o opts children ws.cg ws.log with
    | .error .fuelOut => .error .fuelOut
    | .error (.thrown msg cg1 log1) =>
      .error (.thrown msg { ws with cg := cg1, log := log1 })
    | .ok (childStrs, cg1, log1) =>
      let ws1 := { ws with cg := cg1, log := log1 }
      let raw := interleaveChunks chunks childStrs
      match o.transpile ("(" ++ raw ++ ")") with
      | none =>
        .error (.thrown "Unable to compile expression"
          { ws1 with log := .parseErrEv ws1.cg.filename :: ws1.log })
      | some code => .ok (stripTrailingSemi (jsTrim code), ws1)

/-- The child compiles of an `Expression` node. -/
def compileChildrenExprs (fuel : Nat) (o : Oracles) (opts : WalkOptions)
    (children : List TemplateNode) (cg : CodegenState) (log : List LogEvent) :
    Except CompileErr (List String × CodegenState × List LogEvent) :=
  match fuel with
  | 0 => .error .fuelOut
  | fuel + 1 =>
    match children with
    | [] => .ok ([], cg, log)
    | c :: rest =>
      match compileHtml fuel o opts c cg log with
      | .error e => .error e
      | .ok (s, cg1, log1) =>
        match compileChildrenExprs fuel o opts rest cg1 log1 with
        | .error e => .error e
        | .ok (ss, cg2, log2) => .ok (s :: ss, cg2, log2)

/-- `getAttributes`: resolve the attribute list to a name-to-code map
(a JS object in insertion order with in-place overwrites). -/
def getAttributesW (fuel : Nat) (o : Oracles) (opts : WalkOptions) (nodeName : String)
    (attrs : List AttrNode) (ws : WalkState) :
    Except WalkErr (List (String × String) × WalkState) :=
  match fuel with
  | 0 => .error .fuelOut
  | fuel + 1 =>
    let isPage := ws.cg.filename.startsWith opts.astroConfig.pagesPath
    getAttributesGo fuel o opts nodeName isPage attrs [] ws

/-- The attribute loop of `getAttributes`. -/
def getAttributesGo (fuel : Nat) (o : Oracles) (opts : WalkOptions) (nodeName : String)
    (isPage : Bool) (attrs : List AttrNode) (acc : List (String × String)) (ws : WalkState) :
    Except WalkErr (List (String × String) × WalkState) :=
  match fuel with
  | 0 => .error .fuelOut
  | fuel + 1 =>
    match attrs with
    | [] => .ok (acc, ws)
    | a :: rest => do
      let (acc1, ws1) ←
        match a with
        | .spread chunks children => do
          let (code, ws') ← compileExpressionW fuel o opts chunks children ws
          if code ≠ "" then pure (mapSet acc ("...(" ++ code ++ ")") "", ws')
          else pure (acc, ws')
        | .attr name .vTrue => pure (mapSet acc name "true", ws)
        | .attr _ .vFalse => pure (acc, ws)
        | .attr name (.parts []) => pure (mapSet acc name "\"\"", ws)
        | .attr name (.parts (p :: q :: ps)) =>
          match (p :: q :: ps).mapM multiPartText with
          | .error msg => .error (.thrown msg ws)
          | .ok texts =>
            pure (mapSet acc name ("(" ++ String.intercalate "+" texts ++ ")"), ws)
        | .attr name (.parts [.textPart raw]) =>
          let log1 :=
            if ¬ isPage then
              match warnIfRelativeStringLiteral nodeName name raw with
              | some ev => ev :: ws.log
              | none => ws.log
            else ws.log
          pure (mapSet acc name (jsonString raw), { ws with log := log1 })
        | .attr name (.parts [.mustachePart chunks children]) => do
          let (code, ws') ← compileExpressionW fuel o opts chunks children ws
          if code ≠ "" then pure (mapSet acc name ("(" ++ code ++ ")"), ws')
          else pure (acc, ws')
        | .attr name (.parts [.shorthandPart]) =>
          pure (mapSet acc name ("(" ++ name ++ ")"), ws)
        | .attr _ (.parts [.unknownPart kind]) =>
          .error (.thrown ("UNKNOWN: " ++ kind) ws)
      getAttributesGo fuel o opts nodeName isPage rest acc1 ws1
end

/-! ### The codegen driver -/

/-- The parsed document handed to `codegen`. -/
structure AstInput where
  moduleScript : Option Script
  cssBlocks : List String
  htmlRoot : TemplateNode
  hasCustomElementFeature : Bool

/-- The output artifact. -/
structure TransformResult where
  script : String
  imports : List String
  exports : List String
  html : String
  css : Option String
  getStaticPaths : Option String
  hasCustomElements : Bool
  customElementCandidates : List (String × String)

/-- Top-level failures of `codegen`. -/
inductive CodegenErr where
  | fuelOut
  | fatal (msg : String)

/-- `codegen`: initialize the state, run `compileModule`, collect the
style blocks, run `compileHtml` on the html root, and assemble the
artifact. -/
def codegen (fuel : Nat) (o : Oracles) (opts : WalkOptions) (ast : AstInput)
    (filename fileID : String) : Except CodegenErr (TransformResult × List LogEvent) :=
  let state0 : CodegenState :=
    ⟨[], [], filename, fileID, none, [], [], [], [], []⟩
  match compileModule fuel o.printModule o.transpile o.resolveUrl o.pathToFileUrl
      ast.hasCustomElementFeature ast.moduleScript state0 opts.astroConfig [] with
  | .error msg => .error (.fatal msg)
  | .ok (moduleResult, st1, log1) =>
    let st2 := { st1 with css := st1.css ++ ast.cssBlocks }
    match compileHtml fuel o opts ast.htmlRoot st2 log1 with
    | .error .fuelOut => .error .fuelOut
    | .error (.thrown msg _ _) => .error (.fatal msg)
    | .ok (html, st3, log3) =>
      .ok ({ script := moduleResult.script,
             imports := st3.importStatements,
             exports := st3.exportStatements,
             html := html,
             css := if st3.css ≠ [] then some (String.intercalate "\n\n" st3.css) else none,
             getStaticPaths := moduleResult.getStaticPaths,
             hasCustomElements := ast.hasCustomElementFeature,
             customElementCandidates := st3.customElementCandidates }, log3)

/-! ### Concrete oracle bundles and documents for the counterexamples -/

/-- A concrete oracle bundle (identity-like external collaborators). -/
def oracleId : Oracles :=
  ⟨fun s => some s, fun _ md => "<p>" ++ md ++ "</p>", fun _ => .commentNode,
   fun u _ => u, fun f => "file://" ++ f, fun _ => ""⟩

/-- The same oracle bundle with a failing expression transpiler. -/
def oracleFailTranspile : Oracles :=
  { oracleId with transpile := fun _ => none }

/-- An empty codegen state over a fixed file. -/
def cgEmpty : CodegenState := ⟨[], [], "/p/f.astro", "f", none, [], [], [], [], []⟩

/-- Concrete walk options. -/
def optsBase : WalkOptions := ⟨⟨"file:///p/", "/p/", "/p/pages/"⟩⟩

/-- The document of scenario 2: empty frontmatter and `<h1>Hi</h1>`. -/
def c3doc : AstInput := ⟨none, [], .element "h1" [] [.textNode "Hi"], false⟩

/-- The walk state produced by the element enter of an imported component
carrying the single attribute `client:only` (outside markdown mode):
the wrapper imports are added, then every raw import string recorded for
the component is deleted from the import set, and the `h(` call with the
wrapper is pushed. -/
def clientOnlyResult (o : Oracles) (opts : WalkOptions) (T : String) (info : ComponentInfo)
    (ws : WalkState) : WalkState :=
  let attributes := [("client:only", "true")]
  let ws2 := { ws with bufOut := ws.bufOut ++ (if ws.bufOut = "" then "" else ",") }
  let cwl := getComponentWrapper o.resolveUrl o.pathToFileUrl T ⟨some "only", none⟩ info
    ws2.cg.filename opts.astroConfig ws2.log
  let cgA := { ws2.cg with importStatements := cwl.1.wrapperImports.foldl setAdd ws2.cg.importStatements }
  let ws3 := { ws2 with log := cwl.2, cg := cgA }
  let raws := (mapGet ws3.cg.componentImports T).getD []
  let cgB := { ws3.cg with importStatements := raws.foldl setDelete ws3.cg.importStatements }
  let ws4 := { ws3 with cg := cgB }
  let ws6 := slotContentWrap attributes ws4
  let ws7 := { ws6 with paren := ws6.paren + 1 }
  pushCurr ws7 ("h(" ++ cwl.1.wrapper ++ ", " ++ generateAttributes attributes)

/-! ### Markdown-marker predicates -/

/-- The marker invariant of `markers.insideMarkdown`: the JS literal
`false`, or a record whose `count` is at least `1`. -/
def mdOkB : Option MdMarker → Bool
  | none => true
  | some mk => decide (1 ≤ mk.count)

mutual
/-- No `Markdown`-named tag anywhere in the subtree (including legacy
`Markdown:method` spellings and the children of attribute expressions). -/
def noMdNode : TemplateNode → Bool
  | .fragment children => noMdNodes children
  | .slotTemplate attrs children => noMdAttrs attrs && noMdNodes children
  | .element name attrs children =>
    (legacyComponentName name != "Markdown") && noMdAttrs attrs && noMdNodes children
  | .inlineComponent name attrs children =>
    (legacyComponentName name != "Markdown") && noMdAttrs attrs && noMdNodes children
  | .expressionNode _ children => noMdNodes children
  | .mustacheTag children => noMdNodes children
  | .commentNode => true
  | .codeSpan _ _ => true
  | .codeFence _ _ => true
  | .textNode _ => true
  | .styleNode _ => true

/-- `noMdNode` over a child list. -/
def noMdNodes : List TemplateNode → Bool
  | [] => true
  | n :: rest => noMdNode n && noMdNodes rest

/-- `noMdNode` over an attribute list. -/
def noMdAttrs : List AttrNode → Bool
  | [] => true
  | a :: rest => noMdAttr a && noMdAttrs rest

/-- `noMdNode` inside one attribute. -/
def noMdAttr : AttrNode → Bool
  | .spread _ children => noMdNodes children
  | .attr _ v => noMdVal v

/-- `noMdNode` inside an attribute value. -/
def noMdVal : AttrValue → Bool
  | .vTrue => true
  | .vFalse => true
  | .parts ps => noMdParts ps

/-- `noMdNode` over the parts of an attribute value. -/
def noMdParts : List AttrPart → Bool
  | [] => true
  | p :: rest => noMdPart p && noMdParts rest

/-- `noMdNode` inside one part. -/
def noMdPart : AttrPart → Bool
  | .textPart _ => true
  | .mustachePart _ children => noMdNodes children
  | .shorthandPart => true
  | .unknownPart _ => true
end

/-- The marker invariant holds of the state carried by a walk result
(trivially of a fuel-out rejection). -/
def mdOkW : Except WalkErr WalkState → Prop
  | .ok ws => mdOkB ws.cg.insideMarkdown = true
  | .error .fuelOut => True
  | .error (.thrown _ ws) => mdOkB ws.cg.insideMarkdown = true

/-- The walk result carries exactly the marker `m`. -/
def mdSameW (m : Option MdMarker) : Except WalkErr WalkState → Prop
  | .ok ws => ws.cg.insideMarkdown = m
  | .error .fuelOut => True
  | .error (.thrown _ ws) => ws.cg.insideMarkdown = m

/-- `mdOkW` for results paired with a value. -/
def mdOkWP {α : Type} : Except WalkErr (α × WalkState) → Prop
  | .ok (_, ws) => mdOkB ws.cg.insideMarkdown = true
  | .error .fuelOut => True
  | .error (.thrown _ ws) => mdOkB ws.cg.insideMarkdown = true

/-- `mdSameW` for results paired with a value. -/
def mdSameWP {α : Type} (m : Option MdMarker) : Except WalkErr (α × WalkState) → Prop
  | .ok (_, ws) => ws.cg.insideMarkdown = m
  | .error .fuelOut => True
  | .error (.thrown _ ws) => ws.cg.insideMarkdown = m

/-- `mdOkW` for node-compile results. -/
def mdOkC {α : Type} : Except CompileErr (α × CodegenState × List LogEvent) → Prop
  | .ok (_, cg, _) => mdOkB cg.insideMarkdown = true
  | .error .fuelOut => True
  | .error (.thrown _ cg _) => mdOkB cg.insideMarkdown = true

/-- `mdSameW` for node-compile results. -/
def mdSameC {α : Type} (m : Option MdMarker) : Except CompileErr (α × CodegenState × List LogEvent) → Prop
  | .ok (_, cg, _) => cg.insideMarkdown = m
  | .error .fuelOut => True
  | .error (.thrown _ cg _) => cg.insideMarkdown = m

/-- A successful walk result carries a cleared marker. -/
def mdNoneW : Except WalkErr WalkState → Prop
  | .ok ws => ws.cg.insideMarkdown = none
  | .error _ => True

/-- Marker shape after the enter of a `<Markdown>` tag from a cleared
marker: still cleared (the enter was recovered before the increment) or
a fresh record of count exactly `1`. -/
def mdEnterRes : Except WalkErr WalkState → Prop
  | .ok ws => ws.cg.insideMarkdown = none ∨ ∃ s, ws.cg.insideMarkdown = some ⟨s, 1⟩
  | .error .fuelOut => True
  | .error (.thrown _ ws) =>
    ws.cg.insideMarkdown = none ∨ ∃ s, ws.cg.insideMarkdown = some ⟨s, 1⟩

/-! ### Quiet trees: the static fragment for the balance property -/

/-- Attributes of the static fragment: boolean, empty or single-literal
values, never named `slot`, with parenthesis-balanced raw strings. -/
def quietAttr : AttrNode → Bool
  | .attr name .vTrue => parenBalanced name && (name != "slot")
  | .attr name .vFalse => name != "slot"
  | .attr name (.parts []) => parenBalanced name && (name != "slot")
  | .attr name (.parts [.textPart raw]) =>
    parenBalanced name && (name != "slot") && parenBalanced raw
  | _ => false

/-- `quietAttr` over an attribute list. -/
def quietAttrs : List AttrNode → Bool
  | [] => true
  | a :: rest => quietAttr a && quietAttrs rest

mutual
/-- The static fragment: plain (non-component) elements with quiet
attributes, and textual leaves whose raw data is parenthesis-balanced. -/
def quietNode : TemplateNode → Bool
  | .element name attrs children =>
    (!(isComponentTag name)) && (name != "") && parenBalanced name
      && quietAttrs attrs && quietNodes children
  | .textNode raw => parenBalanced raw
  | .commentNode => true
  | .codeSpan _ dataStr => parenBalanced dataStr
  | .codeFence _ dataStr => parenBalanced dataStr
  | .styleNode _ => true
  | _ => false

/-- `quietNode` over a child list. -/
def quietNodes : List TemplateNode → Bool
  | [] => true
  | n :: rest => quietNode n && quietNodes rest
end

/-- Every key and value of a resolved attribute map is balanced. -/
def attrsBalanced (m : List (String × String)) : Bool :=
  m.all (fun kv => parenBalanced kv.1 && parenBalanced kv.2)

/-- Result of resolving quiet attributes: the state is unchanged except
for the log, the map never gains a `slot` key, and stays balanced. -/
def quietAttrsRes (acc0 : List (String × String)) (ws : WalkState) :
    Except WalkErr (List (String × String) × WalkState) → Prop
  | .ok (acc, ws1) => ws1.cg = ws.cg ∧ ws1.curr = ws.curr ∧ ws1.bufOut = ws.bufOut
      ∧ ws1.bufMd = ws.bufMd ∧ ws1.paren = ws.paren
      ∧ (mapGet acc0 "slot" = none → mapGet acc "slot" = none)
      ∧ (attrsBalanced acc0 = true → attrsBalanced acc = true)
  | .error .fuelOut => True
  | .error (.thrown _ _) => False

/-- Result of the enter of a quiet element: one group opened, one
parenthesis of imbalance added, nothing else moved. -/
def quietEnterRes (ws : WalkState) : Except WalkErr WalkState → Prop
  | .ok ws1 => ws1.curr = .out ∧ ws1.cg = ws.cg ∧ ws1.bufMd = ws.bufMd
      ∧ ws1.paren = ws.paren + 1 ∧ parenBal ws1.bufOut = parenBal ws.bufOut + 1
  | .error .fuelOut => True
  | .error (.thrown _ _) => False

/-- Result of the leave of a quiet element. -/
def quietLeaveRes (ws : WalkState) : Except WalkErr WalkState → Prop
  | .ok ws1 => ws1 = { ws with bufOut := ws.bufOut ++ ")", paren := ws.paren - 1 }
  | .error .fuelOut => True
  | .error (.thrown _ _) => False

/-- One quiet subtree leaves the mode, the marker, the markdown buffer,
the counter and the net parenthesis balance unchanged. -/
def quietStepRes (ws : WalkState) : Except WalkErr WalkState → Prop
  | .ok ws1 => ws1.curr = .out ∧ ws1.cg.insideMarkdown = none ∧ ws1.bufMd = ws.bufMd
      ∧ ws1.paren = ws.paren ∧ parenBal ws1.bufOut = parenBal ws.bufOut
  | .error _ => True

/-- A successful node compile emits balanced html. -/
def balancedOkC : Except CompileErr (String × CodegenState × List LogEvent) → Prop
  | .ok (html, _, _) => countChar '(' html = countChar ')' html
  | .error _ => True

/-! ### Claims C4 and C9 -/

/-- C4 counterexample: on a map with two hydration directives the
implementation returns the LAST match (`client:idle`, value `"x"`),
not the first (`client:load`, value undefined) as the claim states. -/
theorem c4_counterexample :
    findHydrationAttributes [("client:load", "true"), ("client:idle", "x")]
      = { method := some "idle", value := some "x" } ∧
    findHydrationAttributes [("client:load", "true"), ("client:idle", "x")]
      ≠ findHydrationAttributesSpecFirst [("client:load", "true"), ("client:idle", "x")] := by
  constructor
  · rfl
  · decide

/-- Helper: the directive-scanning fold with an arbitrary accumulator is
the last match over the reversed map. -/
theorem findHydration_foldl_general (attrs : List (String × String))
    (acc : HydrationAttributes) :
    attrs.foldl
      (fun acc kv =>
        if hydrationDirectives.contains kv.1 then
          { method := some (sliceAfterClient kv.1)
            value := if kv.2 = "true" then none else some kv.2 }
        else acc) acc
    = match attrs.reverse.find? (fun kv => hydrationDirectives.contains kv.1) with
      | some kv =>
        { method := some (sliceAfterClient kv.1)
          value := if kv.2 = "true" then none else some kv.2 }
      | none => acc := by
  induction attrs generalizing acc with
  | nil => rfl
  | cons kv rest ih =>
    simp only [List.foldl_cons, List.reverse_cons]
    rw [ih, List.find?_append]
    rcases hfind : rest.reverse.find? (fun kv => hydrationDirectives.contains kv.1) with _ | k
    · rw [hfind]
      simp only [Option.none_or, List.find?_cons, List.find?_nil]
      by_cases h : kv.1 ∈ hydrationDirectives
      · simp [h]
      · simp [h]
    · rw [hfind]
      rfl

/-- C4 (amended): over every resolved attribute map, the hydration
classifier selects the LAST key in the map that is one of the five
`client:` directives; the extracted method is the suffix of that key
after `client:`, and the value is `undefined` exactly when that
attribute's raw value is the literal `"true"`, otherwise the raw value. -/
theorem c4_hydration_classifier_last (attrs : List (String × String)) :
    findHydrationAttributes attrs = findHydrationAttributesSpecLast attrs := by
  unfold findHydrationAttributes findHydrationAttributesSpecLast
  exact findHydration_foldl_general attrs _

/-- C4 witness: the amended theorem at a concrete input. -/
theorem c4_hydration_classifier_last_witness :
    findHydrationAttributes [("a", "b"), ("client:media", "(m)")]
      = findHydrationAttributesSpecLast [("a", "b"), ("client:media", "(m)")] :=
  c4_hydration_classifier_last [("a", "b"), ("client:media", "(m)")]

/-- C9: every generated props object ends with the
`[__astroContext]:props[__astroContext]` passthrough entry, and no
hydration directive key contributes any entry to the object. -/
theorem c9_props_context_and_no_hydration_keys (attrs : List (String × String)) :
    (∃ pre, generateAttributes attrs
        = pre ++ "[__astroContext]:props[__astroContext]" ++ "\x7d") ∧
    ∀ kv ∈ attrs, kv.1 ∈ hydrationDirectives → attrEntry kv = none := by
  refine ⟨⟨"\x7b" ++ String.join (attrs.filterMap attrEntry), rfl⟩, ?_⟩
  intro kv _ hmem
  simp [attrEntry, hmem]

/-- C9 witness: the theorem applied at a concrete attribute map, with
the inner hypotheses discharged at a concrete hydration key. -/
theorem c9_props_context_and_no_hydration_keys_witness :
    attrEntry ("client:only", "true") = none ∧
    (∃ pre, generateAttributes [("client:only", "true"), ("id", "\"a\"")]
        = pre ++ "[__astroContext]:props[__astroContext]" ++ "\x7d") := by
  constructor
  · exact (c9_props_context_and_no_hydration_keys
      [("client:only", "true"), ("id", "\"a\"")]).2
      ("client:only", "true") (by simp) (by simp [hydrationDirectives])
  · exact (c9_props_context_and_no_hydration_keys
      [("client:only", "true"), ("id", "\"a\"")]).1

/-! ### Claims C7 and C10 -/

/-- Membership in `importStatements` survives `setAdd`. -/
theorem setAdd_mem_preserved {l : List String} {x y : String} (h : x ∈ l) :
    x ∈ setAdd l y := by
  unfold setAdd
  split
  · exact h
  · exact List.mem_append_left _ h

/-- `registerSpecifier` does not change `importStatements`. -/
theorem registerSpecifier_importStatements (st : CodegenState) (spec : ImportSpecifierAst)
    (importUrl text : String) :
    (registerSpecifier st spec importUrl text).importStatements = st.importStatements := by
  unfold registerSpecifier
  dsimp only
  split <;> rfl

/-- The specifier loop does not change `importStatements`. -/
theorem specifierFold_importStatements (specs : List ImportSpecifierAst)
    (st : CodegenState) (importUrl text : String) :
    (specs.foldl (fun s spec => registerSpecifier s spec importUrl text) st).importStatements
      = st.importStatements := by
  induction specs generalizing st with
  | nil => rfl
  | cons sp rest ih =>
    rw [List.foldl_cons, ih, registerSpecifier_importStatements]

/-- `processComponentImport` preserves membership in `importStatements`. -/
theorem processComponentImport_mem_preserved
    (resolveUrl : String → String → String) (pathToFileUrl : String → String)
    (astroConfig : AstroConfig) (metaCustomElement : Bool)
    (st st' : CodegenState) (stmt : ModuleStmt) (x : String)
    (h : x ∈ st.importStatements)
    (hok : processComponentImport resolveUrl pathToFileUrl astroConfig metaCustomElement st stmt
      = .ok st') :
    x ∈ st'.importStatements := by
  rcases stmt with _ | _ | _ | _ | _ | _ | _ | _
  case importDecl specifiers importUrl text =>
    unfold processComponentImport at hok
    dsimp only at hok
    by_cases hb : nodeBuiltinsSet.contains importUrl
    · rw [if_pos hb] at hok; exact absurd hok (by simp)
    · rw [if_neg hb] at hok
      by_cases hc : metaCustomElement = true ∧ specifiers = []
      · rw [if_pos hc] at hok
        injection hok with hok
        subst hok
        exact setAdd_mem_preserved (by rw [specifierFold_importStatements]; exact h)
      · rw [if_neg hc] at hok
        injection hok with hok
        subst hok
        exact setAdd_mem_preserved (by rw [specifierFold_importStatements]; exact h)
  all_goals (injection hok with hok; subst hok; exact h)

/-- The import-processing fold preserves membership in `importStatements`. -/
theorem importFold_mem_preserved
    (resolveUrl : String → String → String) (pathToFileUrl : String → String)
    (astroConfig : AstroConfig) (metaCustomElement : Bool)
    (stmts : List ModuleStmt) (st st' : CodegenState) (x : String)
    (h : x ∈ st.importStatements)
    (hok : stmts.foldlM
      (processComponentImport resolveUrl pathToFileUrl astroConfig metaCustomElement) st
      = .ok st') :
    x ∈ st'.importStatements := by
  induction stmts generalizing st with
  | nil =>
    simp only [List.foldlM_nil] at hok
    injection hok with hok; subst hok; exact h
  | cons s rest ih =>
    simp only [List.foldlM_cons] at hok
    rcases hstep : processComponentImport resolveUrl pathToFileUrl astroConfig
        metaCustomElement st s with e | st1
    · rw [hstep] at hok; exact Except.noConfusion hok
    · rw [hstep] at hok
      exact ih st1 (processComponentImport_mem_preserved _ _ _ _ _ _ _ _ h hstep) hok

/-- Bind reduction on `Except` for an `ok` value. -/
theorem exceptBind_ok {ε α β : Type} (a : α) (f : α → Except ε β) :
    (Except.ok a >>= f) = f a := rfl

/-- Bind reduction on `Except` for an error value. -/
theorem exceptBind_error {ε α β : Type} (e : ε) (f : α → Except ε β) :
    ((Except.error e : Except ε α) >>= f) = Except.error e := rfl

/-- An element is a member of the set it was just added to. -/
theorem setAdd_self_mem (l : List String) (x : String) : x ∈ setAdd l x := by
  unfold setAdd
  split
  · next hc => simpa using hc
  · simp

/-- `compileModuleRest` only grows `importStatements`: membership in the
incoming state survives to the resulting state. -/
theorem compileModuleRest_imports_mono
    (printModule : List ModuleStmt → String) (transpile : String → Option String)
    (resolveUrl : String → String → String) (pathToFileUrl : String → String)
    (metaCE : Bool) (state1 : CodegenState) (cfg : AstroConfig)
    (log : List LogEvent) (body1 : List ModuleStmt)
    (r : CompileResult) (st' : CodegenState) (log' : List LogEvent) (x : String)
    (h : x ∈ state1.importStatements)
    (hok : compileModuleRest printModule transpile resolveUrl pathToFileUrl metaCE
      state1 cfg log body1 = .ok (r, st', log')) :
    x ∈ st'.importStatements := by
  unfold compileModuleRest at hok
  rcases hscan : scanModuleBody body1 with e | scan
  · rw [hscan] at hok; exact Except.noConfusion hok
  · rw [hscan, exceptBind_ok] at hok
    dsimp only at hok
    rcases hfold : scan.componentImports.foldlM
        (processComponentImport resolveUrl pathToFileUrl cfg metaCE)
        { state1 with declarations := scan.declarationAdds.foldl setAdd state1.declarations }
      with e | st3
    · rw [hfold] at hok; exact Except.noConfusion hok
    · rw [hfold, exceptBind_ok] at hok
      have hmem3 : x ∈ st3.importStatements :=
        importFold_mem_preserved resolveUrl pathToFileUrl cfg metaCE scan.componentImports
          { state1 with declarations := scan.declarationAdds.foldl setAdd state1.declarations }
          st3 x h hfold
      rcases htr : transpile ("" ++ printModule scan.body) with _ | t
      · rw [htr] at hok; exact Except.noConfusion hok
      · rw [htr] at hok
        injection hok with hok
        have hst : st' = { st3 with
            exportStatements := scan.componentExports.foldl
              (fun es s => match s with
                | .exportVarDecl _ _ text => setAdd es text
                | _ => es) st3.exportStatements } := by
          have := congrArg (fun p => p.2.1) hok
          simpa using this.symm
        rw [hst]
        exact hmem3

/-! ### Claim C7 -/

/-- C7: for a frontmatter call `Astro.fetchContent(arg)` — if `arg` is a
string literal the rewrite wraps it as
`Astro.fetchContent(import.meta.globEager(arg))` and (whenever the
module mentions `Astro.fetchContent` and compiles) the injected
fetchContent import line is in the resulting import set; if `arg` is
not a string literal, `compileModule` fails with the fatal
`Only string literals allowed` error. -/
theorem c7_fetchContent_rewrite
    (fuel : Nat) (s : String) (arg : JsExpr) (hnl : ∀ t, arg ≠ .stringLit t)
    (printModule : List ModuleStmt → String) (transpile : String → Option String)
    (resolveUrl : String → String → String) (pathToFileUrl : String → String)
    (metaCE : Bool) (m : Script) (st : CodegenState) (cfg : AstroConfig)
    (log : List LogEvent) (r : CompileResult) (st' : CodegenState) (log' : List LogEvent)
    (hregex : regexTestAstroFetchContent m.content.data = true)
    (hok : compileModule fuel printModule transpile resolveUrl pathToFileUrl metaCE
      (some m) st cfg log = .ok (r, st', log')) :
    (rewriteFetchContentExpr (fuel + 2) (.callMember "Astro" "fetchContent" [.stringLit s])
      = .ok (.callMember "Astro" "fetchContent" [.callImportMetaGlobEager [.stringLit s]])) ∧
    fetchContentImport ∈ st'.importStatements ∧
    (∀ (m2 : Script) (rest2 : List ModuleStmt),
      regexTestAstroFetchContent m2.content.data = true →
      m2.body = .exprStmt (.callMember "Astro" "fetchContent" [arg]) :: rest2 →
      compileModule (fuel + 1) printModule transpile resolveUrl pathToFileUrl metaCE
        (some m2) st cfg log = .error "[Astro.fetchContent] Only string literals allowed") := by
  refine ⟨rfl, ?_, ?_⟩
  · unfold compileModule at hok
    dsimp only at hok
    rw [if_pos hregex] at hok
    rcases hmap : m.body.mapM (rewriteFetchContentStmt fuel) with e | body1
    · rw [hmap] at hok; exact Except.noConfusion hok
    · rw [hmap] at hok
      exact compileModuleRest_imports_mono _ _ _ _ _ _ _ _ _ _ _ _ _
        (setAdd_self_mem _ _) hok
  · intro m2 rest2 hregex2 hbody2
    unfold compileModule
    dsimp only
    rw [if_pos hregex2, hbody2]
    have hexpr : rewriteFetchContentExpr (fuel + 1)
        (.callMember "Astro" "fetchContent" [arg])
        = .error "[Astro.fetchContent] Only string literals allowed" := by
      cases arg with
      | stringLit t => exact absurd rfl (hnl t)
      | identExpr n => rfl
      | callMember o p a => rfl
      | callImportMetaGlobEager a => rfl
      | otherExpr => rfl
    have hstmt : rewriteFetchContentStmt (fuel + 1)
        (.exprStmt (.callMember "Astro" "fetchContent" [arg]))
        = .error "[Astro.fetchContent] Only string literals allowed" := by
      unfold rewriteFetchContentStmt
      dsimp only
      rw [hexpr]
      rfl
    rw [List.mapM_cons, hstmt]
    rfl

/-- C7 witness: the theorem at a concrete module and oracles. -/
theorem c7_fetchContent_rewrite_witness :
    (rewriteFetchContentExpr 3 (.callMember "Astro" "fetchContent" [.stringLit "./posts/*.md"])
      = .ok (.callMember "Astro" "fetchContent"
          [.callImportMetaGlobEager [.stringLit "./posts/*.md"]])) ∧
    fetchContentImport ∈
      (match compileModule 1 (fun _ => "") (fun s => some s) (fun u _ => u) (fun f => f)
          false (some ⟨"const x = Astro.fetchContent(\"./posts/*.md\");", []⟩)
          ⟨[], [], "/p/f.astro", "f", none, [], [], [], [], []⟩
          ⟨"file:///p/", "/p/", "/p/pages/"⟩ [] with
        | .ok (_, st', _) => st'.importStatements
        | _ => []) := by
  have h := c7_fetchContent_rewrite 1 "./posts/*.md" (.identExpr "x")
    (by intro t h; exact JsExpr.noConfusion h)
    (fun _ => "") (fun s => some s) (fun u _ => u) (fun f => f)
    false ⟨"const x = Astro.fetchContent(\"./posts/*.md\");", []⟩
    ⟨[], [], "/p/f.astro", "f", none, [], [], [], [], []⟩
    ⟨"file:///p/", "/p/", "/p/pages/"⟩ []
    ⟨"", none⟩
    ⟨[], [], "/p/f.astro", "f", none, [], [], [fetchContentImport], [], []⟩ []
    (by decide) rfl
  exact ⟨h.1, h.2.1⟩

/-! ### Claim C10 -/

/-- C10: for a named export of a variable declaration, classification as
a `__layout`/`__content` special export versus a deprecated prop export
looks only at the identifier of the FIRST declarator (the tail `tl` of
declarators is arbitrary and contributes nothing), and in both cases
the entire statement is removed from the body, so the later declarators
are carried out of the script together with the first. -/
theorem c10_export_classification (restBody : List ModuleStmt) (r0 : ModuleScanResult)
    (tl : List (Option String)) (inits : List JsExpr) (text : String) (y : Option String)
    (hrest : scanModuleBody restBody = .ok r0) :
    (scanModuleBody (.exportVarDecl (some "__layout" :: tl) inits text :: restBody)
        = .ok { r0 with componentExports :=
            r0.componentExports ++ [.exportVarDecl (some "__layout" :: tl) inits text] }) ∧
    (scanModuleBody (.exportVarDecl (some "__content" :: tl) inits text :: restBody)
        = .ok { r0 with componentExports :=
            r0.componentExports ++ [.exportVarDecl (some "__content" :: tl) inits text] }) ∧
    (y ≠ some "__layout" → y ≠ some "__content" →
      scanModuleBody (.exportVarDecl (y :: tl) inits text :: restBody)
        = .ok { r0 with componentProps := r0.componentProps ++ [y] }) := by
  refine ⟨?_, ?_, ?_⟩
  · show (scanModuleBody restBody >>= _) = _
    rw [hrest, exceptBind_ok]
    rfl
  · show (scanModuleBody restBody >>= _) = _
    rw [hrest, exceptBind_ok]
    rfl
  · intro hy1 hy2
    show (scanModuleBody restBody >>= _) = _
    rw [hrest, exceptBind_ok]
    simp only [List.head?_cons]
    rw [if_neg (by simp [hy1, hy2])]

/-- C10 witness: the theorem at a concrete body. -/
theorem c10_export_classification_witness :
    scanModuleBody [.exportVarDecl [some "__layout", some "title"] [] "export let __layout = a, title = b"]
      = .ok { body := [], componentImports := [], componentProps := [],
              componentExports := [.exportVarDecl [some "__layout", some "title"] []
                "export let __layout = a, title = b"],
              getStaticPaths := "", declarationAdds := [] } ∧
    scanModuleBody [.exportVarDecl [some "title", some "__layout"] [] "export let title = a, __layout = b"]
      = .ok { body := [], componentImports := [], componentProps := [some "title"],
              componentExports := [], getStaticPaths := "", declarationAdds := [] } := by
  constructor
  · exact (c10_export_classification [] ⟨[], [], [], [], "", []⟩ [some "title"] []
      "export let __layout = a, title = b" none rfl).1
  · exact (c10_export_classification [] ⟨[], [], [], [], "", []⟩ [some "__layout"] []
      "export let title = a, __layout = b" (some "title") rfl).2.2
      (by simp) (by simp)

/-! ### List and split helper lemmas for the walk claims -/

/-- Splitting on a character that does not occur yields the singleton. -/
theorem jsSplitCharAux_no_sep (sep : Char) (l acc : List Char) (h : sep ∉ l) :
    jsSplitCharAux sep l acc = [⟨acc.reverse ++ l⟩] := by
  induction l generalizing acc with
  | nil => simp [jsSplitCharAux]
  | cons c rest ih =>
    unfold jsSplitCharAux
    rw [if_neg (fun hc => h (by rw [← hc]; exact List.mem_cons_self c rest))]
    rw [ih (c :: acc) (fun hm => h (List.mem_cons_of_mem c hm))]
    simp

/-- `s.split(sep)` for a separator absent from `s`. -/
theorem jsSplitChar_no_sep (sep : Char) (s : String) (h : sep ∉ s.data) :
    jsSplitChar sep s = [s] := by
  unfold jsSplitChar
  rw [jsSplitCharAux_no_sep sep s.data [] h]
  simp

/-- `s.indexOf(c) > 0` is false when the character is absent. -/
theorem jsIndexOfPos_of_not_mem (c : Char) (s : String) (h : c ∉ s.data) :
    jsIndexOfPos c s = false := by
  unfold jsIndexOfPos
  rcases hd : s.data with _ | ⟨first, rest⟩
  · rfl
  · rw [hd] at h
    have h1 : first ≠ c := fun hc => h (hc ▸ List.mem_cons_self first rest)
    have h2 : c ∉ rest := fun hm => h (List.mem_cons_of_mem first hm)
    simp [h1, h2, Ne.symm h1]

/-- The legacy split is the identity on colon-free names. -/
theorem legacyComponentName_no_colon (name : String) (h : ':' ∉ name.data) :
    legacyComponentName name = name := by
  unfold legacyComponentName
  rw [jsSplitChar_no_sep ':' name h]
  rfl

/-- Dot-free names resolve by direct lookup. -/
theorem resolveComponentInfo_no_dot (cg : CodegenState) (n : String) (h : '.' ∉ n.data) :
    resolveComponentInfo cg n = mapGet cg.components n := by
  unfold resolveComponentInfo
  rw [if_neg (by simp [h])]

/-- Membership survives a `setDelete` of a different element. -/
theorem mem_setDelete_of_mem {l : List String} {x y : String}
    (h : x ∈ setDelete l y) : x ∈ l := by
  unfold setDelete at h
  exact List.mem_of_mem_filter h

/-- The deleted element is gone. -/
theorem not_mem_setDelete_self (l : List String) (x : String) : x ∉ setDelete l x := by
  unfold setDelete
  intro h
  have := List.of_mem_filter h
  simp at this

/-- Non-membership survives the whole delete fold. -/
theorem not_mem_foldl_setDelete (raws : List String) (l : List String) (x : String)
    (h : x ∉ l) : x ∉ raws.foldl setDelete l := by
  induction raws generalizing l with
  | nil => exact h
  | cons r rest ih =>
    exact ih (setDelete l r) (fun hm => h (mem_setDelete_of_mem hm))

/-- Every recorded raw import string is absent after the delete fold. -/
theorem mem_raws_not_mem_foldl_setDelete (raws : List String) (l : List String) (x : String)
    (h : x ∈ raws) : x ∉ raws.foldl setDelete l := by
  induction raws generalizing l with
  | nil => exact absurd h (List.not_mem_nil x)
  | cons r rest ih =>
    rcases List.mem_cons.mp h with rfl | hmem
    · exact not_mem_foldl_setDelete rest (setDelete l x) x (not_mem_setDelete_self l x)
    · exact ih (setDelete l r) hmem

/-! ### Claim C1 (counterexample half) -/

/-- C1 counterexample: the document consisting of the single unresolved
component `<X/>` compiles successfully — the element error is recovered
locally and reported through the sink — yet the emitted `html` is `)`:
zero open parentheses against one close parenthesis. -/
theorem c1_counterexample :
    compileHtml 20 oracleId optsBase (.inlineComponent "X" [] []) cgEmpty []
      = .ok (")", cgEmpty,
          [.errEv "f.astro: Error: Unable to render \"X\" because it is undefined\n  /p/f.astro"]) ∧
    countChar '(' ")" ≠ countChar ')' ")" := by
  exact ⟨rfl, by decide⟩

/-! ### Claim C2 (counterexample half) -/

/-- C2 counterexample: for the tag `Undefined` — absent from the
components map, not a custom element, not declared, not `Fragment` —
the document compile does NOT fail fatally: the walk completes with an
`.ok` result, and the `Unable to render` error is only reported through
the logging sink (the throw at codegen/index.ts:709 is caught by the
catch at 746). -/
theorem c2_counterexample :
    compileHtml 20 oracleId optsBase (.inlineComponent "Undefined" [] []) cgEmpty []
      = .ok (")", cgEmpty,
          [.errEv "f.astro: Error: Unable to render \"Undefined\" because it is undefined\n  /p/f.astro"]) := rfl

/-! ### Claim C3 -/

/-- C3 counterexample: on the document with empty frontmatter and the
template `<h1>Hi</h1>`, the artifact's `html` is NOT byte-identical to
the claimed string — the element emitter writes a space after the first
comma of every `h(` call. -/
theorem c3_counterexample :
    (match codegen 20 oracleId optsBase c3doc "/p/f.astro" "f" with
     | .ok (res, _) => res.html
     | .error _ => "") ≠
      "h(\"h1\",\x7b[__astroContext]:props[__astroContext]\x7d,\"Hi\")" := by
  decide

/-- C3 (amended): on the document with empty frontmatter and the template
`<h1>Hi</h1>`, the artifact's `html` field is byte-identical to
`h("h1", \x7b[__astroContext]:props[__astroContext]\x7d,"Hi")` — the
claimed string with a single space after the tag-name comma. -/
theorem c3_single_static_element (o : Oracles) (opts : WalkOptions) (f fid : String) :
    codegen 20 o opts c3doc f fid
      = .ok ({ script := "", imports := [], exports := [],
               html := "h(\"h1\", \x7b[__astroContext]:props[__astroContext]\x7d,\"Hi\")",
               css := none, getStaticPaths := none, hasCustomElements := false,
               customElementCandidates := [] }, []) := rfl

/-! ### Claim C6 (counterexample half) -/

/-- C6 counterexample: a transpile failure in a standalone template
`Expression` node is reported through the sink (`parseError`), but the
error then propagates out of the walk — no parenthesis decrement happens
(the decrementing catch wraps only the element enter) and compilation of
the rest of the template does NOT continue: the compile never completes. -/
theorem c6_counterexample :
    compileHtml 20 oracleFailTranspile optsBase (.expressionNode ["x"] []) cgEmpty []
      = .error (.thrown "Unable to compile expression" cgEmpty [.parseErrEv "/p/f.astro"]) := rfl

/-! ### Small reduction lemmas for the walk -/

/-- Resolving an empty attribute list succeeds without touching state. -/
theorem getAttributesW_nil (fuel : Nat) (o : Oracles) (opts : WalkOptions)
    (nodeName : String) (ws : WalkState) :
    getAttributesW (fuel + 2) o opts nodeName [] ws = .ok ([], ws) := rfl

/-- Walking an empty child list is the identity. -/
theorem walkNodes_nil (fuel : Nat) (o : Oracles) (opts : WalkOptions)
    (parent : Option TemplateNode) (ws : WalkState) :
    walkNodes (fuel + 1) o opts parent [] ws = .ok ws := rfl

/-- The closers do not touch the log. -/
theorem closePart_log (attrs : List AttrNode) (ws : WalkState) :
    (closePart attrs ws).log = ws.log := by
  unfold closePart
  split <;> (dsimp only; split <;> rfl)

/-- The closers do not touch the codegen state. -/
theorem closePart_cg (attrs : List AttrNode) (ws : WalkState) :
    (closePart attrs ws).cg = ws.cg := by
  unfold closePart
  split <;> (dsimp only; split <;> rfl)

/-- The closers do not touch the markdown buffer or `curr`. -/
theorem closePart_bufMd (attrs : List AttrNode) (ws : WalkState) :
    (closePart attrs ws).bufMd = ws.bufMd ∧ (closePart attrs ws).curr = ws.curr := by
  unfold closePart
  split <;> (dsimp only; split <;> exact ⟨rfl, rfl⟩)

/-- The closers never increase the counter. -/
theorem closePart_paren_le (attrs : List AttrNode) (ws : WalkState) :
    (closePart attrs ws).paren ≤ ws.paren := by
  unfold closePart
  split <;> (dsimp only; split <;> (simp; try omega))

/-! ### Claim C2 (amended half) -/

/-- The try body of the element enter throws the `Unable to render`
error for an unresolved component tag. -/
theorem enterElementTry_unresolved (fuel : Nat) (o : Oracles) (opts : WalkOptions)
    (T : String) (ws : WalkState)
    (hcolon : ':' ∉ T.data) (hdot : '.' ∉ T.data)
    (hcustom : isCustomElementTag T = false)
    (hcomp : isComponentTag T = true)
    (hnotfound : mapGet ws.cg.components T = none)
    (hnotdecl : ws.cg.declarations.contains T = false)
    (hfrag : T ≠ "Fragment") (hmd : T ≠ "Markdown") (hprism : T ≠ "Prism")
    (hcurr : ws.curr = .out) :
    enterElementTry (fuel + 3) o opts T [] ws
      = .error (.thrown ("Unable to render \"" ++ T ++ "\" because it is undefined\n  "
          ++ ws.cg.filename)
        { ws with bufOut := ws.bufOut ++ (if ws.bufOut = "" then "" else ",") }) := by
  unfold enterElementTry
  dsimp only
  rw [getAttributesW_nil, exceptBind_ok]
  dsimp only
  rw [if_neg (by simp [hcomp])]
  rw [legacyComponentName_no_colon T hcolon]
  rw [resolveComponentInfo_no_dot ws.cg T hdot, hnotfound]
  have hnd : T ∉ ws.cg.declarations := by simpa using hnotdecl
  rw [if_neg (by unfold isFrontmatterDefinedComponent isFragmentComponent; simp [hnd, hfrag])]
  rw [if_pos (by simp [hcustom])]

/-- C2 (amended): for every component-style tag `T` (capitalized-style
name without colon, dot or hyphen) that is not found in the components
map, is not a custom-element tag, is not declared in the frontmatter,
and is not `Fragment` (nor `Markdown` or `Prism`, which have dedicated
handling), processing `<T/>` raises
`Unable to render "T" because it is undefined` with the filename
appended — but the error is caught by the element catch: it is reported
through the logging sink and the walk returns `.ok` (the document
compile continues rather than aborting). -/
theorem c2_unresolved_component_recovered (fuel : Nat) (o : Oracles) (opts : WalkOptions)
    (T : String) (ws : WalkState)
    (hcolon : ':' ∉ T.data) (hdot : '.' ∉ T.data)
    (hcustom : isCustomElementTag T = false)
    (hcomp : isComponentTag T = true)
    (hnotfound : mapGet ws.cg.components T = none)
    (hnotdecl : ws.cg.declarations.contains T = false)
    (hfrag : T ≠ "Fragment") (hmd : T ≠ "Markdown") (hprism : T ≠ "Prism")
    (hcurr : ws.curr = .out) :
    ∃ ws', walkNode (fuel + 5) o opts none (.inlineComponent T [] []) ws = .ok ws' ∧
      ws'.log = .errEv (replaceFirstStr ws.cg.filename opts.astroConfig.projectRootPathname ""
        ++ ": Error: " ++ ("Unable to render \"" ++ T ++ "\" because it is undefined\n  "
        ++ ws.cg.filename)) :: ws.log ∧
      ws'.cg = ws.cg := by
  have hne : T ≠ "" := by
    intro h
    rw [h] at hcomp
    simp [isComponentTag] at hcomp
  have henter : enterElementLike (fuel + 4) o opts true T [] ws
      = .ok { ws with
          bufOut := ws.bufOut ++ (if ws.bufOut = "" then "" else ","),
          paren := ws.paren - 1,
          log := .errEv (replaceFirstStr ws.cg.filename opts.astroConfig.projectRootPathname ""
            ++ ": Error: " ++ ("Unable to render \"" ++ T ++ "\" because it is undefined\n  "
            ++ ws.cg.filename)) :: ws.log } := by
    unfold enterElementLike
    dsimp only
    rw [if_neg hne]
    rw [if_neg (by simp [hprism])]
    rw [enterElementTry_unresolved fuel o opts T ws hcolon hdot hcustom hcomp hnotfound
      hnotdecl hfrag hmd hprism hcurr]
  refine ⟨closePart [] { ws with
      bufOut := ws.bufOut ++ (if ws.bufOut = "" then "" else ","),
      paren := ws.paren - 1,
      log := .errEv (replaceFirstStr ws.cg.filename opts.astroConfig.projectRootPathname ""
        ++ ": Error: " ++ ("Unable to render \"" ++ T ++ "\" because it is undefined\n  "
        ++ ws.cg.filename)) :: ws.log }, ?_, ?_, ?_⟩
  · show (do
      let ws1 ← enterElementLike (fuel + 4) o opts true T [] ws
      let ws2 ← walkNodes (fuel + 4) o opts (some (.inlineComponent T [] [])) [] ws1
      leaveInlineComponent (fuel + 4) o opts T [] ws2) = _
    rw [henter, exceptBind_ok, walkNodes_nil, exceptBind_ok]
    unfold leaveInlineComponent
    dsimp only
    rw [if_neg hmd]
    unfold leaveInlineTail
    dsimp only
    rw [if_neg (by simp [hcurr])]
  · rw [closePart_log]
  · rw [closePart_cg]

/-- Concrete instance of the C2 recovery theorem at the tag `Undefined`
over the empty state. -/
theorem c2_unresolved_component_recovered_witness :
    ∃ ws', walkNode (15 + 5) oracleId optsBase none
        (.inlineComponent "Undefined" [] []) ⟨cgEmpty, [], 1, "", "", .out⟩ = .ok ws' ∧
      ws'.log = .errEv (replaceFirstStr cgEmpty.filename optsBase.astroConfig.projectRootPathname ""
        ++ ": Error: " ++ ("Unable to render \"" ++ "Undefined" ++ "\" because it is undefined\n  "
        ++ cgEmpty.filename)) :: ([] : List LogEvent) ∧
      ws'.cg = cgEmpty :=
  c2_unresolved_component_recovered 15 oracleId optsBase "Undefined"
    ⟨cgEmpty, [], 1, "", "", .out⟩ (by decide) (by decide) rfl rfl rfl rfl
    (by decide) (by decide) (by decide) rfl

/-! ### Claim C5 -/

/-- The single directive `client:only="true"` classifies to method
`only` with an undefined value. -/
theorem findHydration_clientOnly :
    findHydrationAttributes [("client:only", "true")] = ⟨some "only", none⟩ := rfl

/-- Resolving the attribute list of one boolean `client:only` attribute. -/
theorem getAttributesW_clientOnly (fuel : Nat) (o : Oracles) (opts : WalkOptions)
    (nodeName : String) (ws : WalkState) :
    getAttributesW (fuel + 3) o opts nodeName [.attr "client:only" .vTrue] ws
      = .ok ([("client:only", "true")], ws) := rfl

/-- Pushing to the current buffer never touches the codegen state. -/
theorem pushCurr_cg (ws : WalkState) (s : String) : (pushCurr ws s).cg = ws.cg := by
  unfold pushCurr
  cases hc : ws.curr <;> rfl

/-- No `slot` key in the map, no slot-content wrapper. -/
theorem slotContentWrap_clientOnly (ws : WalkState) :
    slotContentWrap [("client:only", "true")] ws = ws := rfl

/-- The import set of the `client:only` enter result: the wrapper imports
are added, then every raw import recorded for the component is deleted. -/
theorem clientOnlyResult_importStatements (o : Oracles) (opts : WalkOptions)
    (T : String) (info : ComponentInfo) (ws : WalkState) :
    (clientOnlyResult o opts T info ws).cg.importStatements
      = ((mapGet ws.cg.componentImports T).getD []).foldl setDelete
          ((getComponentWrapper o.resolveUrl o.pathToFileUrl T ⟨some "only", none⟩ info
              ws.cg.filename opts.astroConfig ws.log).1.wrapperImports.foldl setAdd
            ws.cg.importStatements) := by
  unfold clientOnlyResult
  dsimp only
  rw [pushCurr_cg, slotContentWrap_clientOnly]

/-- The element-enter try body on an imported component with the single
attribute `client:only` lands in the wrapper branch and produces exactly
the `clientOnlyResult` state. -/
theorem enterElementTry_clientOnly (fuel : Nat) (o : Oracles) (opts : WalkOptions)
    (T : String) (info : ComponentInfo) (ws : WalkState)
    (hcolon : ':' ∉ T.data) (hdot : '.' ∉ T.data)
    (hcomp : isComponentTag T = true)
    (hinfo : mapGet ws.cg.components T = some info)
    (hfrag : T ≠ "Fragment") (hmd : T ≠ "Markdown")
    (hcurr : ws.curr = .out) :
    enterElementTry (fuel + 4) o opts T [.attr "client:only" .vTrue] ws
      = .ok (clientOnlyResult o opts T info ws) := by
  unfold enterElementTry
  dsimp only
  rw [getAttributesW_clientOnly, exceptBind_ok]
  dsimp only
  rw [findHydration_clientOnly]
  rw [if_neg (by simp [hcomp])]
  rw [legacyComponentName_no_colon T hcolon]
  rw [resolveComponentInfo_no_dot ws.cg T hdot, hinfo]
  rw [if_neg (by unfold isFrontmatterDefinedComponent isFragmentComponent; simp [hfrag])]
  rw [if_neg (by simp)]
  rw [if_neg hmd]
  dsimp only
  rw [if_pos rfl]
  rw [if_neg (by simp [hcurr])]
  rfl

/-- C5: for every imported component rendered with the `client:only`
hydration method, (i) the identifier inside the emitted
`__astro_component(...)` call is `Fragment` — the metadata, computed
first, keeps the original display name — and (ii) after the element
enter every raw import-source string previously recorded for that
component is removed from the import-statement set of the state (the
artifact's `imports`). -/
theorem c5_client_only_fragment_and_import_removal (fuel : Nat) (o : Oracles)
    (opts : WalkOptions) (T : String) (info : ComponentInfo) (ws : WalkState)
    (v : Option String) (ru pu : String → String → String) (pf : String → String)
    (f : String) (cfg : AstroConfig) (log : List LogEvent)
    (hcolon : ':' ∉ T.data) (hdot : '.' ∉ T.data)
    (hcustom : isCustomElementTag T = false)
    (hcomp : isComponentTag T = true)
    (hinfo : mapGet ws.cg.components T = some info)
    (hfrag : T ≠ "Fragment") (hmd : T ≠ "Markdown") (hprism : T ≠ "Prism")
    (hcurr : ws.curr = .out) :
    (getComponentWrapper ru pf T ⟨some "only", v⟩ info f cfg log).1.wrapper
      = "__astro_component(" ++ "Fragment" ++ ", "
        ++ hydratedMetadata "only" T (getComponentUrl ru cfg info.url (pf f))
          (getComponentExport info.importSpecifier T) (hydrationValueOrNull v) ++ ")" ∧
    ∃ ws', enterElementLike (fuel + 5) o opts true T [.attr "client:only" .vTrue] ws = .ok ws' ∧
      ∀ r ∈ (mapGet ws.cg.componentImports T).getD [], r ∉ ws'.cg.importStatements := by
  constructor
  · have hleg : ¬ (jsIndexOfPos ':' T = true) := by
      rw [jsIndexOfPos_of_not_mem ':' T hcolon]
      simp
    unfold getComponentWrapper
    dsimp only
    simp only [if_neg hleg]
    rw [if_neg (by simp [hcustom])]
    dsimp only
    simp
  · have hne : T ≠ "" := by
      intro h
      rw [h] at hcomp
      simp [isComponentTag] at hcomp
    refine ⟨clientOnlyResult o opts T info ws, ?_, ?_⟩
    · unfold enterElementLike
      dsimp only
      rw [if_neg hne]
      rw [if_neg (by simp [hprism])]
      rw [enterElementTry_clientOnly fuel o opts T info ws hcolon hdot hcomp hinfo hfrag
        hmd hcurr]
    · intro r hr
      rw [clientOnlyResult_importStatements]
      exact mem_raws_not_mem_foldl_setDelete _ _ r hr

/-- Concrete instance of the C5 theorem: the component `X` imported as
a default specifier from `./X.astro`, rendered with `client:only`. -/
theorem c5_client_only_fragment_and_import_removal_witness :
    (getComponentWrapper oracleId.resolveUrl oracleId.pathToFileUrl "X" ⟨some "only", none⟩
        ⟨.importDefaultSpecifier "X", "./X.astro"⟩ "/p/f.astro" optsBase.astroConfig []).1.wrapper
      = "__astro_component(" ++ "Fragment" ++ ", "
        ++ hydratedMetadata "only" "X"
          (getComponentUrl oracleId.resolveUrl optsBase.astroConfig
            (⟨.importDefaultSpecifier "X", "./X.astro"⟩ : ComponentInfo).url
            (oracleId.pathToFileUrl "/p/f.astro"))
          (getComponentExport
            (⟨.importDefaultSpecifier "X", "./X.astro"⟩ : ComponentInfo).importSpecifier "X")
          (hydrationValueOrNull none) ++ ")" ∧
    ∃ ws', enterElementLike (15 + 5) oracleId optsBase true "X" [.attr "client:only" .vTrue]
        ⟨⟨[("X", ⟨.importDefaultSpecifier "X", "./X.astro"⟩)], [], "/p/f.astro", "f", none,
          [], [], ["iX"], [("X", ["iX"])], []⟩, [], 1, "", "", .out⟩ = .ok ws' ∧
      ∀ r ∈ (mapGet (⟨⟨[("X", ⟨.importDefaultSpecifier "X", "./X.astro"⟩)], [], "/p/f.astro",
          "f", none, [], [], ["iX"], [("X", ["iX"])], []⟩, [], 1, "", "",
          .out⟩ : WalkState).cg.componentImports "X").getD [], r ∉ ws'.cg.importStatements :=
  c5_client_only_fragment_and_import_removal 15 oracleId optsBase "X"
    ⟨.importDefaultSpecifier "X", "./X.astro"⟩
    ⟨⟨[("X", ⟨.importDefaultSpecifier "X", "./X.astro"⟩)], [], "/p/f.astro", "f", none,
      [], [], ["iX"], [("X", ["iX"])], []⟩, [], 1, "", "", .out⟩
    none oracleId.resolveUrl oracleId.resolveUrl oracleId.pathToFileUrl "/p/f.astro"
    optsBase.astroConfig [] (by decide) (by decide) rfl rfl rfl (by decide) (by decide)
    (by decide) rfl

/-! ### Claim C6 (amended half) -/

/-- C6 (amended): a transpile failure in a template expression is
reported through the logging sink in both positions, but recovery
depends on where the expression sits.  (i) In a standalone `Expression`
node the failure escapes the walk: the parse error is logged and the
node's compile rejects, so the document compile never completes.
(ii) In an element attribute the failure is thrown inside the element
enter try: the catch reports it through the sink, decrements the
parenthesis counter, leaves the codegen state untouched, and the walk
of the element completes successfully. -/
theorem c6_expression_failure_split (fuel : Nat) (o : Oracles) (opts : WalkOptions)
    (parent : Option TemplateNode) (name A : String) (chunks : List String) (ws : WalkState)
    (htr : o.transpile ("(" ++ interleaveChunks chunks [] ++ ")") = none)
    (hne : name ≠ "") (hcurr : ws.curr = .out) :
    walkNode (fuel + 3) o opts parent (.expressionNode chunks []) ws
      = .error (.thrown "Unable to compile expression"
          { ws with log := .parseErrEv ws.cg.filename :: ws.log }) ∧
    ∃ ws', walkNode (fuel + 7) o opts parent
        (.element name [.attr A (.parts [.mustachePart chunks []])] []) ws = .ok ws' ∧
      ws'.log = .errEv (replaceFirstStr ws.cg.filename opts.astroConfig.projectRootPathname ""
          ++ ": Error: " ++ "Unable to compile expression")
        :: .parseErrEv ws.cg.filename :: ws.log ∧
      ws'.cg = ws.cg ∧ ws'.paren < ws.paren := by
  have hexpr : ∀ g : Nat, compileExpressionW (g + 2) o opts chunks [] ws
      = .error (.thrown "Unable to compile expression"
          { ws with log := .parseErrEv ws.cg.filename :: ws.log }) := by
    intro g
    unfold compileExpressionW
    dsimp only
    unfold compileChildrenExprs
    dsimp only
    rw [htr]
  constructor
  · unfold walkNode
    dsimp only
    rw [hexpr fuel, exceptBind_error]
  · have hattrs : getAttributesW (fuel + 4) o opts name
        [.attr A (.parts [.mustachePart chunks []])] ws
        = .error (.thrown "Unable to compile expression"
            { ws with log := .parseErrEv ws.cg.filename :: ws.log }) := by
      unfold getAttributesW
      dsimp only
      unfold getAttributesGo
      dsimp only
      rw [hexpr fuel, exceptBind_error]
    have htry : enterElementTry (fuel + 5) o opts name
        [.attr A (.parts [.mustachePart chunks []])] ws
        = .error (.thrown "Unable to compile expression"
            { ws with log := .parseErrEv ws.cg.filename :: ws.log }) := by
      unfold enterElementTry
      dsimp only
      rw [hattrs, exceptBind_error]
    have henter : enterElementLike (fuel + 6) o opts false name
        [.attr A (.parts [.mustachePart chunks []])] ws
        = .ok { ws with
            paren := ws.paren - 1,
            log := .errEv (replaceFirstStr ws.cg.filename opts.astroConfig.projectRootPathname ""
              ++ ": Error: " ++ "Unable to compile expression")
              :: .parseErrEv ws.cg.filename :: ws.log } := by
      unfold enterElementLike
      dsimp only
      rw [if_neg hne]
      rw [if_neg (by simp)]
      rw [htry]
    refine ⟨closePart [.attr A (.parts [.mustachePart chunks []])] { ws with
        paren := ws.paren - 1,
        log := .errEv (replaceFirstStr ws.cg.filename opts.astroConfig.projectRootPathname ""
          ++ ": Error: " ++ "Unable to compile expression")
          :: .parseErrEv ws.cg.filename :: ws.log }, ?_, ?_, ?_, ?_⟩
    · show (do
        let ws1 ← enterElementLike (fuel + 6) o opts false name
          [.attr A (.parts [.mustachePart chunks []])] ws
        let ws2 ← walkNodes (fuel + 6) o opts
          (some (.element name [.attr A (.parts [.mustachePart chunks []])] [])) [] ws1
        leaveElementClass (fuel + 6) o opts [.attr A (.parts [.mustachePart chunks []])] ws2)
          = _
      rw [henter, exceptBind_ok, walkNodes_nil, exceptBind_ok]
      unfold leaveElementClass
      dsimp only
      rw [if_neg (by simp [hcurr])]
      rfl
    · rw [closePart_log]
    · rw [closePart_cg]
    · have h1 := closePart_paren_le [.attr A (.parts [.mustachePart chunks []])] { ws with
        paren := ws.paren - 1,
        log := .errEv (replaceFirstStr ws.cg.filename opts.astroConfig.projectRootPathname ""
          ++ ": Error: " ++ "Unable to compile expression")
          :: .parseErrEv ws.cg.filename :: ws.log }
      dsimp only at h1
      omega

/-- Concrete instance of the C6 theorem: the expression `x` under a
transpiler that fails, standalone and as the attribute `cls` of an
`h1` element. -/
theorem c6_expression_failure_split_witness :
    walkNode (13 + 3) oracleFailTranspile optsBase none (.expressionNode ["x"] [])
        ⟨cgEmpty, [], 1, "", "", .out⟩
      = .error (.thrown "Unable to compile expression"
          ⟨cgEmpty, [.parseErrEv cgEmpty.filename], 1, "", "", .out⟩) ∧
    ∃ ws', walkNode (13 + 7) oracleFailTranspile optsBase none
        (.element "h1" [.attr "cls" (.parts [.mustachePart ["x"] []])] [])
        ⟨cgEmpty, [], 1, "", "", .out⟩ = .ok ws' ∧
      ws'.log = .errEv (replaceFirstStr cgEmpty.filename optsBase.astroConfig.projectRootPathname ""
          ++ ": Error: " ++ "Unable to compile expression")
        :: .parseErrEv cgEmpty.filename :: ([] : List LogEvent) ∧
      ws'.cg = cgEmpty ∧ ws'.paren < (1 : Int) :=
  c6_expression_failure_split 13 oracleFailTranspile optsBase none "h1" "cls" ["x"]
    ⟨cgEmpty, [], 1, "", "", .out⟩ rfl (by decide) rfl

/-! ### Claim C8: marker lemmas -/

/-- Bind preserves `mdOkW` when both stages do. -/
theorem mdOkW_bind {e : Except WalkErr WalkState} {f : WalkState → Except WalkErr WalkState}
    (he : mdOkW e)
    (hf : ∀ ws, e = .ok ws → mdOkB ws.cg.insideMarkdown = true → mdOkW (f ws)) :
    mdOkW (e >>= f) := by
  cases e with
  | error err =>
    have hb : (Except.error err >>= f) = .error err := rfl
    rw [hb]
    exact he
  | ok ws =>
    have hb : (Except.ok ws >>= f) = f ws := rfl
    rw [hb]
    exact hf ws rfl he

/-- Bind preserves `mdSameW` when both stages do. -/
theorem mdSameW_bind {m : Option MdMarker} {e : Except WalkErr WalkState}
    {f : WalkState → Except WalkErr WalkState}
    (he : mdSameW m e)
    (hf : ∀ ws, e = .ok ws → ws.cg.insideMarkdown = m → mdSameW m (f ws)) :
    mdSameW m (e >>= f) := by
  cases e with
  | error err =>
    have hb : (Except.error err >>= f) = .error err := rfl
    rw [hb]
    exact he
  | ok ws =>
    have hb : (Except.ok ws >>= f) = f ws := rfl
    rw [hb]
    exact hf ws rfl he

/-- Bind out of a paired result, `mdOkW` version. -/
theorem mdOkW_bindP {α : Type} {e : Except WalkErr (α × WalkState)}
    {f : α × WalkState → Except WalkErr WalkState}
    (he : mdOkWP e)
    (hf : ∀ a ws, e = .ok (a, ws) → mdOkB ws.cg.insideMarkdown = true → mdOkW (f (a, ws))) :
    mdOkW (e >>= f) := by
  cases e with
  | error err =>
    have hb : (Except.error err >>= f) = .error err := rfl
    rw [hb]
    cases err with
    | fuelOut => exact True.intro
    | thrown msg ws => exact he
  | ok p =>
    obtain ⟨a, ws⟩ := p
    have hb : (Except.ok (a, ws) >>= f) = f (a, ws) := rfl
    rw [hb]
    exact hf a ws rfl he

/-- Bind out of a paired result, `mdSameW` version. -/
theorem mdSameW_bindP {α : Type} {m : Option MdMarker} {e : Except WalkErr (α × WalkState)}
    {f : α × WalkState → Except WalkErr WalkState}
    (he : mdSameWP m e)
    (hf : ∀ a ws, e = .ok (a, ws) → ws.cg.insideMarkdown = m → mdSameW m (f (a, ws))) :
    mdSameW m (e >>= f) := by
  cases e with
  | error err =>
    have hb : (Except.error err >>= f) = .error err := rfl
    rw [hb]
    cases err with
    | fuelOut => exact True.intro
    | thrown msg ws => exact he
  | ok p =>
    obtain ⟨a, ws⟩ := p
    have hb : (Except.ok (a, ws) >>= f) = f (a, ws) := rfl
    rw [hb]
    exact hf a ws rfl he

/-- An exactly preserved marker that satisfies the invariant yields an
invariant-satisfying result. -/
theorem mdOkW_of_mdSameW {m : Option MdMarker} {e : Except WalkErr WalkState}
    (hs : mdSameW m e) (h : mdOkB m = true) : mdOkW e := by
  cases e with
  | ok ws =>
    show mdOkB ws.cg.insideMarkdown = true
    rw [show ws.cg.insideMarkdown = m from hs]
    exact h
  | error err =>
    cases err with
    | fuelOut => exact True.intro
    | thrown msg ws =>
      show mdOkB ws.cg.insideMarkdown = true
      rw [show ws.cg.insideMarkdown = m from hs]
      exact h

/-- The markdown flush restores the surrounding marker on success and
on a thrown rejection alike (the recursive compile runs on a state
whose marker object is fresh). -/
theorem pushMarkdownToBuffer_mdSame (fuel : Nat) (o : Oracles) (opts : WalkOptions)
    (ws : WalkState) :
    mdSameW ws.cg.insideMarkdown (pushMarkdownToBuffer fuel o opts ws) := by
  cases fuel with
  | zero => exact True.intro
  | succ fuel =>
    unfold pushMarkdownToBuffer
    dsimp only
    split
    · exact rfl
    · split
      · exact True.intro
      · exact rfl
      · exact rfl

/-- The element-class leave preserves the marker exactly. -/
theorem leaveElementClass_mdSame (fuel : Nat) (o : Oracles) (opts : WalkOptions)
    (attrs : List AttrNode) (ws : WalkState) :
    mdSameW ws.cg.insideMarkdown (leaveElementClass fuel o opts attrs ws) := by
  cases fuel with
  | zero => exact True.intro
  | succ fuel =>
    unfold leaveElementClass
    split
    · refine mdSameW_bind (pushMarkdownToBuffer_mdSame fuel o opts ws) ?_
      intro ws1 h1 hm1
      show (closePart attrs ws1).cg.insideMarkdown = ws.cg.insideMarkdown
      rw [closePart_cg, hm1]
    · show (closePart attrs ws).cg.insideMarkdown = ws.cg.insideMarkdown
      rw [closePart_cg]

/-- The inline-component leave tail preserves the marker exactly. -/
theorem leaveInlineTail_mdSame (fuel : Nat) (o : Oracles) (opts : WalkOptions)
    (attrs : List AttrNode) (ws : WalkState) :
    mdSameW ws.cg.insideMarkdown (leaveInlineTail fuel o opts attrs ws) := by
  cases fuel with
  | zero => exact True.intro
  | succ fuel =>
    unfold leaveInlineTail
    split
    · refine mdSameW_bind (pushMarkdownToBuffer_mdSame fuel o opts ws) ?_
      intro ws1 h1 hm1
      split
      · exact hm1
      · show (closePart attrs ws1).cg.insideMarkdown = ws.cg.insideMarkdown
        rw [closePart_cg, hm1]
    · show (closePart attrs ws).cg.insideMarkdown = ws.cg.insideMarkdown
      rw [closePart_cg]

/-- The inline-component leave of a non-`Markdown` tag preserves the
marker exactly. -/
theorem leaveInlineComponent_mdSame (fuel : Nat) (o : Oracles) (opts : WalkOptions)
    (name : String) (attrs : List AttrNode) (ws : WalkState) (hname : name ≠ "Markdown") :
    mdSameW ws.cg.insideMarkdown (leaveInlineComponent fuel o opts name attrs ws) := by
  cases fuel with
  | zero => exact True.intro
  | succ fuel =>
    unfold leaveInlineComponent
    dsimp only
    rw [if_neg hname]
    exact leaveInlineTail_mdSame fuel o opts attrs ws

/-- The inline-component leave preserves the marker invariant: the
decrement writes `false` exactly when the count would drop to zero and
otherwise keeps a positive count. -/
theorem leaveInlineComponent_mdOk (fuel : Nat) (o : Oracles) (opts : WalkOptions)
    (name : String) (attrs : List AttrNode) (ws : WalkState)
    (h : mdOkB ws.cg.insideMarkdown = true) :
    mdOkW (leaveInlineComponent fuel o opts name attrs ws) := by
  cases fuel with
  | zero => exact True.intro
  | succ fuel =>
    unfold leaveInlineComponent
    dsimp only
    split
    · split
      · exact h
      · rename_i mk hmk
        have hm1 : mdOkB (if mk.count - 1 ≤ 0 then none
            else some { mk with count := mk.count - 1 } : Option MdMarker) = true := by
          split
          · rfl
          · rename_i hgt
            simp only [mdOkB, decide_eq_true_eq]
            omega
        split
        · exact hm1
        · exact mdOkW_of_mdSameW (leaveInlineTail_mdSame fuel o opts attrs _) hm1
    · exact mdOkW_of_mdSameW (leaveInlineTail_mdSame fuel o opts attrs ws) h

/-- Buffer pushes keep the marker. -/
theorem pushCurr_marker (ws : WalkState) (s : String) :
    (pushCurr ws s).cg.insideMarkdown = ws.cg.insideMarkdown := by
  rw [pushCurr_cg]

/-- The Prism injection keeps the marker. -/
theorem prismInject_marker (ws : WalkState) :
    (prismInject ws).cg.insideMarkdown = ws.cg.insideMarkdown := by
  unfold prismInject
  dsimp only
  split <;> rfl

/-- The slot-content wrapper keeps the marker. -/
theorem slotContentWrap_marker (attributes : List (String × String)) (ws : WalkState) :
    (slotContentWrap attributes ws).cg.insideMarkdown = ws.cg.insideMarkdown := by
  unfold slotContentWrap
  split
  · split
    · dsimp only
      rw [pushCurr_marker]
    · rfl
  · rfl

/-- Bind between paired results, `mdOkWP` version. -/
theorem mdOkWP_bindPP {α β : Type} {e : Except WalkErr (α × WalkState)}
    {f : α × WalkState → Except WalkErr (β × WalkState)}
    (he : mdOkWP e)
    (hf : ∀ a ws, e = .ok (a, ws) → mdOkB ws.cg.insideMarkdown = true → mdOkWP (f (a, ws))) :
    mdOkWP (e >>= f) := by
  cases e with
  | error err =>
    have hb : (Except.error err >>= f) = .error err := rfl
    rw [hb]
    cases err with
    | fuelOut => exact True.intro
    | thrown msg ws => exact he
  | ok p =>
    obtain ⟨a, ws⟩ := p
    have hb : (Except.ok (a, ws) >>= f) = f (a, ws) := rfl
    rw [hb]
    exact hf a ws rfl he

/-- Bind between paired results, `mdSameWP` version. -/
theorem mdSameWP_bindPP {α β : Type} {m : Option MdMarker} {e : Except WalkErr (α × WalkState)}
    {f : α × WalkState → Except WalkErr (β × WalkState)}
    (he : mdSameWP m e)
    (hf : ∀ a ws, e = .ok (a, ws) → ws.cg.insideMarkdown = m → mdSameWP m (f (a, ws))) :
    mdSameWP m (e >>= f) := by
  cases e with
  | error err =>
    have hb : (Except.error err >>= f) = .error err := rfl
    rw [hb]
    cases err with
    | fuelOut => exact True.intro
    | thrown msg ws => exact he
  | ok p =>
    obtain ⟨a, ws⟩ := p
    have hb : (Except.ok (a, ws) >>= f) = f (a, ws) := rfl
    rw [hb]
    exact hf a ws rfl he

/-- The lifted `if curr = markdown then flush` statement preserves the
marker invariant whenever the final assembly step keeps the marker. -/
theorem mdOkW_currFlush (fuel : Nat) (o : Oracles) (opts : WalkOptions)
    (c : Prop) [Decidable c] (W : WalkState) (F : WalkState → WalkState)
    (hW : mdOkB W.cg.insideMarkdown = true)
    (hF : ∀ y, (F y).cg.insideMarkdown = y.cg.insideMarkdown) :
    mdOkW (if c then (do
        let y ← pushMarkdownToBuffer fuel o opts W
        Except.ok (F y))
      else (do
        let y ← pure W
        Except.ok (F y))) := by
  split
  · refine mdOkW_bind (mdOkW_of_mdSameW (pushMarkdownToBuffer_mdSame fuel o opts W) hW) ?_
    intro y hy hmy
    show mdOkB (F y).cg.insideMarkdown = true
    rw [hF y]
    exact hmy
  · show mdOkB (F W).cg.insideMarkdown = true
    rw [hF W]
    exact hW

/-- The marker invariant is preserved by every function of the walk,
at every fuel: states carried by successful results and by thrown
rejections alike satisfy `mdOkB`. -/
theorem mdOkWalkAll (o : Oracles) (opts : WalkOptions) : ∀ fuel : Nat,
    (∀ parent node ws, mdOkB ws.cg.insideMarkdown = true →
      mdOkW (walkNode fuel o opts parent node ws)) ∧
    (∀ parent nodes ws, mdOkB ws.cg.insideMarkdown = true →
      mdOkW (walkNodes fuel o opts parent nodes ws)) ∧
    (∀ isInline name attrs ws, mdOkB ws.cg.insideMarkdown = true →
      mdOkW (enterElementLike fuel o opts isInline name attrs ws)) ∧
    (∀ name attrs ws, mdOkB ws.cg.insideMarkdown = true →
      mdOkW (enterElementTry fuel o opts name attrs ws)) ∧
    (∀ nodeName attrs ws, mdOkB ws.cg.insideMarkdown = true →
      mdOkWP (getAttributesW fuel o opts nodeName attrs ws)) ∧
    (∀ nodeName isPage attrs acc ws, mdOkB ws.cg.insideMarkdown = true →
      mdOkWP (getAttributesGo fuel o opts nodeName isPage attrs acc ws)) ∧
    (∀ chunks children ws, mdOkB ws.cg.insideMarkdown = true →
      mdOkWP (compileExpressionW fuel o opts chunks children ws)) ∧
    (∀ children cg log, mdOkB cg.insideMarkdown = true →
      mdOkC (compileChildrenExprs fuel o opts children cg log)) ∧
    (∀ node cg log, mdOkB cg.insideMarkdown = true →
      mdOkC (compileHtml fuel o opts node cg log)) := by
  intro fuel
  induction fuel with
  | zero =>
    refine ⟨?_, ?_, ?_, ?_, ?_, ?_, ?_, ?_, ?_⟩ <;> intros <;> exact True.intro
  | succ fuel ih =>
    obtain ⟨ihWN, ihWNs, ihEL, ihET, ihGA, ihGG, ihCE, ihCC, ihCH⟩ := ih
    refine ⟨?_, ?_, ?_, ?_, ?_, ?_, ?_, ?_, ?_⟩
    · intro parent node ws h
      cases node with
      | fragment children =>
        unfold walkNode
        dsimp only
        refine mdOkW_bind (ihWNs _ _ _ ?_) ?_
        · rw [pushCurr_marker]
          exact h
        · intro ws2 h2 hm2
          show mdOkB (pushCurr ws2 ")").cg.insideMarkdown = true
          rw [pushCurr_marker]
          exact hm2
      | slotTemplate attrs children =>
        unfold walkNode
        dsimp only
        refine mdOkW_bind (ihWNs _ _ _ ?_) ?_
        · show mdOkB (pushCurr ws "h(Fragment, null, children").cg.insideMarkdown = true
          rw [pushCurr_marker]
          exact h
        · intro ws2 h2 hm2
          exact mdOkW_of_mdSameW (leaveElementClass_mdSame fuel o opts attrs ws2) hm2
      | element name attrs children =>
        unfold walkNode
        dsimp only
        refine mdOkW_bind (ihEL _ _ _ _ h) ?_
        intro ws1 h1 hm1
        refine mdOkW_bind (ihWNs _ _ _ hm1) ?_
        intro ws2 h2 hm2
        exact mdOkW_of_mdSameW (leaveElementClass_mdSame fuel o opts attrs ws2) hm2
      | inlineComponent name attrs children =>
        unfold walkNode
        dsimp only
        refine mdOkW_bind (ihEL _ _ _ _ h) ?_
        intro ws1 h1 hm1
        refine mdOkW_bind (ihWNs _ _ _ hm1) ?_
        intro ws2 h2 hm2
        exact leaveInlineComponent_mdOk fuel o opts name attrs ws2 hm2
      | expressionNode chunks children =>
        unfold walkNode
        dsimp only
        refine mdOkW_bindP (ihCE _ _ _ h) ?_
        intro code ws1 hok hm1
        dsimp only
        split
        · exact hm1
        · split
          · split
            · show mdOkB (pushCurr ws1 _).cg.insideMarkdown = true
              rw [pushCurr_marker]
              exact hm1
            · show mdOkB (pushCurr ws1 _).cg.insideMarkdown = true
              rw [pushCurr_marker]
              exact hm1
          · exact hm1
      | mustacheTag children =>
        unfold walkNode
        dsimp only
        refine ihWNs _ _ _ ?_
        split
        · exact h
        · exact h
      | commentNode =>
        unfold walkNode
        dsimp only
        exact h
      | codeSpan raw dataStr =>
        unfold walkNode
        dsimp only
        split
        · show mdOkB (pushCurr (if ws.curr = .out then { ws with curr := .markdown } else ws)
            raw).cg.insideMarkdown = true
          rw [pushCurr_marker]
          split
          · exact h
          · exact h
        · show mdOkB (pushCurr ws _).cg.insideMarkdown = true
          rw [pushCurr_marker]
          exact h
      | codeFence raw dataStr =>
        unfold walkNode
        dsimp only
        split
        · show mdOkB (pushCurr (if ws.curr = .out then { ws with curr := .markdown } else ws)
            raw).cg.insideMarkdown = true
          rw [pushCurr_marker]
          split
          · exact h
          · exact h
        · show mdOkB (pushCurr ws _).cg.insideMarkdown = true
          rw [pushCurr_marker]
          exact h
      | textNode raw =>
        unfold walkNode
        dsimp only
        split
        · show mdOkB (pushCurr (if ws.curr = .out then { ws with curr := .markdown } else ws)
            raw).cg.insideMarkdown = true
          rw [pushCurr_marker]
          split
          · exact h
          · exact h
        · split
          · exact h
          · split
            · exact h
            · show mdOkB (pushCurr ws _).cg.insideMarkdown = true
              rw [pushCurr_marker]
              exact h
      | styleNode styles =>
        unfold walkNode
        dsimp only
        exact h
    · intro parent nodes ws h
      cases nodes with
      | nil =>
        unfold walkNodes
        dsimp only
        exact h
      | cons n rest =>
        unfold walkNodes
        dsimp only
        refine mdOkW_bind (ihWN _ _ _ h) ?_
        intro ws1 h1 hm1
        exact ihWNs _ _ _ hm1
    · intro isInline name attrs ws h
      unfold enterElementLike
      dsimp only
      have h0 : mdOkB (if isInline = true ∧ name = "Prism" then prismInject ws
          else ws).cg.insideMarkdown = true := by
        split
        · rw [prismInject_marker]
          exact h
        · exact h
      split
      · exact h0
      · split
        · rename_i ws1 heq
          have h2 := ihET name attrs _ h0
          rw [heq] at h2
          exact h2
        · exact True.intro
        · rename_i msg wsT heq
          have h2 := ihET name attrs _ h0
          rw [heq] at h2
          exact h2
    · intro name attrs ws h
      unfold enterElementTry
      dsimp only
      refine mdOkW_bindP (ihGA _ _ _ h) ?_
      intro attributes ws1 hok hm1
      dsimp only
      split
      · exact mdOkW_currFlush fuel o opts _ _ _ hm1
          (fun y => by simp [pushCurr_marker, slotContentWrap_marker])
      · split
        · split
          · exact hm1
          · exact mdOkW_currFlush fuel o opts _ _ _ hm1
              (fun y => by simp [pushCurr_marker, slotContentWrap_marker])
        · split
          · exact hm1
          · split
            · have hnew : mdOkB (match ws1.cg.insideMarkdown with
                  | some mk => some ⟨mapGet attributes "$scope", mk.count + 1⟩
                  | none => some ⟨mapGet attributes "$scope", 1⟩ : Option MdMarker) = true := by
                rcases hc : ws1.cg.insideMarkdown with _ | mk
                · simp [mdOkB]
                · rw [hc] at hm1
                  simp only [mdOkB, decide_eq_true_eq] at hm1 ⊢
                  omega
              split
              · exact mdOkW_currFlush fuel o opts _ _ _ hnew
                  (fun y => by simp [pushCurr_marker])
              · exact hnew
            · exact mdOkW_currFlush fuel o opts _ _ _ (by split <;> exact hm1)
                (fun y => by simp [pushCurr_marker, slotContentWrap_marker])
    · intro nodeName attrs ws h
      unfold getAttributesW
      dsimp only
      exact ihGG _ _ _ _ _ h
    · intro nodeName isPage attrs acc ws h
      cases attrs with
      | nil =>
        unfold getAttributesGo
        dsimp only
        exact h
      | cons a rest =>
        unfold getAttributesGo
        dsimp only
        split
        · refine mdOkWP_bindPP (ihCE _ _ _ h) ?_
          intro code ws1 hok hm1
          dsimp only
          split
          · exact ihGG _ _ _ _ _ hm1
          · exact ihGG _ _ _ _ _ hm1
        · exact ihGG _ _ _ _ _ h
        · exact ihGG _ _ _ _ _ h
        · exact ihGG _ _ _ _ _ h
        · split
          · exact h
          · exact ihGG _ _ _ _ _ h
        · exact ihGG _ _ _ _ _ h
        · refine mdOkWP_bindPP (ihCE _ _ _ h) ?_
          intro code ws1 hok hm1
          dsimp only
          split
          · exact ihGG _ _ _ _ _ hm1
          · exact ihGG _ _ _ _ _ hm1
        · exact ihGG _ _ _ _ _ h
        · exact h
    · intro chunks children ws h
      unfold compileExpressionW
      split
      · exact True.intro
      · rename_i msg cg1 log1 heq
        have h2 := ihCC children ws.cg ws.log h
        rw [heq] at h2
        exact h2
      · rename_i childStrs cg1 log1 heq
        have h2 := ihCC children ws.cg ws.log h
        rw [heq] at h2
        dsimp only
        split
        · exact h2
        · exact h2
    · intro children cg log h
      cases children with
      | nil =>
        unfold compileChildrenExprs
        dsimp only
        exact h
      | cons cnode rest =>
        unfold compileChildrenExprs
        dsimp only
        split
        · rename_i e heq
          have h2 := ihCH cnode cg log h
          rw [heq] at h2
          cases e with
          | fuelOut => exact True.intro
          | thrown msg cg1 log1 => exact h2
        · rename_i s cg1 log1 heq
          have h2 := ihCH cnode cg log h
          rw [heq] at h2
          split
          · rename_i e2 heq2
            have h3 := ihCC rest cg1 log1 h2
            rw [heq2] at h3
            cases e2 with
            | fuelOut => exact True.intro
            | thrown m c l => exact h3
          · rename_i ss cg2 log2 heq2
            have h3 := ihCC rest cg1 log1 h2
            rw [heq2] at h3
            exact h3
    · intro node cg log h
      unfold compileHtml
      split
      · exact True.intro
      · rename_i msg wsx heq
        have h2 := ihWN none node ⟨cg, log, -1, "", "", .out⟩ h
        rw [heq] at h2
        exact h2
      · rename_i wsx heq
        have h2 := ihWN none node ⟨cg, log, -1, "", "", .out⟩ h
        rw [heq] at h2
        exact h2

/-- Transport of `mdSameW` along an equality of markers. -/
theorem mdSameW_congr {m1 m2 : Option MdMarker} {e : Except WalkErr WalkState}
    (h : mdSameW m1 e) (hm : m1 = m2) : mdSameW m2 e := hm ▸ h

/-- Transport of `mdSameWP` along an equality of markers. -/
theorem mdSameWP_congr {α : Type} {m1 m2 : Option MdMarker} {e : Except WalkErr (α × WalkState)}
    (h : mdSameWP m1 e) (hm : m1 = m2) : mdSameWP m2 e := hm ▸ h

/-- Transport of `mdSameC` along an equality of markers. -/
theorem mdSameC_congr {α : Type} {m1 m2 : Option MdMarker}
    {e : Except CompileErr (α × CodegenState × List LogEvent)}
    (h : mdSameC m1 e) (hm : m1 = m2) : mdSameC m2 e := hm ▸ h

/-- The lifted flush statement preserves the marker exactly whenever the
final assembly step keeps it. -/
theorem mdSameW_currFlush (fuel : Nat) (o : Oracles) (opts : WalkOptions)
    (c : Prop) [Decidable c] (m : Option MdMarker) (W : WalkState) (F : WalkState → WalkState)
    (hW : W.cg.insideMarkdown = m)
    (hF : ∀ y, (F y).cg.insideMarkdown = y.cg.insideMarkdown) :
    mdSameW m (if c then (do
        let y ← pushMarkdownToBuffer fuel o opts W
        Except.ok (F y))
      else (do
        let y ← pure W
        Except.ok (F y))) := by
  split
  · refine mdSameW_bind (mdSameW_congr (pushMarkdownToBuffer_mdSame fuel o opts W) hW) ?_
    intro y hy hmy
    show (F y).cg.insideMarkdown = m
    rw [hF y]
    exact hmy
  · show (F W).cg.insideMarkdown = m
    rw [hF W]
    exact hW

/-- The marker is preserved exactly by every function of the walk on
inputs that contain no `Markdown` tag, at every fuel: the only two
marker mutation sites sit under a `Markdown`-named component. -/
theorem mdSameWalkAll (o : Oracles) (opts : WalkOptions) : ∀ fuel : Nat,
    (∀ parent node ws, noMdNode node = true →
      mdSameW ws.cg.insideMarkdown (walkNode fuel o opts parent node ws)) ∧
    (∀ parent nodes ws, noMdNodes nodes = true →
      mdSameW ws.cg.insideMarkdown (walkNodes fuel o opts parent nodes ws)) ∧
    (∀ isInline name attrs ws, legacyComponentName name ≠ "Markdown" → noMdAttrs attrs = true →
      mdSameW ws.cg.insideMarkdown (enterElementLike fuel o opts isInline name attrs ws)) ∧
    (∀ name attrs ws, legacyComponentName name ≠ "Markdown" → noMdAttrs attrs = true →
      mdSameW ws.cg.insideMarkdown (enterElementTry fuel o opts name attrs ws)) ∧
    (∀ nodeName attrs ws, noMdAttrs attrs = true →
      mdSameWP ws.cg.insideMarkdown (getAttributesW fuel o opts nodeName attrs ws)) ∧
    (∀ nodeName isPage attrs acc ws, noMdAttrs attrs = true →
      mdSameWP ws.cg.insideMarkdown (getAttributesGo fuel o opts nodeName isPage attrs acc ws)) ∧
    (∀ chunks children ws, noMdNodes children = true →
      mdSameWP ws.cg.insideMarkdown (compileExpressionW fuel o opts chunks children ws)) ∧
    (∀ children cg log, noMdNodes children = true →
      mdSameC cg.insideMarkdown (compileChildrenExprs fuel o opts children cg log)) ∧
    (∀ node cg log, noMdNode node = true →
      mdSameC cg.insideMarkdown (compileHtml fuel o opts node cg log)) := by
  intro fuel
  induction fuel with
  | zero =>
    refine ⟨?_, ?_, ?_, ?_, ?_, ?_, ?_, ?_, ?_⟩ <;> intros <;> exact True.intro
  | succ fuel ih =>
    obtain ⟨ihWN, ihWNs, ihEL, ihET, ihGA, ihGG, ihCE, ihCC, ihCH⟩ := ih
    refine ⟨?_, ?_, ?_, ?_, ?_, ?_, ?_, ?_, ?_⟩
    · intro parent node ws hno
      cases node with
      | fragment children =>
        unfold walkNode
        dsimp only
        simp only [noMdNode] at hno
        refine mdSameW_bind (mdSameW_congr (ihWNs _ _ _ hno) (by rw [pushCurr_marker])) ?_
        intro ws2 h2 hm2
        show (pushCurr ws2 ")").cg.insideMarkdown = ws.cg.insideMarkdown
        rw [pushCurr_marker]
        exact hm2
      | slotTemplate attrs children =>
        unfold walkNode
        dsimp only
        simp only [noMdNode, Bool.and_eq_true] at hno
        refine mdSameW_bind (mdSameW_congr (ihWNs _ _ _ hno.2) ?_) ?_
        · show (pushCurr ws "h(Fragment, null, children").cg.insideMarkdown = ws.cg.insideMarkdown
          rw [pushCurr_marker]
        · intro ws2 h2 hm2
          exact mdSameW_congr (leaveElementClass_mdSame fuel o opts attrs ws2) hm2
      | element name attrs children =>
        unfold walkNode
        dsimp only
        simp only [noMdNode, Bool.and_eq_true, bne_iff_ne] at hno
        obtain ⟨⟨hn1, hn2⟩, hn3⟩ := hno
        refine mdSameW_bind (ihEL _ _ _ _ hn1 hn2) ?_
        intro ws1 h1 hm1
        refine mdSameW_bind (mdSameW_congr (ihWNs _ _ _ hn3) hm1) ?_
        intro ws2 h2 hm2
        exact mdSameW_congr (leaveElementClass_mdSame fuel o opts attrs ws2) hm2
      | inlineComponent name attrs children =>
        unfold walkNode
        dsimp only
        simp only [noMdNode, Bool.and_eq_true, bne_iff_ne] at hno
        obtain ⟨⟨hn1, hn2⟩, hn3⟩ := hno
        have hname : name ≠ "Markdown" := by
          intro he
          apply hn1
          rw [he]
          rfl
        refine mdSameW_bind (ihEL _ _ _ _ hn1 hn2) ?_
        intro ws1 h1 hm1
        refine mdSameW_bind (mdSameW_congr (ihWNs _ _ _ hn3) hm1) ?_
        intro ws2 h2 hm2
        exact mdSameW_congr (leaveInlineComponent_mdSame fuel o opts name attrs ws2 hname) hm2
      | expressionNode chunks children =>
        unfold walkNode
        dsimp only
        simp only [noMdNode] at hno
        refine mdSameW_bindP (ihCE _ _ _ hno) ?_
        intro code ws1 hok hm1
        dsimp only
        split
        · exact hm1
        · split
          · split
            · show (pushCurr ws1 _).cg.insideMarkdown = ws.cg.insideMarkdown
              rw [pushCurr_marker]
              exact hm1
            · show (pushCurr ws1 _).cg.insideMarkdown = ws.cg.insideMarkdown
              rw [pushCurr_marker]
              exact hm1
          · exact hm1
      | mustacheTag children =>
        unfold walkNode
        dsimp only
        simp only [noMdNode] at hno
        exact mdSameW_congr (ihWNs _ _ _ hno) (by split <;> rfl)
      | commentNode =>
        unfold walkNode
        dsimp only
        rfl
      | codeSpan raw dataStr =>
        unfold walkNode
        dsimp only
        split
        · show (pushCurr (if ws.curr = .out then { ws with curr := .markdown } else ws)
            raw).cg.insideMarkdown = ws.cg.insideMarkdown
          rw [pushCurr_marker]
          split <;> rfl
        · show (pushCurr ws _).cg.insideMarkdown = ws.cg.insideMarkdown
          rw [pushCurr_marker]
      | codeFence raw dataStr =>
        unfold walkNode
        dsimp only
        split
        · show (pushCurr (if ws.curr = .out then { ws with curr := .markdown } else ws)
            raw).cg.insideMarkdown = ws.cg.insideMarkdown
          rw [pushCurr_marker]
          split <;> rfl
        · show (pushCurr ws _).cg.insideMarkdown = ws.cg.insideMarkdown
          rw [pushCurr_marker]
      | textNode raw =>
        unfold walkNode
        dsimp only
        split
        · show (pushCurr (if ws.curr = .out then { ws with curr := .markdown } else ws)
            raw).cg.insideMarkdown = ws.cg.insideMarkdown
          rw [pushCurr_marker]
          split <;> rfl
        · split
          · rfl
          · split
            · rfl
            · show (pushCurr ws _).cg.insideMarkdown = ws.cg.insideMarkdown
              rw [pushCurr_marker]
      | styleNode styles =>
        unfold walkNode
        dsimp only
        rfl
    · intro parent nodes ws hno
      cases nodes with
      | nil =>
        unfold walkNodes
        dsimp only
        rfl
      | cons n rest =>
        unfold walkNodes
        dsimp only
        simp only [noMdNodes, Bool.and_eq_true] at hno
        refine mdSameW_bind (ihWN _ _ _ hno.1) ?_
        intro ws1 h1 hm1
        exact mdSameW_congr (mdSameW_congr (ihWNs _ _ _ hno.2) hm1) rfl
    · intro isInline name attrs ws hn1 hn2
      unfold enterElementLike
      dsimp only
      have h0 : (if isInline = true ∧ name = "Prism" then prismInject ws
          else ws).cg.insideMarkdown = ws.cg.insideMarkdown := by
        split
        · rw [prismInject_marker]
        · rfl
      split
      · exact h0
      · split
        · rename_i ws1 heq
          have h2 := mdSameW_congr (ihET name attrs _ hn1 hn2) h0
          rw [heq] at h2
          exact h2
        · exact True.intro
        · rename_i msg wsT heq
          have h2 := mdSameW_congr (ihET name attrs _ hn1 hn2) h0
          rw [heq] at h2
          exact h2
    · intro name attrs ws hn1 hn2
      unfold enterElementTry
      dsimp only
      refine mdSameW_bindP (ihGA _ _ _ hn2) ?_
      intro attributes ws1 hok hm1
      dsimp only
      by_cases hcomp : ¬ isComponentTag name = true
      · rw [if_pos hcomp]
        exact mdSameW_currFlush fuel o opts _ _ _ _ hm1
          (fun y => by simp [pushCurr_marker, slotContentWrap_marker])
      · rw [if_neg hcomp]
        by_cases hfm : (isFrontmatterDefinedComponent (legacyComponentName name)
              (resolveComponentInfo ws1.cg (legacyComponentName name)) ws1.cg = true
            ∧ ¬ isCustomElementTag (legacyComponentName name) = true)
            ∨ isFragmentComponent (legacyComponentName name) = true
        · rw [if_pos hfm]
          by_cases hh : (findHydrationAttributes attributes).method.isSome = true
          · rw [if_pos hh]
            exact hm1
          · rw [if_neg hh]
            exact mdSameW_currFlush fuel o opts _ _ _ _ hm1
              (fun y => by simp [pushCurr_marker, slotContentWrap_marker])
        · rw [if_neg hfm]
          by_cases hun : (resolveComponentInfo ws1.cg (legacyComponentName name)).isNone = true
              ∧ ¬ isCustomElementTag (legacyComponentName name) = true
          · rw [if_pos hun]
            exact hm1
          · rw [if_neg hun]
            rw [if_neg hn1]
            exact mdSameW_currFlush fuel o opts _ _ _ _ (by split <;> exact hm1)
              (fun y => by simp [pushCurr_marker, slotContentWrap_marker])
    · intro nodeName attrs ws hno
      unfold getAttributesW
      dsimp only
      exact ihGG _ _ _ _ _ hno
    · intro nodeName isPage attrs acc ws hno
      cases attrs with
      | nil =>
        unfold getAttributesGo
        dsimp only
        rfl
      | cons a rest =>
        unfold getAttributesGo
        dsimp only
        split
        · rename_i chunks children
          simp only [noMdAttrs, noMdAttr, Bool.and_eq_true] at hno
          refine mdSameWP_bindPP (ihCE _ _ _ hno.1) ?_
          intro code ws1 hE hm1
          dsimp only
          split
          · exact mdSameWP_congr (mdSameWP_congr (ihGG _ _ _ _ _ hno.2) hm1) rfl
          · exact mdSameWP_congr (mdSameWP_congr (ihGG _ _ _ _ _ hno.2) hm1) rfl
        · simp only [noMdAttrs, noMdAttr, noMdVal, Bool.and_eq_true] at hno
          exact ihGG _ _ _ _ _ hno.2
        · simp only [noMdAttrs, noMdAttr, noMdVal, Bool.and_eq_true] at hno
          exact ihGG _ _ _ _ _ hno.2
        · simp only [noMdAttrs, noMdAttr, noMdVal, Bool.and_eq_true] at hno
          exact ihGG _ _ _ _ _ hno.2
        · split
          · rfl
          · simp only [noMdAttrs, Bool.and_eq_true] at hno
            exact ihGG _ _ _ _ _ hno.2
        · simp only [noMdAttrs, Bool.and_eq_true] at hno
          exact ihGG _ _ _ _ _ hno.2
        · rename_i aname chunks children
          simp only [noMdAttrs, noMdAttr, noMdVal, noMdParts, noMdPart, Bool.and_eq_true] at hno
          refine mdSameWP_bindPP (ihCE _ _ _ hno.1.1) ?_
          intro code ws1 hE hm1
          dsimp only
          split
          · exact mdSameWP_congr (mdSameWP_congr (ihGG _ _ _ _ _ hno.2) hm1) rfl
          · exact mdSameWP_congr (mdSameWP_congr (ihGG _ _ _ _ _ hno.2) hm1) rfl
        · simp only [noMdAttrs, Bool.and_eq_true] at hno
          exact ihGG _ _ _ _ _ hno.2
        · rfl
    · intro chunks children ws hno
      unfold compileExpressionW
      split
      · exact True.intro
      · rename_i msg cg1 log1 heq
        have h2 := ihCC children ws.cg ws.log hno
        rw [heq] at h2
        exact h2
      · rename_i childStrs cg1 log1 heq
        have h2 := ihCC children ws.cg ws.log hno
        rw [heq] at h2
        dsimp only
        split
        · exact h2
        · exact h2
    · intro children cg log hno
      cases children with
      | nil =>
        unfold compileChildrenExprs
        dsimp only
        rfl
      | cons cnode rest =>
        unfold compileChildrenExprs
        dsimp only
        simp only [noMdNodes, Bool.and_eq_true] at hno
        split
        · rename_i e heq
          have h2 := ihCH cnode cg log hno.1
          rw [heq] at h2
          cases e with
          | fuelOut => exact True.intro
          | thrown msg cg1 log1 => exact h2
        · rename_i s cg1 log1 heq
          have h2 := ihCH cnode cg log hno.1
          rw [heq] at h2
          have h3 := mdSameC_congr (ihCC rest cg1 log1 hno.2) h2
          split
          · rename_i e2 heq2
            rw [heq2] at h3
            cases e2 with
            | fuelOut => exact True.intro
            | thrown m c l => exact h3
          · rename_i ss cg2 log2 heq2
            rw [heq2] at h3
            exact h3
    · intro node cg log hno
      unfold compileHtml
      split
      · exact True.intro
      · rename_i msg wsx heq
        have h2 := ihWN none node ⟨cg, log, -1, "", "", .out⟩ hno
        rw [heq] at h2
        exact h2
      · rename_i wsx heq
        have h2 := ihWN none node ⟨cg, log, -1, "", "", .out⟩ hno
        rw [heq] at h2
        exact h2

/-- A result that carries exactly an admissible marker is admissible. -/
theorem mdEnterRes_of_mdSameW {m : Option MdMarker} {e : Except WalkErr WalkState}
    (hs : mdSameW m e) (h : m = none ∨ ∃ s, m = some ⟨s, 1⟩) : mdEnterRes e := by
  cases e with
  | ok ws =>
    show ws.cg.insideMarkdown = none ∨ ∃ s, ws.cg.insideMarkdown = some ⟨s, 1⟩
    rw [show ws.cg.insideMarkdown = m from hs]
    exact h
  | error err =>
    cases err with
    | fuelOut => exact True.intro
    | thrown msg ws =>
      show ws.cg.insideMarkdown = none ∨ ∃ s, ws.cg.insideMarkdown = some ⟨s, 1⟩
      rw [show ws.cg.insideMarkdown = m from hs]
      exact h

/-- A result that carries exactly a cleared marker has a cleared marker
on success. -/
theorem mdNoneW_of_mdSameW {m : Option MdMarker} {e : Except WalkErr WalkState}
    (hs : mdSameW m e) (h : m = none) : mdNoneW e := by
  cases e with
  | ok ws =>
    show ws.cg.insideMarkdown = none
    rw [show ws.cg.insideMarkdown = m from hs]
    exact h
  | error err => exact True.intro

/-- The element-enter try of a `<Markdown>` tag from a cleared marker:
the surviving marker is cleared or a fresh record of count `1`. -/
theorem enterTry_markdown (fuel : Nat) (o : Oracles) (opts : WalkOptions)
    (attrs : List AttrNode) (ws : WalkState)
    (hattrs : noMdAttrs attrs = true) (hm : ws.cg.insideMarkdown = none) :
    mdEnterRes (enterElementTry fuel o opts "Markdown" attrs ws) := by
  cases fuel with
  | zero => exact True.intro
  | succ fuel =>
    unfold enterElementTry
    dsimp only
    have hGA := (mdSameWalkAll o opts fuel).2.2.2.2.1 "Markdown" attrs ws hattrs
    cases heq : getAttributesW fuel o opts "Markdown" attrs ws with
    | error err =>
      rw [heq] at hGA
      have hb : ∀ f : List (String × String) × WalkState → Except WalkErr WalkState,
          ((Except.error err : Except WalkErr (List (String × String) × WalkState)) >>= f)
            = .error err := fun f => rfl
      rw [hb]
      cases err with
      | fuelOut => exact True.intro
      | thrown msg wsT =>
        exact Or.inl (by rw [show wsT.cg.insideMarkdown = ws.cg.insideMarkdown from hGA, hm])
    | ok p =>
      obtain ⟨attributes, ws1⟩ := p
      rw [heq] at hGA
      have hm1 : ws1.cg.insideMarkdown = none := by
        rw [show ws1.cg.insideMarkdown = ws.cg.insideMarkdown from hGA, hm]
      have hb : ∀ f : List (String × String) × WalkState → Except WalkErr WalkState,
          ((Except.ok (attributes, ws1) : Except WalkErr (List (String × String) × WalkState))
            >>= f) = f (attributes, ws1) := fun f => rfl
      rw [hb]
      dsimp only
      rw [if_neg (by decide : ¬ (¬ isComponentTag "Markdown" = true))]
      by_cases hfm : (isFrontmatterDefinedComponent (legacyComponentName "Markdown")
            (resolveComponentInfo ws1.cg (legacyComponentName "Markdown")) ws1.cg = true
          ∧ ¬ isCustomElementTag (legacyComponentName "Markdown") = true)
          ∨ isFragmentComponent (legacyComponentName "Markdown") = true
      · rw [if_pos hfm]
        by_cases hh : (findHydrationAttributes attributes).method.isSome = true
        · rw [if_pos hh]
          exact Or.inl hm1
        · rw [if_neg hh]
          exact mdEnterRes_of_mdSameW (mdSameW_currFlush fuel o opts _ ws1.cg.insideMarkdown _ _
            rfl (fun y => by simp [pushCurr_marker, slotContentWrap_marker])) (Or.inl hm1)
      · rw [if_neg hfm]
        by_cases hun : (resolveComponentInfo ws1.cg (legacyComponentName "Markdown")).isNone = true
            ∧ ¬ isCustomElementTag (legacyComponentName "Markdown") = true
        · rw [if_pos hun]
          exact Or.inl hm1
        · rw [if_neg hun]
          rw [if_pos (by decide : legacyComponentName "Markdown" = "Markdown")]
          rw [hm1]
          dsimp only
          split
          · exact mdEnterRes_of_mdSameW (mdSameW_currFlush fuel o opts _
              (some ⟨mapGet attributes "$scope", 1⟩) _ _ rfl
              (fun y => by simp [pushCurr_marker]))
              (Or.inr ⟨mapGet attributes "$scope", rfl⟩)
          · exact Or.inr ⟨mapGet attributes "$scope", rfl⟩

/-- The element enter of a `<Markdown>` tag from a cleared marker. -/
theorem enterLike_markdown (fuel : Nat) (o : Oracles) (opts : WalkOptions)
    (attrs : List AttrNode) (ws : WalkState)
    (hattrs : noMdAttrs attrs = true) (hm : ws.cg.insideMarkdown = none) :
    mdEnterRes (enterElementLike fuel o opts true "Markdown" attrs ws) := by
  cases fuel with
  | zero => exact True.intro
  | succ fuel =>
    unfold enterElementLike
    dsimp only
    rw [if_neg (by decide : ¬ ("Markdown" = ""))]
    rw [if_neg (by simp : ¬ (true = true ∧ "Markdown" = "Prism"))]
    have htry := enterTry_markdown fuel o opts attrs ws hattrs hm
    split
    · rename_i ws1 heq
      rw [heq] at htry
      exact htry
    · exact True.intro
    · rename_i msg wsT heq
      rw [heq] at htry
      exact htry

/-- A `<Markdown>` region with `Markdown`-free children, entered with a
cleared marker, completes (when it completes) with a cleared marker:
the enter pushes a count of `1` and the leave pops it back to `false`. -/
theorem walkNode_markdown_completes (fuel : Nat) (o : Oracles) (opts : WalkOptions)
    (parent : Option TemplateNode) (attrs : List AttrNode) (children : List TemplateNode)
    (ws : WalkState)
    (hattrs : noMdAttrs attrs = true) (hch : noMdNodes children = true)
    (hm : ws.cg.insideMarkdown = none) :
    mdNoneW (walkNode (fuel + 1) o opts parent
      (.inlineComponent "Markdown" attrs children) ws) := by
  unfold walkNode
  dsimp only
  have hres := enterLike_markdown fuel o opts attrs ws hattrs hm
  cases henter : enterElementLike fuel o opts true "Markdown" attrs ws with
  | error err =>
    have hb : ∀ f : WalkState → Except WalkErr WalkState,
        ((Except.error err : Except WalkErr WalkState) >>= f) = .error err := fun f => rfl
    rw [hb]
    exact True.intro
  | ok ws1 =>
    rw [henter] at hres
    rw [exceptBind_ok]
    have hsame := (mdSameWalkAll o opts fuel).2.1
      (some (.inlineComponent "Markdown" attrs children)) children ws1 hch
    cases hchild : walkNodes fuel o opts
        (some (.inlineComponent "Markdown" attrs children)) children ws1 with
    | error err =>
      have hb : ∀ f : WalkState → Except WalkErr WalkState,
          ((Except.error err : Except WalkErr WalkState) >>= f) = .error err := fun f => rfl
      rw [hb]
      exact True.intro
    | ok ws2 =>
      rw [hchild] at hsame
      rw [exceptBind_ok]
      have hm2 : ws2.cg.insideMarkdown = ws1.cg.insideMarkdown := hsame
      cases fuel with
      | zero => exact True.intro
      | succ g =>
        unfold leaveInlineComponent
        dsimp only
        rw [if_pos (rfl : "Markdown" = "Markdown")]
        rcases hres with hnone | ⟨s, hsome⟩
        · rw [hm2, hnone]
          exact True.intro
        · rw [hm2, hsome]
          dsimp only
          rw [if_pos (by decide : (1 : Int) - 1 ≤ 0)]
          split
          · exact rfl
          · exact mdNoneW_of_mdSameW (leaveInlineTail_mdSame g o opts attrs _) rfl

/-- C8: (i) at every point of the template walk the marker
`markers.insideMarkdown` is either `false` or a record whose `count` is
at least `1` — the invariant is carried through every walk step, on
successful results and on thrown rejections alike; (ii) a `<Markdown>`
region whose children contain no nested `Markdown` tag, compiled from a
cleared marker, has `insideMarkdown = false` at completion. -/
theorem c8_markdown_marker_invariant (fuel : Nat) (o : Oracles) (opts : WalkOptions)
    (parent1 parent2 : Option TemplateNode) (node : TemplateNode)
    (attrs : List AttrNode) (children : List TemplateNode) (ws1 ws2 : WalkState)
    (hinv : mdOkB ws1.cg.insideMarkdown = true)
    (hattrs : noMdAttrs attrs = true) (hch : noMdNodes children = true)
    (hnone : ws2.cg.insideMarkdown = none) :
    mdOkW (walkNode fuel o opts parent1 node ws1) ∧
    mdNoneW (walkNode (fuel + 1) o opts parent2
      (.inlineComponent "Markdown" attrs children) ws2) :=
  ⟨(mdOkWalkAll o opts fuel).1 parent1 node ws1 hinv,
   walkNode_markdown_completes fuel o opts parent2 attrs children ws2 hattrs hch hnone⟩

/-- Concrete instance of the C8 theorem: a plain `h1` element and a
`<Markdown>hi</Markdown>` region over a state that has the `Markdown`
component imported. -/
theorem c8_markdown_marker_invariant_witness :
    mdOkW (walkNode 19 oracleId optsBase none (.element "h1" [] [])
      ⟨cgEmpty, [], 1, "", "", .out⟩) ∧
    mdNoneW (walkNode (19 + 1) oracleId optsBase none
      (.inlineComponent "Markdown" [] [.textNode "hi"])
      ⟨⟨[("Markdown", ⟨.importDefaultSpecifier "Markdown", "astro/components/Markdown.astro"⟩)],
        [], "/p/f.astro", "f", none, [], [], [], [], []⟩, [], 1, "", "", .out⟩) :=
  c8_markdown_marker_invariant 19 oracleId optsBase none none (.element "h1" [] [])
    [] [.textNode "hi"] ⟨cgEmpty, [], 1, "", "", .out⟩
    ⟨⟨[("Markdown", ⟨.importDefaultSpecifier "Markdown", "astro/components/Markdown.astro"⟩)],
      [], "/p/f.astro", "f", none, [], [], [], [], []⟩, [], 1, "", "", .out⟩
    rfl rfl rfl rfl

/-! ### Claim C1: counting lemmas -/

/-- Character counts add over concatenation. -/
theorem countChar_append (c : Char) (s t : String) :
    countChar c (s ++ t) = countChar c s + countChar c t := by
  unfold countChar
  rw [String.data_append, List.count_append]

/-- Parenthesis balance adds over concatenation. -/
theorem parenBal_append (s t : String) :
    parenBal (s ++ t) = parenBal s + parenBal t := by
  unfold parenBal
  rw [countChar_append, countChar_append]
  push_cast
  ring

/-- A balanced string has balance zero. -/
theorem parenBal_eq_zero (s : String) (h : parenBalanced s = true) : parenBal s = 0 := by
  unfold parenBalanced at h
  unfold parenBal
  have h2 : countChar '(' s = countChar ')' s := by
    simpa using h
  omega

/-- Hexadecimal digits are not parentheses. -/
theorem hexDigit_ne_paren (n : Nat) : hexDigit n ≠ '(' ∧ hexDigit n ≠ ')' := by
  unfold hexDigit
  by_cases h : n < 16
  · interval_cases n <;> exact ⟨by decide, by decide⟩
  · rw [List.getD_eq_default]
    · exact ⟨by decide, by decide⟩
    · rw [show ("0123456789abcdef").data.length = 16 from rfl]
      omega

/-- The JSON escape of one character has the same parenthesis counts as
the character. -/
theorem jsonEscapeChar_count (c ch : Char) (hc : c = '(' ∨ c = ')') :
    (jsonEscapeChar ch).count c = [ch].count c := by
  unfold jsonEscapeChar
  split
  · rename_i h
    subst h
    rcases hc with h | h <;> subst h <;> decide
  · split
    · rename_i h
      subst h
      rcases hc with h | h <;> subst h <;> decide
    · split
      · rename_i h
        subst h
        rcases hc with h | h <;> subst h <;> decide
      · split
        · rename_i h
          subst h
          rcases hc with h | h <;> subst h <;> decide
        · split
          · rename_i h
            subst h
            rcases hc with h | h <;> subst h <;> decide
          · split
            · rename_i h
              subst h
              rcases hc with h | h <;> subst h <;> decide
            · split
              · rename_i h
                subst h
                rcases hc with h | h <;> subst h <;> decide
              · split
                · rename_i h
                  have hch : ch ≠ c := by
                    intro he
                    rw [he] at h
                    rcases hc with h2 | h2 <;> rw [h2] at h <;> exact absurd h (by decide)
                  have h1 := hexDigit_ne_paren (ch.toNat / 16)
                  have h2 := hexDigit_ne_paren (ch.toNat % 16)
                  have hx1 : hexDigit (ch.toNat / 16) ≠ c := by
                    rcases hc with h3 | h3 <;> rw [h3] <;> [exact h1.1; exact h1.2]
                  have hx2 : hexDigit (ch.toNat % 16) ≠ c := by
                    rcases hc with h3 | h3 <;> rw [h3] <;> [exact h2.1; exact h2.2]
                  have hb : '\\' ≠ c := by
                    rcases hc with h3 | h3 <;> rw [h3] <;> decide
                  have hu : 'u' ≠ c := by
                    rcases hc with h3 | h3 <;> rw [h3] <;> decide
                  have h0 : '0' ≠ c := by
                    rcases hc with h3 | h3 <;> rw [h3] <;> decide
                  simp [List.count_cons, hx1, hx2, hb, hu, h0, hch]
                · rfl

/-- `JSON.stringify` keeps parenthesis counts. -/
theorem jsonString_count (c : Char) (hc : c = '(' ∨ c = ')') (s : String) :
    countChar c (jsonString s) = countChar c s := by
  have hq : ('"' : Char) ≠ c := by
    rcases hc with h | h <;> rw [h] <;> decide
  unfold countChar jsonString
  show ('"' :: (s.data.map jsonEscapeChar).flatten ++ ['"']).count c = s.data.count c
  rw [List.count_append, List.count_cons]
  have hflat : ∀ l : List Char, ((l.map jsonEscapeChar).flatten).count c = l.count c := by
    intro l
    induction l with
    | nil => rfl
    | cons a l ih =>
      rw [List.map_cons, List.flatten_cons, List.count_append, ih,
        jsonEscapeChar_count c a hc]
      simp only [List.count_cons, List.count_nil]
      omega
  rw [hflat]
  have h1 : List.count c ['\"'] = 0 := by
    rcases hc with h | h <;> subst h <;> decide
  have h2 : ('\"' == c) = false := by
    rcases hc with h | h <;> subst h <;> decide
  rw [h1, h2]
  simp

/-- `parenBalanced` survives `JSON.stringify`. -/
theorem parenBalanced_jsonString (s : String) (h : parenBalanced s = true) :
    parenBalanced (jsonString s) = true := by
  unfold parenBalanced at h ⊢
  rw [jsonString_count '(' (Or.inl rfl), jsonString_count ')' (Or.inr rfl)]
  exact h

/-- `parenBal` survives `JSON.stringify`. -/
theorem parenBal_jsonString (s : String) : parenBal (jsonString s) = parenBal s := by
  unfold parenBal
  rw [jsonString_count '(' (Or.inl rfl), jsonString_count ')' (Or.inr rfl)]

/-- Global replacement with counted-character-free pattern and
replacement keeps the count. -/
theorem count_replaceAllSub (c : Char) (pat repl : List Char)
    (hp : pat.count c = 0) (hr : repl.count c = 0) :
    ∀ l : List Char, (replaceAllSub pat repl l).count c = l.count c := by
  intro l
  induction l using replaceAllSub.induct pat repl with
  | case1 => rw [replaceAllSub]
  | case2 ch rest h ih =>
    rw [replaceAllSub, dif_pos h]
    obtain ⟨t, ht⟩ := List.isPrefixOf_iff_prefix.mp h.2
    rw [List.count_append, ih, hr]
    rw [← ht, List.drop_left, List.count_append, hp]
  | case3 ch rest h ih =>
    rw [replaceAllSub, dif_neg h]
    rw [List.count_cons, List.count_cons, ih]

/-- The `<code>` curly unescape keeps the balance. -/
theorem parenBal_unescapeCurly (raw : String) :
    parenBal (unescapeCurly raw) = parenBal raw := by
  unfold parenBal countChar unescapeCurly replaceAllStr
  rw [show (String.mk (replaceAllSub ("ASTRO_ESCAPED_LEFT_CURLY_BRACKET" ++ "\x00").data
      ("\x7b" : String).data raw.data)).data = replaceAllSub
      ("ASTRO_ESCAPED_LEFT_CURLY_BRACKET" ++ "\x00").data ("\x7b" : String).data raw.data from rfl]
  rw [count_replaceAllSub '(' _ _ (by decide) (by decide),
    count_replaceAllSub ')' _ _ (by decide) (by decide)]

/-- The leading-comma strip keeps non-comma counts. -/
theorem count_stripLeadingComma (c : Char) (hc : c ≠ ',') (s : String) :
    countChar c (stripLeadingComma s) = countChar c s := by
  unfold countChar stripLeadingComma
  split
  · rename_i rest heq
    rw [heq]
    simp [List.count_cons, hc, Ne.symm hc]
  · rfl

/-- The `,)` collapse keeps non-comma counts. -/
theorem count_collapseCommaParen (c : Char) (hc : c ≠ ',') :
    ∀ l : List Char, (collapseCommaParen l).count c = l.count c := by
  intro l
  induction l using collapseCommaParen.induct with
  | case1 rest ih =>
    rw [collapseCommaParen]
    simp only [List.count_cons]
    rw [ih]
    have : (',' == c) = false := by
      simp [Ne.symm hc]
    simp [this]
  | case2 ch rest hne ih =>
    rw [collapseCommaParen]
    · simp only [List.count_cons]
      rw [ih]
    · exact hne
  | case3 =>
    rfl

/-- The comma-run collapse keeps non-comma counts. -/
theorem count_dropDupCommas (c : Char) (hc : c ≠ ',') (l : List Char) :
    (dropDupCommas l).count c = l.count c := by
  unfold dropDupCommas
  induction l with
  | nil => rfl
  | cons a l ih =>
    rw [List.foldr_cons]
    split
    · rename_i h
      rw [ih, List.count_cons]
      have : (a == c) = false := by
        simp [h.1, Ne.symm hc]
      simp [this]
    · rw [List.count_cons, List.count_cons, ih]

/-- The `)h` comma insertion keeps non-comma counts. -/
theorem count_insertCommaParenH (c : Char) (hc : c ≠ ',') :
    ∀ l : List Char, (insertCommaParenH l).count c = l.count c := by
  intro l
  induction l using insertCommaParenH.induct with
  | case1 rest ih =>
    rw [insertCommaParenH]
    simp only [List.count_cons]
    rw [ih]
    have : (',' == c) = false := by
      simp [Ne.symm hc]
    simp [this]
  | case2 ch rest hne ih =>
    rw [insertCommaParenH]
    · simp only [List.count_cons]
      rw [ih]
    · exact hne
  | case3 =>
    rfl

/-- The whole cleanup chain keeps non-comma counts. -/
theorem countChar_cleanupHtml (c : Char) (hc : c ≠ ',') (s : String) :
    countChar c (cleanupHtml s) = countChar c s := by
  unfold cleanupHtml
  show (insertCommaParenH (dropDupCommas (collapseCommaParen
    (stripLeadingComma s).data))).count c = countChar c s
  rw [count_insertCommaParenH c hc, count_dropDupCommas c hc, count_collapseCommaParen c hc]
  exact count_stripLeadingComma c hc s

/-- The balance of a left fold of appends over balanced pieces. -/
theorem parenBal_foldl_append (l : List String) (acc : String)
    (h : ∀ x ∈ l, parenBal x = 0) :
    parenBal (l.foldl (fun a b => a ++ b) acc) = parenBal acc := by
  induction l generalizing acc with
  | nil => rfl
  | cons a l ih =>
    rw [List.foldl_cons, ih _ (fun x hx => h x (List.mem_cons_of_mem a hx)),
      parenBal_append, h a (List.mem_cons_self a l)]
    ring

/-- Joining balanced pieces is balanced. -/
theorem parenBal_join (l : List String) (h : ∀ x ∈ l, parenBal x = 0) :
    parenBal (String.join l) = 0 := by
  show parenBal (l.foldl (fun a b => a ++ b) "") = 0
  rw [parenBal_foldl_append l "" h]
  decide

/-- One emitted attribute entry of a balanced pair is balanced. -/
theorem attrEntry_parenBal (kv : String × String)
    (hk : parenBalanced kv.1 = true) (hv : parenBalanced kv.2 = true)
    (e : String) (he : attrEntry kv = some e) : parenBal e = 0 := by
  unfold attrEntry at he
  split at he
  · exact absurd he (by simp)
  · split at he
    · rw [← Option.some_inj.mp he, parenBal_append]
      rw [parenBal_eq_zero kv.1 hk]
      decide
    · rw [← Option.some_inj.mp he, parenBal_append, parenBal_append, parenBal_append,
        parenBal_jsonString, parenBal_eq_zero kv.1 hk, parenBal_eq_zero kv.2 hv]
      decide

/-- The generated props object of a balanced attribute map is balanced. -/
theorem generateAttributes_parenBal (m : List (String × String))
    (h : attrsBalanced m = true) : parenBal (generateAttributes m) = 0 := by
  unfold generateAttributes
  rw [parenBal_append, parenBal_append, parenBal_append]
  have hj : parenBal (String.join (m.filterMap attrEntry)) = 0 := by
    refine parenBal_join _ ?_
    intro x hx
    obtain ⟨kv, hkv, he⟩ := List.mem_filterMap.mp hx
    unfold attrsBalanced at h
    rw [List.all_eq_true] at h
    have hb := h kv hkv
    rw [Bool.and_eq_true] at hb
    exact attrEntry_parenBal kv hb.1 hb.2 x he
  rw [hj]
  decide

/-- Keys of an updated map: old keys or the inserted one. -/
theorem mem_mapSet {α : Type} {x : String × α} (m : List (String × α)) (k : String) (v : α)
    (h : x ∈ mapSet m k v) : x ∈ m ∨ x = (k, v) := by
  unfold mapSet at h
  split at h
  · obtain ⟨kv, hkv, heq⟩ := List.mem_map.mp h
    split at heq
    · right
      exact heq.symm
    · left
      exact heq ▸ hkv
  · rcases List.mem_append.mp h with h1 | h1
    · left
      exact h1
    · right
      simpa using h1

/-- A key is absent exactly when no entry bears it. -/
theorem mapGet_eq_none_iff {α : Type} (m : List (String × α)) (k : String) :
    mapGet m k = none ↔ ∀ kv ∈ m, kv.1 ≠ k := by
  unfold mapGet
  rw [Option.map_eq_none']
  rw [List.find?_eq_none]
  simp

/-- Updating under a different key keeps `slot` absent. -/
theorem mapGet_mapSet_slot {α : Type} (m : List (String × α)) (k : String) (v : α)
    (hm : mapGet m "slot" = none) (hk : k ≠ "slot") :
    mapGet (mapSet m k v) "slot" = none := by
  rw [mapGet_eq_none_iff] at hm ⊢
  intro kv hkv
  rcases mem_mapSet m k v hkv with h | h
  · exact hm kv h
  · rw [h]
    exact hk

/-- Updating with a balanced pair keeps the map balanced. -/
theorem attrsBalanced_mapSet (m : List (String × String)) (k v : String)
    (h : attrsBalanced m = true) (hk : parenBalanced k = true) (hv : parenBalanced v = true) :
    attrsBalanced (mapSet m k v) = true := by
  unfold attrsBalanced at h ⊢
  rw [List.all_eq_true] at h ⊢
  intro kv hkv
  rcases mem_mapSet m k v hkv with h1 | h1
  · exact h kv h1
  · rw [h1]
    simp [hk, hv]

/-- Quiet attribute lists never carry a `slot`-named attribute node. -/
theorem hasSlotAttrNode_quiet (attrs : List AttrNode) (hq : quietAttrs attrs = true) :
    hasSlotAttrNode attrs = false := by
  induction attrs with
  | nil => rfl
  | cons a rest ih =>
    simp only [quietAttrs, Bool.and_eq_true] at hq
    have hrest := ih hq.2
    unfold hasSlotAttrNode at hrest ⊢
    rw [List.any_cons, hrest, Bool.or_false]
    have hne : attrNameOpt a ≠ some "slot" := by
      rcases a with ⟨chunks, children⟩ | ⟨name, v⟩
      · simp [attrNameOpt]
      · simp only [attrNameOpt, Ne, Option.some_inj]
        intro he
        subst he
        have h1 := hq.1
        rcases v with _ | _ | ps
        · exact Bool.noConfusion h1
        · exact Bool.noConfusion h1
        · rcases ps with _ | ⟨p, ps2⟩
          · exact Bool.noConfusion h1
          · rcases p with raw | ⟨c2, k2⟩ | _ | k2
            · rcases ps2 with _ | ⟨q, ps3⟩
              · exact Bool.noConfusion h1
              · exact Bool.noConfusion h1
            · exact Bool.noConfusion h1
            · exact Bool.noConfusion h1
            · exact Bool.noConfusion h1
    simp [hne]

/-- No `slot` key in the map, no slot wrapper. -/
theorem slotContentWrap_of_none (acc : List (String × String)) (ws : WalkState)
    (h : mapGet acc "slot" = none) : slotContentWrap acc ws = ws := by
  unfold slotContentWrap
  rw [h]

/-- A push in `out` mode appends to `buffers.out`. -/
theorem pushCurr_of_out (ws : WalkState) (s : String) (hc : ws.curr = .out) :
    pushCurr ws s = { ws with bufOut := ws.bufOut ++ s } := by
  unfold pushCurr
  rw [hc]

/-- The quiet closers: no slot close, one group close. -/
theorem closePart_quiet (attrs : List AttrNode) (ws : WalkState)
    (h : hasSlotAttrNode attrs = false) (hp : ws.paren ≠ -1) :
    closePart attrs ws = { ws with bufOut := ws.bufOut ++ ")", paren := ws.paren - 1 } := by
  unfold closePart
  dsimp only
  rw [if_neg (show ¬ (hasSlotAttrNode attrs = true) by simp [h])]
  rw [if_pos hp]

/-- Weaken the accumulator of a quiet attribute-resolution result. -/
theorem quietAttrsRes_step {acc acc1 : List (String × String)} {ws : WalkState}
    {e : Except WalkErr (List (String × String) × WalkState)}
    (h : quietAttrsRes acc1 ws e)
    (hslot : mapGet acc "slot" = none → mapGet acc1 "slot" = none)
    (hbal : attrsBalanced acc = true → attrsBalanced acc1 = true) :
    quietAttrsRes acc ws e := by
  cases e with
  | ok p =>
    obtain ⟨a2, ws2⟩ := p
    exact ⟨h.1, h.2.1, h.2.2.1, h.2.2.2.1, h.2.2.2.2.1,
      fun hs => h.2.2.2.2.2.1 (hslot hs), fun hb => h.2.2.2.2.2.2 (hbal hb)⟩
  | error err =>
    cases err with
    | fuelOut => exact True.intro
    | thrown m w => exact h

/-- Resolving quiet attributes: the walk state is unchanged apart from
the log, nothing throws, and the accumulated map stays `slot`-free and
balanced. -/
theorem getAttributesGo_quiet (o : Oracles) (opts : WalkOptions) : ∀ fuel : Nat,
    ∀ nodeName isPage attrs acc ws, quietAttrs attrs = true →
      quietAttrsRes acc ws (getAttributesGo fuel o opts nodeName isPage attrs acc ws) := by
  intro fuel
  induction fuel with
  | zero =>
    intros
    exact True.intro
  | succ fuel ih =>
    intro nodeName isPage attrs acc ws hq
    cases attrs with
    | nil =>
      unfold getAttributesGo
      dsimp only
      exact ⟨rfl, rfl, rfl, rfl, rfl, fun h => h, fun h => h⟩
    | cons a rest =>
      unfold getAttributesGo
      dsimp only
      simp only [quietAttrs, Bool.and_eq_true] at hq
      split
      · exact Bool.noConfusion hq.1
      · rename_i aname
        have h1 : (parenBalanced aname && (aname != "slot")) = true := hq.1
        rw [Bool.and_eq_true, bne_iff_ne] at h1
        refine quietAttrsRes_step (ih nodeName isPage rest _ ws hq.2) ?_ ?_
        · intro hs
          exact mapGet_mapSet_slot acc aname "true" hs h1.2
        · intro hb
          exact attrsBalanced_mapSet acc aname "true" hb h1.1 (by decide)
      · exact quietAttrsRes_step (ih nodeName isPage rest acc ws hq.2)
          (fun h => h) (fun h => h)
      · rename_i aname
        have h1 : (parenBalanced aname && (aname != "slot")) = true := hq.1
        rw [Bool.and_eq_true, bne_iff_ne] at h1
        refine quietAttrsRes_step (ih nodeName isPage rest _ ws hq.2) ?_ ?_
        · intro hs
          exact mapGet_mapSet_slot acc aname "\"\"" hs h1.2
        · intro hb
          exact attrsBalanced_mapSet acc aname "\"\"" hb h1.1 (by decide)
      · rename_i aname p q ps
        rcases p with raw | ⟨c2, k2⟩ | _ | k2 <;> exact Bool.noConfusion hq.1
      · rename_i aname raw
        have h1 : (parenBalanced aname && (aname != "slot") && parenBalanced raw) = true := hq.1
        rw [Bool.and_eq_true, Bool.and_eq_true, bne_iff_ne] at h1
        refine quietAttrsRes_step (ih nodeName isPage rest _ _ hq.2) ?_ ?_
        · intro hs
          exact mapGet_mapSet_slot acc aname (jsonString raw) hs h1.1.2
        · intro hb
          exact attrsBalanced_mapSet acc aname (jsonString raw) hb h1.1.1
            (parenBalanced_jsonString raw h1.2)
      · exact Bool.noConfusion hq.1
      · exact Bool.noConfusion hq.1
      · exact Bool.noConfusion hq.1

/-- `getAttributes` on quiet attributes. -/
theorem getAttributesW_quiet (o : Oracles) (opts : WalkOptions) (fuel : Nat)
    (nodeName : String) (attrs : List AttrNode) (ws : WalkState)
    (hq : quietAttrs attrs = true) :
    quietAttrsRes [] ws (getAttributesW fuel o opts nodeName attrs ws) := by
  cases fuel with
  | zero => exact True.intro
  | succ fuel =>
    unfold getAttributesW
    dsimp only
    exact getAttributesGo_quiet o opts fuel nodeName _ attrs [] ws hq

/-- Buffer pushes keep the mode. -/
theorem pushCurr_curr (ws : WalkState) (s : String) : (pushCurr ws s).curr = ws.curr := by
  unfold pushCurr
  cases hc : ws.curr <;> rfl

/-- Buffer pushes keep the counter. -/
theorem pushCurr_paren (ws : WalkState) (s : String) : (pushCurr ws s).paren = ws.paren := by
  unfold pushCurr
  cases hc : ws.curr <;> rfl

/-- An `out`-mode push keeps the markdown buffer. -/
theorem pushCurr_bufMd_out (ws : WalkState) (s : String) (hc : ws.curr = .out) :
    (pushCurr ws s).bufMd = ws.bufMd := by
  rw [pushCurr_of_out ws s hc]

/-- An `out`-mode push appends to the html buffer. -/
theorem pushCurr_bufOut_out (ws : WalkState) (s : String) (hc : ws.curr = .out) :
    (pushCurr ws s).bufOut = ws.bufOut ++ s := by
  rw [pushCurr_of_out ws s hc]

/-- The enter of a quiet element: nothing thrown, one group opened. -/
theorem enterTry_quiet (o : Oracles) (opts : WalkOptions) (fuel : Nat)
    (name : String) (attrs : List AttrNode) (ws : WalkState)
    (hcomp : isComponentTag name = false) (hbal : parenBalanced name = true)
    (hq : quietAttrs attrs = true) (hcurr : ws.curr = .out) :
    quietEnterRes ws (enterElementTry fuel o opts name attrs ws) := by
  cases fuel with
  | zero => exact True.intro
  | succ fuel =>
    unfold enterElementTry
    dsimp only
    have hga := getAttributesW_quiet o opts fuel name attrs ws hq
    cases hgaeq : getAttributesW fuel o opts name attrs ws with
    | error err =>
      rw [hgaeq] at hga
      have hb : ∀ f : List (String × String) × WalkState → Except WalkErr WalkState,
          ((Except.error err : Except WalkErr (List (String × String) × WalkState)) >>= f)
            = .error err := fun f => rfl
      rw [hb]
      cases err with
      | fuelOut => exact True.intro
      | thrown m w => exact absurd hga (by simp [quietAttrsRes])
    | ok p =>
      obtain ⟨acc, ws1⟩ := p
      rw [hgaeq] at hga
      obtain ⟨hcg, hcu, hbo, hbm, hpar, hslotf, hbalf⟩ := hga
      have hslot0 : mapGet acc "slot" = none := hslotf rfl
      have hbal0 : attrsBalanced acc = true := hbalf rfl
      have hb : ∀ f : List (String × String) × WalkState → Except WalkErr WalkState,
          ((Except.ok (acc, ws1) : Except WalkErr (List (String × String) × WalkState)) >>= f)
            = f (acc, ws1) := fun f => rfl
      rw [hb]
      dsimp only
      rw [if_pos (show ¬ isComponentTag name = true by simp [hcomp])]
      have hcurr1 : ws1.curr = .out := by
        rw [hcu, hcurr]
      rw [if_neg (show ¬ (ws1.curr = BufKind.markdown) by rw [hcurr1]; simp)]
      have hpb : ∀ (a : WalkState) (f : WalkState → Except WalkErr WalkState),
          ((pure a : Except WalkErr WalkState) >>= f) = f a := fun a f => rfl
      rw [hpb]
      rw [slotContentWrap_of_none acc _ hslot0]
      have hc2 : ({ cg := ws1.cg, log := ws1.log, paren := ws1.paren,
                    bufOut := ws1.bufOut ++ (if ws1.bufOut = "" then "" else ","),
                    bufMd := ws1.bufMd, curr := ws1.curr } : WalkState).curr = .out := hcurr1
      refine ⟨?_, ?_, ?_, ?_, ?_⟩
      · rw [pushCurr_curr]
        exact hcurr1
      · rw [pushCurr_cg]
        exact hcg
      · rw [pushCurr_bufMd_out _ _ hc2]
        exact hbm
      · rw [pushCurr_paren]
        show ws1.paren + 1 = ws.paren + 1
        rw [hpar]
      · rw [pushCurr_bufOut_out _ _ hc2]
        show parenBal ((ws1.bufOut ++ if ws1.bufOut = "" then "" else ",") ++
            ("h(\"" ++ name ++ "\", " ++ generateAttributes acc ++ ",")) = parenBal ws.bufOut + 1
        rw [parenBal_append, parenBal_append, parenBal_append, parenBal_append,
          parenBal_append, parenBal_append]
        rw [parenBal_eq_zero name hbal, generateAttributes_parenBal acc hbal0]
        have hcomma : parenBal (if ws1.bufOut = "" then "" else ",") = 0 := by
          split <;> decide
        rw [hcomma, hbo]
        have h1 : parenBal "h(\"" = 1 := by decide
        have h2 : parenBal "\", " = 0 := by decide
        have h3 : parenBal "," = 0 := by decide
        rw [h1, h2, h3]
        ring

/-- The enter hook on a quiet element. -/
theorem enterLike_quiet (o : Oracles) (opts : WalkOptions) (fuel : Nat)
    (name : String) (attrs : List AttrNode) (ws : WalkState)
    (hcomp : isComponentTag name = false) (hne : name ≠ "")
    (hbal : parenBalanced name = true)
    (hq : quietAttrs attrs = true) (hcurr : ws.curr = .out) :
    quietEnterRes ws (enterElementLike fuel o opts false name attrs ws) := by
  cases fuel with
  | zero => exact True.intro
  | succ fuel =>
    unfold enterElementLike
    dsimp only
    rw [if_neg hne]
    rw [if_neg (show ¬ (false = true ∧ name = "Prism") by simp)]
    have htry := enterTry_quiet o opts fuel name attrs ws hcomp hbal hq hcurr
    split
    · rename_i ws1 heq
      rw [heq] at htry
      exact htry
    · exact True.intro
    · rename_i msg wsT heq
      rw [heq] at htry
      exact absurd htry (by simp [quietEnterRes])

/-- The leave hook on a quiet element in `out` mode. -/
theorem leaveElementClass_quietRes (o : Oracles) (opts : WalkOptions) (fuel : Nat)
    (attrs : List AttrNode) (ws : WalkState)
    (hcurr : ws.curr = .out) (hslot : hasSlotAttrNode attrs = false) (hp : ws.paren ≠ -1) :
    quietLeaveRes ws (leaveElementClass fuel o opts attrs ws) := by
  cases fuel with
  | zero => exact True.intro
  | succ fuel =>
    unfold leaveElementClass
    rw [if_neg (show ¬ (ws.curr = BufKind.markdown) by rw [hcurr]; simp)]
    show closePart attrs ws = _
    exact closePart_quiet attrs ws hslot hp

/-- Bind reduction of the walk monad on a success. -/
theorem wbind_ok (a : WalkState) (f : WalkState → Except WalkErr WalkState) :
    ((Except.ok a : Except WalkErr WalkState) >>= f) = f a := rfl

/-- Bind reduction of the walk monad on a rejection. -/
theorem wbind_err (e : WalkErr) (f : WalkState → Except WalkErr WalkState) :
    ((Except.error e : Except WalkErr WalkState) >>= f) = .error e := rfl

/-- The quiet-fragment invariant over the whole walk: in `out` mode with
no Markdown marker, a quiet subtree preserves mode, marker, markdown
buffer, counter and net parenthesis balance. -/
theorem quietWalkAll (o : Oracles) (opts : WalkOptions) : ∀ fuel : Nat,
    (∀ parent node ws, quietNode node = true → ws.curr = .out →
      ws.cg.insideMarkdown = none → -1 ≤ ws.paren →
      quietStepRes ws (walkNode fuel o opts parent node ws)) ∧
    (∀ parent nodes ws, quietNodes nodes = true → ws.curr = .out →
      ws.cg.insideMarkdown = none → -1 ≤ ws.paren →
      quietStepRes ws (walkNodes fuel o opts parent nodes ws)) := by
  intro fuel
  induction fuel with
  | zero =>
    refine ⟨?_, ?_⟩ <;> intros <;> exact True.intro
  | succ fuel ih =>
    obtain ⟨ihWN, ihWNs⟩ := ih
    refine ⟨?_, ?_⟩
    · intro parent node ws hq hcurr hmk hpar
      cases node with
      | fragment children => exact absurd hq (by simp [quietNode])
      | slotTemplate attrs children => exact absurd hq (by simp [quietNode])
      | inlineComponent name attrs children => exact absurd hq (by simp [quietNode])
      | expressionNode chunks children => exact absurd hq (by simp [quietNode])
      | mustacheTag children => exact absurd hq (by simp [quietNode])
      | element name attrs children =>
        simp only [quietNode, Bool.and_eq_true, Bool.not_eq_true', bne_iff_ne] at hq
        obtain ⟨⟨⟨⟨hcompB, hneB⟩, hbalB⟩, hattrsB⟩, hchB⟩ := hq
        unfold walkNode
        dsimp only
        have hent := enterLike_quiet o opts fuel name attrs ws hcompB hneB hbalB hattrsB hcurr
        cases heq1 : enterElementLike fuel o opts false name attrs ws with
        | error err =>
          rw [wbind_err]
          exact True.intro
        | ok ws1 =>
          rw [heq1] at hent
          obtain ⟨he1, he2, he3, he4, he5⟩ := hent
          rw [wbind_ok]
          have hch := ihWNs (some (.element name attrs children)) children ws1 hchB he1
            (by rw [he2]; exact hmk) (by rw [he4]; omega)
          cases heq2 : walkNodes fuel o opts (some (.element name attrs children)) children ws1 with
          | error err =>
            rw [wbind_err]
            exact True.intro
          | ok ws2 =>
            rw [heq2] at hch
            obtain ⟨hc1, hc2, hc3, hc4, hc5⟩ := hch
            rw [wbind_ok]
            have hlv := leaveElementClass_quietRes o opts fuel attrs ws2 hc1
              (hasSlotAttrNode_quiet attrs hattrsB) (by rw [hc4, he4]; omega)
            cases heq3 : leaveElementClass fuel o opts attrs ws2 with
            | error err => exact True.intro
            | ok ws3 =>
              rw [heq3] at hlv
              rw [hlv]
              refine ⟨hc1, hc2, ?_, ?_, ?_⟩
              · show ws2.bufMd = ws.bufMd
                rw [hc3, he3]
              · show ws2.paren - 1 = ws.paren
                rw [hc4, he4]
                ring
              · show parenBal (ws2.bufOut ++ ")") = parenBal ws.bufOut
                rw [parenBal_append, hc5, he5]
                have hrp : parenBal ")" = -1 := by decide
                rw [hrp]
                ring
      | commentNode =>
        unfold walkNode
        dsimp only
        exact ⟨hcurr, hmk, rfl, rfl, rfl⟩
      | textNode raw =>
        simp only [quietNode] at hq
        unfold walkNode
        dsimp only
        rw [if_neg (show ¬ (ws.cg.insideMarkdown.isSome = true) by rw [hmk]; simp)]
        cases parent with
        | none => exact True.intro
        | some p =>
          dsimp only
          by_cases hcond : nodeNameOpt p ≠ some "Markdown" ∧ jsTrim raw = ""
          · rw [if_pos hcond]
            exact ⟨hcurr, hmk, rfl, rfl, rfl⟩
          · rw [if_neg hcond]
            refine ⟨?_, ?_, ?_, ?_, ?_⟩
            · rw [pushCurr_curr]
              exact hcurr
            · rw [pushCurr_cg]
              exact hmk
            · rw [pushCurr_bufMd_out _ _ hcurr]
            · rw [pushCurr_paren]
            · rw [pushCurr_bufOut_out _ _ hcurr, parenBal_append, parenBal_append,
                parenBal_jsonString]
              have h0 : parenBal "," = 0 := by decide
              have htext : parenBal (if nodeNameOpt p = some "code"
                  then unescapeCurly raw else raw) = 0 := by
                split
                · rw [parenBal_unescapeCurly]
                  exact parenBal_eq_zero raw hq
                · exact parenBal_eq_zero raw hq
              rw [h0, htext]
              ring
      | codeSpan raw dataStr =>
        simp only [quietNode] at hq
        unfold walkNode
        dsimp only
        rw [if_neg (show ¬ (ws.cg.insideMarkdown.isSome = true) by rw [hmk]; simp)]
        refine ⟨?_, ?_, ?_, ?_, ?_⟩
        · rw [pushCurr_curr]
          exact hcurr
        · rw [pushCurr_cg]
          exact hmk
        · rw [pushCurr_bufMd_out _ _ hcurr]
        · rw [pushCurr_paren]
        · rw [pushCurr_bufOut_out _ _ hcurr, parenBal_append, parenBal_append,
            parenBal_jsonString]
          have h0 : parenBal "," = 0 := by decide
          rw [h0, parenBal_eq_zero dataStr hq]
          ring
      | codeFence raw dataStr =>
        simp only [quietNode] at hq
        unfold walkNode
        dsimp only
        rw [if_neg (show ¬ (ws.cg.insideMarkdown.isSome = true) by rw [hmk]; simp)]
        refine ⟨?_, ?_, ?_, ?_, ?_⟩
        · rw [pushCurr_curr]
          exact hcurr
        · rw [pushCurr_cg]
          exact hmk
        · rw [pushCurr_bufMd_out _ _ hcurr]
        · rw [pushCurr_paren]
        · rw [pushCurr_bufOut_out _ _ hcurr, parenBal_append, parenBal_append,
            parenBal_jsonString]
          have h0 : parenBal "," = 0 := by decide
          rw [h0, parenBal_eq_zero dataStr hq]
          ring
      | styleNode styles =>
        unfold walkNode
        dsimp only
        exact ⟨hcurr, hmk, rfl, rfl, rfl⟩
    · intro parent nodes ws hq hcurr hmk hpar
      cases nodes with
      | nil =>
        unfold walkNodes
        dsimp only
        exact ⟨hcurr, hmk, rfl, rfl, rfl⟩
      | cons n rest =>
        simp only [quietNodes, Bool.and_eq_true] at hq
        obtain ⟨hqn, hqrest⟩ := hq
        unfold walkNodes
        dsimp only
        have hn := ihWN parent n ws hqn hcurr hmk hpar
        cases heq1 : walkNode fuel o opts parent n ws with
        | error err =>
          rw [wbind_err]
          exact True.intro
        | ok ws1 =>
          rw [heq1] at hn
          obtain ⟨hn1, hn2, hn3, hn4, hn5⟩ := hn
          rw [wbind_ok]
          have hrest := ihWNs parent rest ws1 hqrest hn1 hn2 (by rw [hn4]; exact hpar)
          cases heq2 : walkNodes fuel o opts parent rest ws1 with
          | error err => exact True.intro
          | ok ws2 =>
            rw [heq2] at hrest
            obtain ⟨hr1, hr2, hr3, hr4, hr5⟩ := hrest
            exact ⟨hr1, hr2, hr3.trans hn3, hr4.trans hn4, hr5.trans hn5⟩

/-- C1 (amended): the balanced-parentheses guarantee holds on the static
fragment -- documents built from plain (non-component) elements with
quiet textual attributes and balanced textual leaves, compiled outside
any Markdown region: whenever such a compile succeeds, the emitted html
has equal counts of opening and closing parentheses.  (The original
claim's extension to recovered element-emission errors is refuted by
`c1_counterexample`: the recovery catch decrements the counter but the
flushed buffer keeps the unmatched closer.) -/
theorem c1_balanced_quiet (fuel : Nat) (o : Oracles) (opts : WalkOptions)
    (node : TemplateNode) (cg : CodegenState) (log : List LogEvent)
    (hq : quietNode node = true) (hmk : cg.insideMarkdown = none) :
    balancedOkC (compileHtml fuel o opts node cg log) := by
  cases fuel with
  | zero => exact True.intro
  | succ fuel =>
    unfold compileHtml
    have hw := (quietWalkAll o opts fuel).1 none node ⟨cg, log, -1, "", "", .out⟩ hq rfl hmk
      (le_refl (-1))
    cases heq : walkNode fuel o opts none node ⟨cg, log, -1, "", "", .out⟩ with
    | error err => cases err <;> exact True.intro
    | ok ws =>
      rw [heq] at hw
      obtain ⟨h1, h2, h3, h4, h5⟩ := hw
      show countChar '(' (cleanupHtml ws.bufOut) = countChar ')' (cleanupHtml ws.bufOut)
      rw [countChar_cleanupHtml '(' (by decide) ws.bufOut,
        countChar_cleanupHtml ')' (by decide) ws.bufOut]
      have h5z : parenBal ws.bufOut = 0 := by
        rw [h5]
        show parenBal "" = 0
        decide
      unfold parenBal at h5z
      omega

/-- C1 witness: the quiet document `<h1>Hi</h1>` satisfies the
hypotheses and compiles to balanced html. -/
theorem c1_balanced_quiet_witness :
    quietNode (.element "h1" [] [.textNode "Hi"]) = true ∧
    cgEmpty.insideMarkdown = none ∧
    balancedOkC (compileHtml 10 oracleId optsBase
      (.element "h1" [] [.textNode "Hi"]) cgEmpty []) :=
  ⟨by decide, rfl,
    c1_balanced_quiet 10 oracleId optsBase (.element "h1" [] [.textNode "Hi"]) cgEmpty []
      (by decide) rfl⟩
